import Mathlib

/-!
Double-buffered audio streaming (`main.go`).

A shallow embedding of the chunk aggregator `stream`, the constructor
`NewAudio`, the playback loop `Run` and `Close`, together with the
properties of the specification that can be settled on them.

Samples are `int16` values; the code only moves them around, so they are
embedded as integers.  Channels are embedded as lists in FIFO order.
-/

namespace AudioExperiments

/-- One `int16` sample. -/
abbrev Sample := Int

/-- One value sent on `schan`: a `[]int16` slice. -/
abbrev Chunk := List Sample

/-! ## `stream` -/

/-- Local state of `stream`: the accumulator `samples` and, in emission
order, the slices sent on `schan` so far. -/
structure StreamState where
  samples : List Sample
  emitted : List Chunk
deriving DecidableEq, Repr

/-- One turn of the `for` loop of `stream`: append the sample received from
`audio.input`; when `len(samples) == audio.sampleSize` send the accumulator
on `schan` and start a fresh one. -/
def streamStep (sampleSize : Int) (st : StreamState) (x : Sample) : StreamState :=
  let samples := st.samples ++ [x]
  if (samples.length : Int) = sampleSize then
    { samples := [], emitted := st.emitted ++ [samples] }
  else
    { samples := samples, emitted := st.emitted }

/-- The loop of `stream` run over the samples read from `audio.input`,
starting from `samples := []int16{}`. -/
def stream (sampleSize : Int) (input : List Sample) : StreamState :=
  input.foldl (streamStep sampleSize) { samples := [], emitted := [] }

/-! ## The OpenAL binding

The package `al` is an external library.  The calls `main.go` makes are
taken as a parameter: a device is a state type with one transition per call.
Each call may raise an error, which the library hands to the error handler
installed last with `al.SetErrorHandler`. -/

/-- A `uint32` buffer name. -/
abbrev BufId := Nat

/-- The error a device call raises. -/
abbrev AlError := Nat

/-- The three parameters `Run` queries with `GetSourcei`. -/
inductive Param where
  | BUFFERS_PROCESSED
  | SOURCE_STATE
  | BUFFERS_QUEUED
deriving DecidableEq, Repr

/-- The OpenAL value `AL_INITIAL`. -/
def INITIAL : Int := 0x1011

/-- The OpenAL value `AL_PLAYING` (`al.PLAYING`). -/
def PLAYING : Int := 0x1012

/-- The OpenAL value `AL_STOPPED`. -/
def STOPPED : Int := 0x1014

/-- The OpenAL error `AL_INVALID_VALUE`. -/
def INVALID_VALUE : AlError := 0xA003

/-- The OpenAL error `AL_INVALID_OPERATION`. -/
def INVALID_OPERATION : AlError := 0xA004

/-- The device calls of `main.go` over a device state `σ`.  Every call
returns the next device state and the error it raises, if any.
`GetSourcei` also returns the value it stores through its pointer argument
(`none`: nothing stored); `SourceUnqueueBuffers` is given the length of the
slice and returns the names it stores at its front; `GenSources` returns the
name it stores and `GenBuffers` the names it stores. -/
structure Device (σ : Type) where
  GenSources : σ → σ × Nat × Option AlError
  IsSource : σ → Nat → Bool
  Sourcei : σ → Nat → σ × Option AlError
  GenBuffers : σ → Nat → σ × List BufId × Option AlError
  IsBuffer : σ → BufId → Bool
  SourceQueueBuffers : σ → List BufId → σ × Option AlError
  SourcePlay : σ → σ × Option AlError
  GetSourcei : σ → Param → σ × Option Int × Option AlError
  SourceUnqueueBuffers : σ → Nat → σ × List BufId × Option AlError
  BufferData : σ → BufId → Chunk → σ × Option AlError
  DeleteSources : σ → σ × Option AlError
  DeleteBuffers : σ → List BufId → σ × Option AlError
  Close : σ → σ × Option AlError

/-- The closure installed last with `al.SetErrorHandler`: the one of
`NewAudio` (`err = e` on its result), the `handler` of `Run`, or the one of
`bufferData` (`err = e` on its result). -/
inductive Handler where
  | newAudio
  | run
  | bufferData
deriving DecidableEq, Repr

/-! ## `Azul3DAudio` and `NewAudio` -/

/-- The fields of `Azul3DAudio` the embedded functions read.  The `float32`
field `speed`, the device pointer and the channel `input` are left out: the
device is passed along as a state and the input as a list. -/
structure Azul3DAudio where
  paused : Bool
  frequency : Int
  source : Nat
  buffers : List BufId
  sampleSize : Int
deriving DecidableEq, Repr

/-- The values the result `err` of `NewAudio` takes. -/
inductive Error where
  | al (e : AlError)
  | isSourceFalse
  | isBufferFalse (i : Nat)
deriving DecidableEq, Repr

/-- What `NewAudio` leaves behind: its two results, the device state and the
error handler installed. -/
structure NewAudioResult (σ : Type) where
  audio : Option Azul3DAudio
  err : Option Error
  dev : Option σ
  handler : Handler

/-- The closure `func(e error) { err = e }` of `NewAudio` applied to what a
device call raised. -/
def setErr (raised : Option AlError) (err : Option Error) : Option Error :=
  match raised with
  | none => err
  | some e => some (Error.al e)

/-- The loop `for i := range audio.buffers` of `NewAudio`: the index of the
first buffer for which `IsBuffer` is false. -/
def firstNotBuffer {σ : Type} (D : Device σ) (dev : σ) : Nat → List BufId → Option Nat
  | _, [] => none
  | i, b :: rest => if D.IsBuffer dev b then firstNotBuffer D dev (i + 1) rest else some i

/-- The function `NewAudio`.  `opened` is the result of `al.OpenDevice`,
`installed` the error handler in place at the call, and `maxChan` the largest
capacity for which `make(chan int16, n)` succeeds on the platform.  The result
is `none` when `make(chan int16, sampleSize)` panics: on a negative size and
on a size above `maxChan` (`makechan: size out of range`). -/
def NewAudio {σ : Type} (D : Device σ) (maxChan : Nat) (opened : Except Error σ)
    (installed : Handler) (frequency : Int) (sampleSize : Int) : Option (NewAudioResult σ) :=
  match opened with
  | .error e => some { audio := none, err := some e, dev := none, handler := installed }
  | .ok dev =>
    if sampleSize < 0 ∨ (maxChan : Int) < sampleSize then none
    else
      let err : Option Error := none
      let gs := D.GenSources dev
      let dev := gs.1
      let source := gs.2.1
      let err := setErr gs.2.2 err
      let audio : Azul3DAudio :=
        { paused := false, frequency := frequency, source := source, buffers := [0, 0],
          sampleSize := sampleSize }
      if ¬ D.IsSource dev source then
        some { audio := some audio, err := some Error.isSourceFalse, dev := some dev,
               handler := Handler.newAudio }
      else
        let si := D.Sourcei dev source
        let dev := si.1
        let err := setErr si.2 err
        let gb := D.GenBuffers dev audio.buffers.length
        let dev := gb.1
        let buffers := (gb.2.1 ++ List.replicate audio.buffers.length 0).take audio.buffers.length
        let err := setErr gb.2.2 err
        let audio := { audio with buffers := buffers }
        match firstNotBuffer D dev 0 buffers with
        | some i =>
          some { audio := some audio, err := some (Error.isBufferFalse i), dev := some dev,
                 handler := Handler.newAudio }
        | none =>
          some { audio := some audio, err := err, dev := some dev, handler := Handler.newAudio }

/-! ## `Run`, `bufferData` and `Close` -/

/-- What `Run` and `Close` do that can be observed from outside: the receives
on `schan`, the calls to `bufferData` and the device calls, with the values
the device stored. -/
inductive Event where
  | recv (samples : Chunk)
  | SourceQueueBuffers (buffers : List BufId)
  | SourcePlay
  | GetSourcei (p : Param) (stored : Option Int)
  | SourceUnqueueBuffers (pbuffers : List BufId)
  | bufferData (buffer : BufId) (samples : Chunk)
  | DeleteSources
  | DeleteBuffers (buffers : List BufId)
  | Close
deriving DecidableEq, Repr

/-- How an observed execution ends: `ok` at the head of the loop with the
observation budget used up, `returned` when `for running` ended the loop,
`blocked` on a receive from an empty `schan`, `spinning` in one of the two
polling loops with the polling budget used up, `panicked` on a Go run-time
panic. -/
inductive Status where
  | ok
  | returned
  | blocked
  | spinning
  | panicked
deriving DecidableEq, Repr

/-- The local variables of `Run` together with what it shares with the rest
of the program: the device, the installed error handler and the contents of
`schan` still to be received.  `handled` lists the errors passed to the
`handler` of `Run`, `lost` those handed to another closure after the call
that installed it had returned. -/
structure RunState (σ : Type) where
  dev : σ
  handler : Handler
  running : Bool
  state : Int
  queued : Int
  processed : Int
  samples : Option Chunk
  schan : List Chunk
  trace : List Event
  handled : List AlError
  lost : List AlError

/-- The closure `handler` of `Run`. -/
def handler {σ : Type} (e : Option AlError) (st : RunState σ) : RunState σ :=
  match e with
  | none => st
  | some err => { st with running := false, handled := st.handled ++ [err] }

/-- The library handing the error of a device call to the installed error
handler.  The closures of `NewAudio` and `bufferData` assign to the result of
a call that has returned. -/
def raise {σ : Type} (e : Option AlError) (st : RunState σ) : RunState σ :=
  match e with
  | none => st
  | some err =>
    match st.handler with
    | Handler.run => handler (some err) st
    | _ => { st with lost := st.lost ++ [err] }

/-- Sequencing: continue with `k` when the first part ended normally. -/
def andThen {σ : Type} (r : Status × RunState σ) (k : RunState σ → Status × RunState σ) :
    Status × RunState σ :=
  match r.1 with
  | Status.ok => k r.2
  | _ => r

/-- The receive `samples = <-schan`. -/
def recv {σ : Type} (st : RunState σ) : Status × RunState σ :=
  match st.schan with
  | [] => (Status.blocked, st)
  | c :: rest =>
    (Status.ok, { st with samples := some c, schan := rest, trace := st.trace ++ [Event.recv c] })

/-- A call `audio.device.GetSourcei(audio.source, p, &v)`, where `v` is
`processed`, `state` or `queued` according to `p`, as at every call site. -/
def GetSourcei {σ : Type} (D : Device σ) (p : Param) (st : RunState σ) : RunState σ :=
  let r := D.GetSourcei st.dev p
  let st := { st with dev := r.1, trace := st.trace ++ [Event.GetSourcei p r.2.1] }
  let st :=
    match r.2.1 with
    | none => st
    | some v =>
      match p with
      | Param.BUFFERS_PROCESSED => { st with processed := v }
      | Param.SOURCE_STATE => { st with state := v }
      | Param.BUFFERS_QUEUED => { st with queued := v }
  raise r.2.2 st

/-- A call `audio.device.SourceQueueBuffers(audio.source, buffers)`. -/
def SourceQueueBuffers {σ : Type} (D : Device σ) (buffers : List BufId) (st : RunState σ) :
    RunState σ :=
  let r := D.SourceQueueBuffers st.dev buffers
  raise r.2 { st with dev := r.1, trace := st.trace ++ [Event.SourceQueueBuffers buffers] }

/-- A call `audio.device.SourcePlay(audio.source)`. -/
def SourcePlay {σ : Type} (D : Device σ) (st : RunState σ) : RunState σ :=
  let r := D.SourcePlay st.dev
  raise r.2 { st with dev := r.1, trace := st.trace ++ [Event.SourcePlay] }

/-- The method `bufferData`: install the closure `err = e`, take the address
of `samples[0]` (a panic on an empty slice), call `BufferData`, return `err`.
The counter `bufCalls` is left out. -/
def bufferData {σ : Type} (D : Device σ) (buffer : BufId) (samples : Chunk) (st : RunState σ) :
    Status × RunState σ × Option AlError :=
  let st := { st with handler := Handler.bufferData,
                      trace := st.trace ++ [Event.bufferData buffer samples] }
  match samples with
  | [] => (Status.panicked, st, none)
  | _ :: _ =>
    let r := D.BufferData st.dev buffer samples
    (Status.ok, { st with dev := r.1 }, r.2)

/-- The first polling loop of `Run`: query `BUFFERS_PROCESSED` until
`processed > 0`, at most `fuel` times. -/
def pollProcessed {σ : Type} (D : Device σ) : Nat → RunState σ → Status × RunState σ
  | 0, st => (Status.spinning, st)
  | fuel + 1, st =>
    let st := GetSourcei D Param.BUFFERS_PROCESSED st
    if st.processed > 0 then (Status.ok, st) else pollProcessed D fuel st

/-- The loop `for queued > 0` of `Run`: query `BUFFERS_PROCESSED` until
`processed == queued`, at most `fuel` times. -/
def resync {σ : Type} (D : Device σ) : Nat → RunState σ → Status × RunState σ
  | 0, st => if st.queued > 0 then (Status.spinning, st) else (Status.ok, st)
  | fuel + 1, st =>
    if st.queued > 0 then
      let st := GetSourcei D Param.BUFFERS_PROCESSED st
      if st.processed = st.queued then (Status.ok, st) else resync D fuel st
    else (Status.ok, st)

/-- The loop `for i := range pbuffers` of `Run`. -/
def refill {σ : Type} (D : Device σ) : List BufId → RunState σ → Status × RunState σ
  | [], st => (Status.ok, st)
  | b :: rest, st =>
    andThen (match st.samples with
             | none => recv st
             | some _ => (Status.ok, st)) fun st =>
      match bufferData D b (st.samples.getD []) st with
      | (Status.ok, st, err) =>
        let st := handler err st
        let st := SourceQueueBuffers D [b] st
        refill D rest { st with samples := none }
      | (s, st, _) => (s, st)

/-- The state after one turn of the loop `for i := range pbuffers` that found
the non-empty chunk `c` in `samples`: `bufferData` has run, its result has been
passed to `handler`, the buffer has been submitted and `samples` is nil. -/
def refillBody {σ : Type} (D : Device σ) (b : BufId) (c : Chunk) (st : RunState σ) :
    RunState σ :=
  { SourceQueueBuffers D [b]
      (handler (D.BufferData st.dev b c).2
        { st with dev := (D.BufferData st.dev b c).1, handler := Handler.bufferData,
                  trace := st.trace ++ [Event.bufferData b c] }) with samples := none }

/-- The dequeue of `Run`: `pbuffers := make([]uint32, processed)` (a panic
on a negative length) and `SourceUnqueueBuffers`, which overwrites the front
of the zeroed slice. -/
def unqueue {σ : Type} (D : Device σ) (st : RunState σ) : Status × RunState σ × List BufId :=
  if st.processed < 0 then (Status.panicked, st, [])
  else
    let n := st.processed.toNat
    let r := D.SourceUnqueueBuffers st.dev n
    let pbuffers := (r.2.1 ++ List.replicate n 0).take n
    (Status.ok,
     raise r.2.2 { st with dev := r.1, trace := st.trace ++ [Event.SourceUnqueueBuffers pbuffers] },
     pbuffers)

/-- The part of the loop body that waits for the device: the first polling
loop, the query of `SOURCE_STATE` and, when the source is not playing, the
loop `for queued > 0`. -/
def waitProcessed {σ : Type} (D : Device σ) (fuel : Nat) (st : RunState σ) :
    Status × RunState σ :=
  andThen (pollProcessed D fuel st) fun st =>
  let st := GetSourcei D Param.SOURCE_STATE st
  if st.state ≠ PLAYING then resync D fuel st else (Status.ok, st)

/-- The part of the loop body from the dequeue on: dequeue, refill, query
`BUFFERS_QUEUED` and `SOURCE_STATE`, and `SourcePlay` when the source is not
playing. -/
def dequeueRefill {σ : Type} (D : Device σ) (st : RunState σ) : Status × RunState σ :=
  match unqueue D st with
  | (Status.ok, st, pbuffers) =>
    andThen (refill D pbuffers st) fun st =>
    let st := GetSourcei D Param.BUFFERS_QUEUED st
    let st := GetSourcei D Param.SOURCE_STATE st
    if st.state ≠ PLAYING then (Status.ok, SourcePlay D st) else (Status.ok, st)
  | (s, st, _) => (s, st)

/-- The body of the loop `for running` of `Run`. -/
def iteration {σ : Type} (D : Device σ) (fuel : Nat) (st : RunState σ) : Status × RunState σ :=
  andThen (recv st) fun st =>
  andThen (waitProcessed D fuel st) (dequeueRefill D)

/-- The loop `for running` of `Run`, observed for at most `iters` turns. -/
def loop {σ : Type} (D : Device σ) (fuel : Nat) : Nat → RunState σ → Status × RunState σ
  | 0, st => (Status.ok, st)
  | iters + 1, st =>
    if st.running then andThen (iteration D fuel st) (loop D fuel iters)
    else (Status.returned, st)

/-- The method `Run` carrying on from the receive at the top of the loop
body, where it waits for a chunk: the rest of that turn, then the loop. -/
def resume {σ : Type} (D : Device σ) (fuel iters : Nat) (st : RunState σ) :
    Status × RunState σ :=
  andThen (iteration D fuel st) (loop D fuel iters)

/-- The state of `Run` when it reaches `for running`: the handler installed,
`schan` holding what `stream` will send, the pool queued and the source
started. -/
def start {σ : Type} (D : Device σ) (audio : Azul3DAudio) (dev : σ) (schan : List Chunk) :
    RunState σ :=
  let st : RunState σ :=
    { dev := dev, handler := Handler.run, running := true, state := PLAYING,
      queued := (audio.buffers.length : Int), processed := 0, samples := none,
      schan := schan, trace := [], handled := [], lost := [] }
  let st := SourceQueueBuffers D audio.buffers st
  SourcePlay D st

/-- The method `Run` over the chunks `schan` will deliver. -/
def RunOn {σ : Type} (D : Device σ) (audio : Azul3DAudio) (dev : σ) (schan : List Chunk)
    (fuel iters : Nat) : Status × RunState σ :=
  loop D fuel iters (start D audio dev schan)

/-- The method `Run`: `input` is what `audio.input` delivers, which the
goroutine `stream` turns into the contents of `schan`. -/
def Run {σ : Type} (D : Device σ) (audio : Azul3DAudio) (dev : σ) (input : List Sample)
    (fuel iters : Nat) : Status × RunState σ :=
  RunOn D audio dev (stream audio.sampleSize input).emitted fuel iters

/-- The method `Close`, called while `Run` is in state `st`: its three device
calls act on the shared device and raise their errors to the installed
handler. -/
def Close {σ : Type} (D : Device σ) (audio : Azul3DAudio) (st : RunState σ) : RunState σ :=
  let r := D.DeleteSources st.dev
  let st := raise r.2 { st with dev := r.1, trace := st.trace ++ [Event.DeleteSources] }
  let r := D.DeleteBuffers st.dev audio.buffers
  let st := raise r.2 { st with dev := r.1,
                                trace := st.trace ++ [Event.DeleteBuffers audio.buffers] }
  let r := D.Close st.dev
  raise r.2 { st with dev := r.1, trace := st.trace ++ [Event.Close] }

/-- The calls to `bufferData` in a trace: target and samples. -/
def writes : List Event → List (BufId × Chunk)
  | [] => []
  | Event.bufferData b c :: tr => (b, c) :: writes tr
  | _ :: tr => writes tr

/-- The chunks passed to `bufferData` in a trace. -/
def written (tr : List Event) : List Chunk :=
  (writes tr).map Prod.snd

/-- The chunks received from `schan` in a trace. -/
def received : List Event → List Chunk
  | [] => []
  | Event.recv c :: tr => c :: received tr
  | _ :: tr => received tr

/-- The slices `pbuffers` dequeued in a trace. -/
def unqueued : List Event → List (List BufId)
  | [] => []
  | Event.SourceUnqueueBuffers pb :: tr => pb :: unqueued tr
  | _ :: tr => unqueued tr

/-- The buffers submitted with `SourceQueueBuffers` in a trace, in order. -/
def submitted : List Event → List BufId
  | [] => []
  | Event.SourceQueueBuffers bufs :: tr => bufs ++ submitted tr
  | _ :: tr => submitted tr

/-- The part of a trace before the first `SourceQueueBuffers`. -/
def beforeSubmit : List Event → List Event
  | [] => []
  | Event.SourceQueueBuffers _ :: _ => []
  | e :: tr => e :: beforeSubmit tr

/-- Priming as the specification words it: every buffer of the pool is the
target of a `bufferData` call made before the first `SourceQueueBuffers`. -/
def filledBeforeSubmit (buffers : List BufId) (tr : List Event) : Prop :=
  ∀ b ∈ buffers, b ∈ (writes (beforeSubmit tr)).map Prod.fst

instance (buffers : List BufId) (tr : List Event) : Decidable (filledBeforeSubmit buffers tr) := by
  unfold filledBeforeSubmit; infer_instance

/-- One step of the check that a buffer is filled only after being dequeued.
The state is the part of the latest dequeued slice `pbuffers` that has not
been filled yet (empty before the first dequeue); it is `none` once a
`bufferData` call has hit anything but the first element of that part. -/
def fillStep : Option (List BufId) → Event → Option (List BufId)
  | none, _ => none
  | some _, Event.SourceUnqueueBuffers pb => some pb
  | some pend, Event.bufferData b _ => if pend.head? = some b then some pend.tail else none
  | some pend, _ => some pend

/-- The check of `fillStep` run over a trace, starting with nothing dequeued. -/
def pendingFill (tr : List Event) : Option (List BufId) :=
  tr.foldl fillStep (some [])

/-- The errors the three device calls of `Close` raise, in order. -/
def closeErrors {σ : Type} (D : Device σ) (audio : Azul3DAudio) (dev : σ) : List AlError :=
  let r1 := D.DeleteSources dev
  let r2 := D.DeleteBuffers r1.1 audio.buffers
  let r3 := D.Close r2.1
  r1.2.toList ++ r2.2.toList ++ r3.2.toList

/-- The device calls of `NewAudio` all succeed on `dev`: no call raises an
error, `IsSource` holds for the generated source and `IsBuffer` for both
generated buffers. -/
def created {σ : Type} (D : Device σ) (dev : σ) : Bool :=
  let gs := D.GenSources dev
  let si := D.Sourcei gs.1 gs.2.1
  let gb := D.GenBuffers si.1 2
  gs.2.2.isNone && D.IsSource gs.1 gs.2.1 && si.2.isNone && gb.2.2.isNone &&
    ((gb.2.1 ++ List.replicate 2 0).take 2).all (D.IsBuffer gb.1)

/-- The events of one turn of the loop on the steady device: one chunk
received, one buffer reported processed, dequeued, filled and submitted
again, the source still playing. -/
def steadyTurn (b : BufId) (c : Chunk) : List Event :=
  [Event.recv c,
   Event.GetSourcei Param.BUFFERS_PROCESSED (some 1),
   Event.GetSourcei Param.SOURCE_STATE (some PLAYING),
   Event.SourceUnqueueBuffers [b],
   Event.bufferData b c,
   Event.SourceQueueBuffers [b],
   Event.GetSourcei Param.BUFFERS_QUEUED (some 2),
   Event.GetSourcei Param.SOURCE_STATE (some PLAYING)]

/-- The events of `n` turns on the steady device with `x` at the front of
the queue and `y` behind it, the two alternating. -/
def steadyTrace : BufId → BufId → List Chunk → Nat → List Event
  | _, _, _, 0 => []
  | _, _, [], _ + 1 => []
  | x, y, c :: cs, n + 1 => steadyTurn x c ++ steadyTrace y x cs n

/-- The events of the turn of the loop that finds the source stopped with
the two buffers `b0`, `b1` queued and processed. -/
def starvedTurn (b0 b1 : BufId) (c0 c1 : Chunk) : List Event :=
  [Event.recv c0,
   Event.GetSourcei Param.BUFFERS_PROCESSED (some 2),
   Event.GetSourcei Param.SOURCE_STATE (some STOPPED),
   Event.GetSourcei Param.BUFFERS_PROCESSED (some 2),
   Event.SourceUnqueueBuffers [b0, b1],
   Event.bufferData b0 c0,
   Event.SourceQueueBuffers [b0],
   Event.recv c1,
   Event.bufferData b1 c1,
   Event.SourceQueueBuffers [b1],
   Event.GetSourcei Param.BUFFERS_QUEUED (some 2),
   Event.GetSourcei Param.SOURCE_STATE (some STOPPED),
   Event.SourcePlay]

/-! ## Model devices -/

/-- State of the model source: the buffers queued on it in order, how many
of them it has played since it was started, its OpenAL state, a clock counting
the calls made, for every `BufferData` call the target together with
whether it was queued at that moment, and for every `BufferData` call that
was accepted the target together with the samples stored in it. -/
structure ModelState where
  queue : List BufId
  played : Nat
  src : Int
  clock : Nat
  writes : List (BufId × Bool)
  stored : List (BufId × Chunk)
deriving DecidableEq, Repr

/-- The count the model source reports for `BUFFERS_PROCESSED`: the buffers
played while playing, every queued buffer once stopped, none before the first
start. -/
def ModelState.processed (m : ModelState) : Nat :=
  if m.src = PLAYING then min m.played m.queue.length
  else if m.src = STOPPED then m.queue.length
  else 0

/-- Time passing before a call: the playing source finishes `adv clock` more
buffers and stops when it runs out of queued buffers. -/
def tick (adv : Nat → Nat) (m : ModelState) : ModelState :=
  let k := adv m.clock
  let m := { m with clock := m.clock + 1 }
  if m.src = PLAYING ∧ 0 < k then
    if m.queue.length ≤ m.played + k then { m with src := STOPPED }
    else { m with played := m.played + k }
  else m

/-- The model device: a source that tracks its queue.  `SourceQueueBuffers`
appends, `SourceUnqueueBuffers` removes and returns processed buffers from the
front and rejects a request for more than are processed, `BufferData` rejects
a buffer that is queued, `SourcePlay` restarts from the front of the queue.
`adv` fixes how fast the source plays. -/
def sourceModel (adv : Nat → Nat) : Device ModelState where
  GenSources m := (m, 1, none)
  IsSource _ _ := true
  Sourcei m _ := (m, none)
  GenBuffers m n := (m, List.range' 1 n, none)
  IsBuffer _ _ := true
  SourceQueueBuffers m bufs :=
    let m := tick adv m
    ({ m with queue := m.queue ++ bufs }, none)
  SourcePlay m :=
    let m := tick adv m
    if m.queue = [] then ({ m with src := STOPPED }, none)
    else ({ m with src := PLAYING, played := 0 }, none)
  GetSourcei m p :=
    let m := tick adv m
    match p with
    | Param.BUFFERS_PROCESSED => (m, some (m.processed : Int), none)
    | Param.SOURCE_STATE => (m, some m.src, none)
    | Param.BUFFERS_QUEUED => (m, some (m.queue.length : Int), none)
  SourceUnqueueBuffers m n :=
    let m := tick adv m
    if n ≤ m.processed then
      ({ m with queue := m.queue.drop n, played := m.played - n }, m.queue.take n, none)
    else (m, [], some INVALID_VALUE)
  BufferData m b c :=
    let m := tick adv m
    if b ∈ m.queue then ({ m with writes := m.writes ++ [(b, true)] }, some INVALID_OPERATION)
    else ({ m with writes := m.writes ++ [(b, false)], stored := m.stored ++ [(b, c)] }, none)
  DeleteSources m := (m, none)
  DeleteBuffers m _ := (m, none)
  Close m := (m, none)

/-- The model source before anything is queued on it. -/
def freshSource : ModelState :=
  { queue := [], played := 0, src := INITIAL, clock := 0, writes := [], stored := [] }

/-- State of the steady device: the buffers queued on the source, in order,
whether the device has been closed, and for every `BufferData` call that was
accepted the target together with the samples stored in it. -/
structure FifoState where
  queue : List BufId
  closed : Bool
  stored : List (BufId × Chunk)
deriving DecidableEq, Repr

/-- The steady device before anything is queued on it. -/
def freshFifo : FifoState :=
  { queue := [], closed := false, stored := [] }

/-- A call on the steady device: rejected once the device is closed. -/
def FifoState.call {α : Type} (s : FifoState) (dflt : α) (r : FifoState × α) :
    FifoState × α × Option AlError :=
  if s.closed then (s, dflt, some INVALID_OPERATION) else (r.1, r.2, none)

/-- The steady device: the source stays in state `PLAYING`, reports one
processed buffer at every poll and dequeues in FIFO order.  After `Close`
every call is rejected. -/
def fifoDevice : Device FifoState where
  GenSources s := s.call 0 (s, 1)
  IsSource s _ := !s.closed
  Sourcei s _ := let r := s.call () (s, ()); (r.1, r.2.2)
  GenBuffers s n := s.call [] (s, List.range' 1 n)
  IsBuffer s _ := !s.closed
  SourceQueueBuffers s bufs :=
    let r := s.call () ({ s with queue := s.queue ++ bufs }, ()); (r.1, r.2.2)
  SourcePlay s := let r := s.call () (s, ()); (r.1, r.2.2)
  GetSourcei s p :=
    s.call none (s, match p with
      | Param.BUFFERS_PROCESSED => some 1
      | Param.SOURCE_STATE => some PLAYING
      | Param.BUFFERS_QUEUED => some (s.queue.length : Int))
  SourceUnqueueBuffers s n := s.call [] ({ s with queue := s.queue.drop n }, s.queue.take n)
  BufferData s b c :=
    let r := s.call () ({ s with stored := s.stored ++ [(b, c)] }, ()); (r.1, r.2.2)
  DeleteSources s := let r := s.call () (s, ()); (r.1, r.2.2)
  DeleteBuffers s _ := let r := s.call () (s, ()); (r.1, r.2.2)
  Close s := let r := s.call () ({ s with closed := true }, ()); (r.1, r.2.2)

/-- A device whose `SourceQueueBuffers` succeeds once and is rejected from
then on; the state counts the calls to it.  Every other call succeeds, with
one processed buffer and a playing source reported. -/
def queueFailDevice : Device Nat where
  GenSources s := (s, 1, none)
  IsSource _ _ := true
  Sourcei s _ := (s, none)
  GenBuffers s n := (s, List.range' 1 n, none)
  IsBuffer _ _ := true
  SourceQueueBuffers s _ := (s + 1, if 1 ≤ s then some INVALID_OPERATION else none)
  SourcePlay s := (s, none)
  GetSourcei s p :=
    (s, match p with
      | Param.BUFFERS_PROCESSED => some 1
      | Param.SOURCE_STATE => some PLAYING
      | Param.BUFFERS_QUEUED => some 2, none)
  SourceUnqueueBuffers s n := (s, List.replicate n 1, none)
  BufferData s _ _ := (s, none)
  DeleteSources s := (s, none)
  DeleteBuffers s _ := (s, none)
  Close s := (s, none)

/-- A device that is stuck: every call succeeds, the source is always
reported in state `state` with `processed` buffers processed and two queued,
and nothing ever changes. -/
def stuckDevice (state processed : Int) : Device Unit where
  GenSources s := (s, 1, none)
  IsSource _ _ := true
  Sourcei s _ := (s, none)
  GenBuffers s n := (s, List.range' 1 n, none)
  IsBuffer _ _ := true
  SourceQueueBuffers s _ := (s, none)
  SourcePlay s := (s, none)
  GetSourcei s p :=
    (s, match p with
      | Param.BUFFERS_PROCESSED => some processed
      | Param.SOURCE_STATE => some state
      | Param.BUFFERS_QUEUED => some 2, none)
  SourceUnqueueBuffers s n := (s, List.replicate n 1, none)
  BufferData s _ _ := (s, none)
  DeleteSources s := (s, none)
  DeleteBuffers s _ := (s, none)
  Close s := (s, none)

/-- The pool `NewAudio` builds on the model devices: source 1, buffers 1 and
2, 44100 Hz. -/
def demoAudio (sampleSize : Int) : Azul3DAudio :=
  { paused := false, frequency := 44100, source := 1, buffers := [1, 2], sampleSize := sampleSize }

/-! ## Invariants of the loop -/

section Invariants

variable {σ : Type}

/-- Every `bufferData` call so far hit the next buffer of the latest dequeue
that had not been filled yet. -/
def Filled (st : RunState σ) : Prop :=
  ∃ pend, pendingFill st.trace = some pend

/-- Between two states `running` is untouched and no error was passed to
the `handler` of `Run`, or `running` is false and at least one error was
passed to it. -/
def Flag (a b : RunState σ) : Prop :=
  (b.running = a.running ∧ b.handled = a.handled) ∨
  (b.running = false ∧ ∃ e es, b.handled = a.handled ++ e :: es)

/-- The trace of the second state continues the trace of the first. -/
def Ext (a b : RunState σ) : Prop :=
  ∃ evs, b.trace = a.trace ++ evs

/-- A reflexive and transitive relation between states that holds across
every `GetSourcei` call. -/
structure PollRel (D : Device σ) (R : RunState σ → RunState σ → Prop) : Prop where
  refl : ∀ a, R a a
  trans : ∀ a b c, R a b → R b c → R a c
  get : ∀ p st, R st (GetSourcei D p st)

/-- A relation between states that holds across every single step `Run`
takes and is reflexive and transitive. -/
structure StepRel (D : Device σ) (R : RunState σ → RunState σ → Prop)
    extends PollRel D R : Prop where
  recv : ∀ st, R st (recv st).2
  queue : ∀ bufs st, R st (SourceQueueBuffers D bufs st)
  play : ∀ st, R st (SourcePlay D st)
  unqueue : ∀ st, R st (unqueue D st).2.1
  fill : ∀ b c st, R st (bufferData D b c st).2.1
  handler : ∀ e st, R st (handler e st)
  clear : ∀ st : RunState σ, R st { st with samples := none }

/-- A step that receives nothing, writes nothing and dequeues nothing. -/
structure Quiet (st st' : RunState σ) : Prop where
  ex : ∃ evs, st'.trace = st.trace ++ evs ∧ writes evs = [] ∧ received evs = [] ∧
    unqueued evs = []
  samples : st'.samples = st.samples
  schan : st'.schan = st.schan

/-- No chunk in the channel or in `samples` is empty. -/
def NonEmpty (st : RunState σ) : Prop :=
  (∀ c ∈ st.schan, c ≠ []) ∧ (∀ c ∈ st.samples, c ≠ [])

/-- The effect of the refill loop on the trace and on the chunks. -/
structure RefillSpec (bs : List BufId) (st : RunState σ) (r : Status × RunState σ) : Prop where
  ex : ∃ evs, r.2.trace = st.trace ++ evs ∧ unqueued evs = [] ∧
    received evs ++ r.2.schan = st.schan ∧
    (r.1 ≠ Status.panicked →
      written evs ++ r.2.samples.toList = st.samples.toList ++ received evs) ∧
    (r.1 = Status.ok → (writes evs).length = bs.length)
  cleared : r.1 = Status.ok → bs ≠ [] → r.2.samples = none
  safe : NonEmpty st → r.1 ≠ Status.panicked ∧ NonEmpty r.2

/-- The effect of the second part of a turn on the trace and the chunks. -/
structure DequeueSpec (st : RunState σ) (r : Status × RunState σ) : Prop where
  ex : ∃ evs pb, r.2.trace = st.trace ++ Event.SourceUnqueueBuffers pb :: evs ∧
    1 ≤ pb.length ∧ unqueued evs = [] ∧
    received evs ++ r.2.schan = st.schan ∧
    (r.1 ≠ Status.panicked →
      written evs ++ r.2.samples.toList = st.samples.toList ++ received evs) ∧
    (r.1 = Status.ok → (writes evs).length = pb.length ∧ r.2.samples = none)
  safe : NonEmpty st → r.1 ≠ Status.panicked ∧ NonEmpty r.2

/-- The effect of one turn of the loop on the trace and the chunks. -/
structure IterSpec (st : RunState σ) (r : Status × RunState σ) : Prop where
  ex : ∃ evs, r.2.trace = st.trace ++ evs ∧ received evs ++ r.2.schan = st.schan ∧
    (∀ pb ∈ unqueued evs, 1 ≤ pb.length) ∧
    (r.1 ≠ Status.panicked → st.samples = none →
      written evs ++ r.2.samples.toList = received evs) ∧
    (r.1 = Status.ok → ∃ pb, unqueued evs = [pb] ∧ 1 ≤ pb.length ∧
      (received evs).length = pb.length ∧ (writes evs).length = pb.length ∧
      written evs = received evs)
  cleared : r.1 = Status.ok → r.2.samples = none
  safe : NonEmpty st → r.1 ≠ Status.panicked ∧ NonEmpty r.2

/-- The effect of the loop on the trace and the chunks. -/
structure LoopSpec (st : RunState σ) (r : Status × RunState σ) : Prop where
  ex : ∃ evs, r.2.trace = st.trace ++ evs ∧ received evs ++ r.2.schan = st.schan ∧
    (∀ pb ∈ unqueued evs, 1 ≤ pb.length) ∧
    (r.1 ≠ Status.panicked → written evs ++ r.2.samples.toList = received evs)
  cleared : r.1 = Status.ok ∨ r.1 = Status.returned → r.2.samples = none
  safe : NonEmpty st → r.1 ≠ Status.panicked

end Invariants

/-- Every `BufferData` call so far hit a buffer that was not queued. -/
def WritesOk (m : ModelState) : Prop :=
  ∀ w ∈ m.writes, w.2 = false

/-- The queue of the model source holds no buffer twice and no write hit a
queued buffer. -/
structure Sound (st : RunState ModelState) : Prop where
  nodup : st.dev.queue.Nodup
  writes : WritesOk st.dev

/-- The value of `processed` does not exceed what the model source reports
as processed. -/
def Bounded (st : RunState ModelState) : Prop :=
  st.processed ≤ (st.dev.processed : Int)

/-- The model source has been started, no error has stopped the loop, and
what the device has stored is what `Run` passed to `bufferData`. -/
structure Extras (st : RunState ModelState) : Prop where
  src : st.dev.src = PLAYING ∨ st.dev.src = STOPPED
  running : st.running = true
  stored : st.dev.stored = writes st.trace

/-- The state of `Run` while it waits for the model source: the queue is
`q` and `queued` is its length. -/
structure Waiting (q : List BufId) (st : RunState ModelState) : Prop where
  extras : Extras st
  queue : st.dev.queue = q
  queued : st.queued = (q.length : Int)

/-- The state of `Run` at the head of the loop on the model source. -/
structure Head (st : RunState ModelState) : Prop where
  sound : Sound st
  extras : Extras st
  nonEmpty : NonEmpty st
  queue : st.dev.queue ≠ []
  queued : st.queued = (st.dev.queue.length : Int)
  samples : st.samples = none

/-- A state of `Run` at the head of the loop with the model source stopped
and the pool `[1, 2]` queued on it. -/
def starvedState : RunState ModelState :=
  { dev := { queue := [1, 2], played := 0, src := STOPPED, clock := 0, writes := [],
             stored := [] },
    handler := Handler.run, running := true, state := PLAYING, queued := 2, processed := 0,
    samples := none, schan := [[1, 2], [3, 4]], trace := [], handled := [], lost := [] }

/-! ## Lemmas on `stream` -/

/-- What `stream` maintains while reading its input. -/
structure StreamInv (c : Nat) (consumed : List Sample) (st : StreamState) : Prop where
  order : st.emitted.flatten ++ st.samples = consumed
  sizes : ∀ ch ∈ st.emitted, ch.length = c
  count : st.emitted.length * c + st.samples.length = consumed.length
  room : st.samples.length < c

theorem streamInv_step (c : Nat) (consumed : List Sample) (st : StreamState) (x : Sample)
    (h : StreamInv c consumed st) :
    StreamInv c (consumed ++ [x]) (streamStep (c : Int) st x) := by
  obtain ⟨ho, hs, hc, hr⟩ := h
  unfold streamStep
  by_cases hfull : ((st.samples ++ [x]).length : Int) = (c : Int)
  · have hlen : (st.samples ++ [x]).length = c := by exact_mod_cast hfull
    simp only [hfull, if_true]
    refine ⟨?_, ?_, ?_, ?_⟩
    · simp [← ho, List.append_assoc]
    · intro ch hch
      rcases List.mem_append.mp hch with h1 | h1
      · exact hs ch h1
      · have : ch = st.samples ++ [x] := by simpa using h1
        rw [this]; exact hlen
    · simp only [List.length_append, List.length_singleton, List.length_nil] at hlen ⊢
      rw [Nat.add_mul]; omega
    · simp only [List.length_append, List.length_singleton] at hlen
      simp only [List.length_nil]; omega
  · have hlen : (st.samples ++ [x]).length ≠ c := fun h => hfull (by exact_mod_cast h)
    simp only [hfull, if_false]
    refine ⟨?_, hs, ?_, ?_⟩
    · simp [← ho, List.append_assoc]
    · simp only [List.length_append, List.length_singleton]; omega
    · simp only [List.length_append, List.length_singleton] at hlen ⊢; omega

theorem streamInv_foldl (c : Nat) (xs : List Sample) :
    ∀ (consumed : List Sample) (st : StreamState), StreamInv c consumed st →
      StreamInv c (consumed ++ xs) (xs.foldl (streamStep (c : Int)) st) := by
  induction xs with
  | nil => intro consumed st h; simpa using h
  | cons x xs ih =>
    intro consumed st h
    have h1 := ih (consumed ++ [x]) (streamStep (c : Int) st x) (streamInv_step c consumed st x h)
    simpa [List.append_assoc] using h1

theorem streamInv_stream (c : Nat) (hc : 1 ≤ c) (xs : List Sample) :
    StreamInv c xs (stream (c : Int) xs) := by
  have h0 : StreamInv c [] { samples := [], emitted := [] } :=
    ⟨by simp, by simp, by simp, by simpa using hc⟩
  simpa [stream] using streamInv_foldl c xs [] _ h0

/-! ## Properties of `stream` -/

/-- C1: for a chunk size `c ≥ 1` and an input whose length is a multiple of
`c`, the concatenation of the chunks `stream` sends on its output channel, in
emission order, is the input sequence. -/
theorem stream_order_preserved (c : Nat) (hc : 1 ≤ c) (xs : List Sample)
    (hN : c ∣ xs.length) :
    (stream (c : Int) xs).emitted.flatten = xs := by
  obtain ⟨ho, _, hcount, hr⟩ := streamInv_stream c hc xs
  obtain ⟨k, hk⟩ := hN
  have hzero : (stream (c : Int) xs).samples.length = 0 := by
    rw [hk] at hcount
    have h1 : (stream (c : Int) xs).samples.length % c = 0 := by
      have := congrArg (· % c) hcount
      simpa [Nat.mul_comm, Nat.mul_add_mod] using this
    rwa [Nat.mod_eq_of_lt hr] at h1
  have hnil : (stream (c : Int) xs).samples = [] := List.length_eq_zero.mp hzero
  simpa [hnil] using ho

/-- The scenario of C1: chunk size 4 and samples 1..8 give the two chunks
`[1,2,3,4]` and `[5,6,7,8]`, whose concatenation is the input. -/
theorem stream_order_preserved_witness :
    1 ≤ 4 ∧ 4 ∣ [1, 2, 3, 4, 5, 6, 7, 8].length ∧
    (stream 4 [1, 2, 3, 4, 5, 6, 7, 8]).emitted = [[1, 2, 3, 4], [5, 6, 7, 8]] ∧
    (stream ((4 : Nat) : Int) [1, 2, 3, 4, 5, 6, 7, 8]).emitted.flatten
      = [1, 2, 3, 4, 5, 6, 7, 8] :=
  ⟨by decide, ⟨2, by decide⟩, by decide,
    stream_order_preserved 4 (by decide) [1, 2, 3, 4, 5, 6, 7, 8] ⟨2, by decide⟩⟩

/-- C2: for a chunk size `c ≥ 1` and `N` input samples, `stream` emits
exactly `N / c` chunks, each of length `c`, and the last `N % c` samples are
the contents of its accumulator. -/
theorem stream_chunking_exact (c : Nat) (hc : 1 ≤ c) (xs : List Sample) :
    (stream (c : Int) xs).emitted.length = xs.length / c ∧
    (∀ ch ∈ (stream (c : Int) xs).emitted, ch.length = c) ∧
    (stream (c : Int) xs).samples.length = xs.length % c ∧
    (stream (c : Int) xs).samples = xs.drop (xs.length / c * c) := by
  obtain ⟨ho, hs, hcount, hr⟩ := streamInv_stream c hc xs
  have hpos : 0 < c := hc
  have hdiv : (stream (c : Int) xs).emitted.length = xs.length / c := by
    rw [← hcount, Nat.mul_comm, Nat.mul_add_div hpos, Nat.div_eq_of_lt hr, Nat.add_zero]
  have hmod : (stream (c : Int) xs).samples.length = xs.length % c := by
    rw [← hcount, Nat.mul_comm, Nat.mul_add_mod, Nat.mod_eq_of_lt hr]
  have hjoin : (stream (c : Int) xs).emitted.flatten.length = xs.length / c * c := by
    rw [← hdiv]
    generalize (stream (c : Int) xs).emitted = em at hs
    induction em with
    | nil => simp
    | cons a em ih =>
      have ha : a.length = c := hs a (List.mem_cons_self _ _)
      have ih1 := ih (fun ch hch => hs ch (List.mem_cons_of_mem _ hch))
      simp only [List.flatten_cons, List.length_append, List.length_cons, ih1, ha]
      rw [Nat.add_mul]; omega
  refine ⟨hdiv, hs, hmod, ?_⟩
  calc (stream (c : Int) xs).samples
      = ((stream (c : Int) xs).emitted.flatten ++ (stream (c : Int) xs).samples).drop
          (stream (c : Int) xs).emitted.flatten.length := (List.drop_left _ _).symm
    _ = xs.drop (xs.length / c * c) := by rw [ho, hjoin]

/-- An instance of C2: chunk size 4 and ten samples give two chunks and keep
the last two samples in the accumulator. -/
theorem stream_chunking_exact_witness :
    1 ≤ 4 ∧
    (stream ((4 : Nat) : Int) [1, 2, 3, 4, 5, 6, 7, 8, 9, 10]).emitted.length = 10 / 4 ∧
    (∀ ch ∈ (stream ((4 : Nat) : Int) [1, 2, 3, 4, 5, 6, 7, 8, 9, 10]).emitted, ch.length = 4) ∧
    (stream ((4 : Nat) : Int) [1, 2, 3, 4, 5, 6, 7, 8, 9, 10]).samples.length = 10 % 4 ∧
    (stream ((4 : Nat) : Int) [1, 2, 3, 4, 5, 6, 7, 8, 9, 10]).samples = [9, 10] :=
  ⟨by decide, stream_chunking_exact 4 (by decide) [1, 2, 3, 4, 5, 6, 7, 8, 9, 10]⟩


/-! ## Traces -/

theorem writes_append (xs ys : List Event) : writes (xs ++ ys) = writes xs ++ writes ys := by
  induction xs with
  | nil => rfl
  | cons e xs ih => cases e <;> simp [writes, ih]

theorem written_append (xs ys : List Event) : written (xs ++ ys) = written xs ++ written ys := by
  simp [written, writes_append]

theorem received_append (xs ys : List Event) :
    received (xs ++ ys) = received xs ++ received ys := by
  induction xs with
  | nil => rfl
  | cons e xs ih => cases e <;> simp [received, ih]

theorem unqueued_append (xs ys : List Event) :
    unqueued (xs ++ ys) = unqueued xs ++ unqueued ys := by
  induction xs with
  | nil => rfl
  | cons e xs ih => cases e <;> simp [unqueued, ih]

theorem submitted_append (xs ys : List Event) :
    submitted (xs ++ ys) = submitted xs ++ submitted ys := by
  induction xs with
  | nil => rfl
  | cons e xs ih => cases e <;> simp [submitted, ih]

/-! ## Frame lemmas: what each step of `Run` leaves alone -/

section Frame

variable {σ : Type} (D : Device σ)

theorem handler_frame (e : Option AlError) (st : RunState σ) :
    (handler e st).trace = st.trace ∧ (handler e st).samples = st.samples ∧
    (handler e st).schan = st.schan ∧ (handler e st).dev = st.dev ∧
    (handler e st).processed = st.processed ∧ (handler e st).queued = st.queued ∧
    (handler e st).state = st.state ∧ (handler e st).handler = st.handler := by
  cases e <;> simp [handler]

theorem raise_frame (e : Option AlError) (st : RunState σ) :
    (raise e st).trace = st.trace ∧ (raise e st).samples = st.samples ∧
    (raise e st).schan = st.schan ∧ (raise e st).dev = st.dev ∧
    (raise e st).processed = st.processed ∧ (raise e st).queued = st.queued ∧
    (raise e st).state = st.state ∧ (raise e st).handler = st.handler := by
  cases e with
  | none => simp [raise]
  | some err => cases h : st.handler <;> simp [raise, handler, h]

theorem GetSourcei_trace (p : Param) (st : RunState σ) :
    (GetSourcei D p st).trace = st.trace ++ [Event.GetSourcei p (D.GetSourcei st.dev p).2.1] := by
  unfold GetSourcei
  simp only [(raise_frame _ _).1]
  cases (D.GetSourcei st.dev p).2.1 <;> cases p <;> rfl

theorem GetSourcei_samples (p : Param) (st : RunState σ) :
    (GetSourcei D p st).samples = st.samples := by
  unfold GetSourcei
  simp only [(raise_frame _ _).2.1]
  cases (D.GetSourcei st.dev p).2.1 <;> cases p <;> rfl

theorem GetSourcei_schan (p : Param) (st : RunState σ) :
    (GetSourcei D p st).schan = st.schan := by
  unfold GetSourcei
  simp only [(raise_frame _ _).2.2.1]
  cases (D.GetSourcei st.dev p).2.1 <;> cases p <;> rfl

theorem GetSourcei_dev (p : Param) (st : RunState σ) :
    (GetSourcei D p st).dev = (D.GetSourcei st.dev p).1 := by
  unfold GetSourcei
  simp only [(raise_frame _ _).2.2.2.1]
  cases (D.GetSourcei st.dev p).2.1 <;> cases p <;> rfl

theorem GetSourcei_processed_queued (st : RunState σ) :
    (GetSourcei D Param.BUFFERS_PROCESSED st).queued = st.queued := by
  unfold GetSourcei
  simp only [(raise_frame _ _).2.2.2.2.2.1]
  cases (D.GetSourcei st.dev Param.BUFFERS_PROCESSED).2.1 <;> rfl

theorem GetSourcei_other_processed (p : Param) (hp : p ≠ Param.BUFFERS_PROCESSED)
    (st : RunState σ) : (GetSourcei D p st).processed = st.processed := by
  unfold GetSourcei
  simp only [(raise_frame _ _).2.2.2.2.1]
  cases (D.GetSourcei st.dev p).2.1 <;> cases p <;> first | rfl | exact absurd rfl hp

theorem SourceQueueBuffers_frame (bufs : List BufId) (st : RunState σ) :
    (SourceQueueBuffers D bufs st).trace = st.trace ++ [Event.SourceQueueBuffers bufs] ∧
    (SourceQueueBuffers D bufs st).samples = st.samples ∧
    (SourceQueueBuffers D bufs st).schan = st.schan ∧
    (SourceQueueBuffers D bufs st).dev = (D.SourceQueueBuffers st.dev bufs).1 ∧
    (SourceQueueBuffers D bufs st).processed = st.processed := by
  unfold SourceQueueBuffers
  simp only [(raise_frame _ _).1, (raise_frame _ _).2.1, (raise_frame _ _).2.2.1,
    (raise_frame _ _).2.2.2.1, (raise_frame _ _).2.2.2.2.1, and_self]

theorem SourcePlay_frame (st : RunState σ) :
    (SourcePlay D st).trace = st.trace ++ [Event.SourcePlay] ∧
    (SourcePlay D st).samples = st.samples ∧
    (SourcePlay D st).schan = st.schan ∧
    (SourcePlay D st).dev = (D.SourcePlay st.dev).1 := by
  unfold SourcePlay
  simp only [(raise_frame _ _).1, (raise_frame _ _).2.1, (raise_frame _ _).2.2.1,
    (raise_frame _ _).2.2.2.1, and_self]

end Frame

/-! ## The chunks through one turn of the loop -/

section Chunks

variable {σ : Type} (D : Device σ)

theorem Quiet.refl (st : RunState σ) : Quiet st st :=
  ⟨⟨[], by simp, rfl, rfl, rfl⟩, rfl, rfl⟩

theorem Quiet.trans {a b c : RunState σ} (h1 : Quiet a b) (h2 : Quiet b c) : Quiet a c := by
  obtain ⟨⟨e1, t1, w1, r1, u1⟩, s1, c1⟩ := h1
  obtain ⟨⟨e2, t2, w2, r2, u2⟩, s2, c2⟩ := h2
  refine ⟨⟨e1 ++ e2, ?_, ?_, ?_, ?_⟩, s2.trans s1, c2.trans c1⟩
  · rw [t2, t1, List.append_assoc]
  · rw [writes_append, w1, w2]; rfl
  · rw [received_append, r1, r2]; rfl
  · rw [unqueued_append, u1, u2]; rfl

theorem Quiet_GetSourcei (p : Param) (st : RunState σ) : Quiet st (GetSourcei D p st) :=
  ⟨⟨_, GetSourcei_trace D p st, rfl, rfl, rfl⟩, GetSourcei_samples D p st,
    GetSourcei_schan D p st⟩

theorem Quiet_SourcePlay (st : RunState σ) : Quiet st (SourcePlay D st) :=
  ⟨⟨_, (SourcePlay_frame D st).1, rfl, rfl, rfl⟩, (SourcePlay_frame D st).2.1,
    (SourcePlay_frame D st).2.2.1⟩

theorem pollProcessed_spec (fuel : Nat) (st : RunState σ) :
    Quiet st (pollProcessed D fuel st).2 ∧
    ((pollProcessed D fuel st).1 = Status.ok → 0 < (pollProcessed D fuel st).2.processed) ∧
    (pollProcessed D fuel st).1 ≠ Status.panicked := by
  induction fuel generalizing st with
  | zero => exact ⟨Quiet.refl st, by simp [pollProcessed], by simp [pollProcessed]⟩
  | succ fuel ih =>
    unfold pollProcessed
    by_cases h : (GetSourcei D Param.BUFFERS_PROCESSED st).processed > 0
    · rw [if_pos h]
      exact ⟨Quiet_GetSourcei D _ st, fun _ => h, by simp⟩
    · rw [if_neg h]
      obtain ⟨q, hp, hn⟩ := ih (GetSourcei D Param.BUFFERS_PROCESSED st)
      exact ⟨(Quiet_GetSourcei D _ st).trans q, hp, hn⟩

theorem resync_spec (fuel : Nat) (st : RunState σ) :
    Quiet st (resync D fuel st).2 ∧
    ((resync D fuel st).1 = Status.ok → 0 < st.processed ∨ 0 < st.queued →
      0 < (resync D fuel st).2.processed) ∧
    (resync D fuel st).1 ≠ Status.panicked := by
  induction fuel generalizing st with
  | zero =>
    unfold resync
    by_cases h : st.queued > 0
    · rw [if_pos h]; exact ⟨Quiet.refl st, by simp, by simp⟩
    · rw [if_neg h]
      exact ⟨Quiet.refl st, fun _ hp => hp.resolve_right h, by simp⟩
  | succ fuel ih =>
    unfold resync
    by_cases h : st.queued > 0
    · rw [if_pos h]
      have hq : (GetSourcei D Param.BUFFERS_PROCESSED st).queued > 0 := by
        rw [GetSourcei_processed_queued]; exact h
      by_cases he : (GetSourcei D Param.BUFFERS_PROCESSED st).processed
          = (GetSourcei D Param.BUFFERS_PROCESSED st).queued
      · rw [if_pos he]
        exact ⟨Quiet_GetSourcei D _ st, fun _ _ => by rw [he]; exact hq, by simp⟩
      · rw [if_neg he]
        obtain ⟨q, hp, hn⟩ := ih (GetSourcei D Param.BUFFERS_PROCESSED st)
        exact ⟨(Quiet_GetSourcei D _ st).trans q, fun hok _ => hp hok (Or.inr hq), hn⟩
    · rw [if_neg h]
      exact ⟨Quiet.refl st, fun _ hp => hp.resolve_right h, by simp⟩

theorem Quiet.nonEmpty {a b : RunState σ} (h : Quiet a b) (hn : NonEmpty a) : NonEmpty b := by
  unfold NonEmpty at *
  rw [h.samples, h.schan]; exact hn

theorem recv_cases (st : RunState σ) :
    (st.schan = [] ∧ recv st = (Status.blocked, st)) ∨
    (∃ c rest, st.schan = c :: rest ∧
      recv st = (Status.ok, { st with samples := some c, schan := rest,
                                      trace := st.trace ++ [Event.recv c] })) := by
  unfold recv
  cases h : st.schan with
  | nil => exact Or.inl ⟨rfl, rfl⟩
  | cons c rest => exact Or.inr ⟨c, rest, rfl, rfl⟩

theorem refill_cons_some (b : BufId) (rest : List BufId) (st : RunState σ) (c : Chunk)
    (hs : st.samples = some c)
    (ih : ∀ st1 : RunState σ, RefillSpec rest st1 (refill D rest st1)) :
    RefillSpec (b :: rest) st (refill D (b :: rest) st) := by
  unfold refill
  simp only [hs, andThen, Option.getD_some]
  cases c with
  | nil =>
    simp only [bufferData]
    refine ⟨⟨[Event.bufferData b []], rfl, rfl, by simp [received], by simp, by simp⟩,
      by simp, ?_⟩
    intro hn
    exact absurd rfl (hn.2 [] (by simp [hs]))
  | cons x xs =>
    simp only [bufferData]
    generalize hst2 : ({ SourceQueueBuffers D [b] (handler (D.BufferData st.dev b (x :: xs)).2
      { dev := (D.BufferData st.dev b (x :: xs)).1, handler := Handler.bufferData,
        running := st.running, state := st.state, queued := st.queued,
        processed := st.processed, samples := st.samples, schan := st.schan,
        trace := st.trace ++ [Event.bufferData b (x :: xs)], handled := st.handled,
        lost := st.lost }) with samples := none } : RunState σ) = st2
    have htr : st2.trace = st.trace ++ [Event.bufferData b (x :: xs),
        Event.SourceQueueBuffers [b]] := by
      rw [← hst2]
      simp [(SourceQueueBuffers_frame D _ _).1, (handler_frame _ _).1]
    have hch : st2.schan = st.schan := by
      rw [← hst2]
      simp [(SourceQueueBuffers_frame D _ _).2.2.1, (handler_frame _ _).2.2.1]
    have hsm : st2.samples = none := by rw [← hst2]
    obtain ⟨⟨evs, t, u, rc, j, w⟩, cl, sf⟩ := ih st2
    refine ⟨⟨[Event.bufferData b (x :: xs), Event.SourceQueueBuffers [b]] ++ evs,
      ?_, ?_, ?_, ?_, ?_⟩, ?_, ?_⟩
    · rw [t, htr, List.append_assoc]
    · rw [unqueued_append, u]; rfl
    · rw [received_append, ← hch, ← rc]; rfl
    · intro hp
      have j1 := j hp
      rw [hsm] at j1
      rw [written_append, received_append, hs]
      simp only [written, writes, received, List.map_cons, List.map_nil, Option.toList,
        List.nil_append, List.append_assoc, List.cons_append] at j1 ⊢
      rw [j1]
    · intro hok
      rw [writes_append, List.length_append, w hok]
      simp [writes, Nat.add_comm]
    · intro hok _
      cases rest with
      | nil => simpa [refill] using hsm
      | cons b1 rest1 => exact cl hok (by simp)
    · intro hn
      apply sf
      refine ⟨?_, by simp [hsm]⟩
      rw [hch]; exact hn.1

theorem refill_spec (bs : List BufId) (st : RunState σ) :
    RefillSpec bs st (refill D bs st) := by
  induction bs generalizing st with
  | nil =>
    refine ⟨⟨[], by simp [refill], rfl, by simp [refill, received], ?_,
      by simp [refill, writes]⟩,
      by simp, fun hn => ⟨by simp [refill], by simpa [refill] using hn⟩⟩
    intro _; simp [refill, written, writes, received]
  | cons b rest ih =>
    cases hs : st.samples with
    | some c => exact refill_cons_some D b rest st c hs ih
    | none =>
      rcases recv_cases st with ⟨hnil, hr⟩ | ⟨c, more, hc, hr⟩
      · have : refill D (b :: rest) st = (Status.blocked, st) := by
          unfold refill; simp [hs, hr, andThen]
        rw [this]
        refine ⟨⟨[], by simp, rfl, by simp [received], ?_, by simp⟩, by simp,
          fun hn => ⟨by simp, hn⟩⟩
        intro _; simp [written, writes, received]
      · obtain ⟨st1, hst1⟩ : ∃ st1 : RunState σ,
            st1 = { st with samples := some c, schan := more,
                            trace := st.trace ++ [Event.recv c] } := ⟨_, rfl⟩
        have heq : refill D (b :: rest) st = refill D (b :: rest) st1 := by
          rw [hst1]
          conv_lhs => unfold refill
          conv_rhs => unfold refill
          simp [hs, hr, andThen]
        have h1s : st1.samples = some c := by rw [hst1]
        have h1c : st1.schan = more := by rw [hst1]
        have h1t : st1.trace = st.trace ++ [Event.recv c] := by rw [hst1]
        rw [heq]
        obtain ⟨⟨evs, t, u, rc, j, w⟩, cl, sf⟩ := refill_cons_some D b rest st1 c h1s ih
        refine ⟨⟨[Event.recv c] ++ evs, ?_, ?_, ?_, ?_, ?_⟩, cl, ?_⟩
        · rw [t, h1t, List.append_assoc]
        · rw [unqueued_append, u]; rfl
        · rw [received_append, hc, ← h1c, ← rc]; rfl
        · intro hp
          have j1 := j hp
          rw [h1s] at j1
          rw [written_append, received_append, hs]
          simp only [written, writes, received, List.map_nil, Option.toList,
            List.nil_append, List.cons_append] at j1 ⊢
          exact j1
        · intro hok
          rw [writes_append, List.length_append, w hok]
          simp [writes]
        · intro hn
          apply sf
          refine ⟨?_, ?_⟩
          · intro ch hch
            rw [h1c] at hch
            exact hn.1 ch (by rw [hc]; exact List.mem_cons_of_mem _ hch)
          · intro ch hch
            rw [h1s] at hch
            have : ch = c := by simpa using hch.symm
            rw [this]
            exact hn.1 c (by rw [hc]; exact List.mem_cons_self _ _)

theorem andThen_ok (r : Status × RunState σ) (k : RunState σ → Status × RunState σ)
    (h : r.1 = Status.ok) : andThen r k = k r.2 := by
  unfold andThen; rw [h]

theorem andThen_stop (r : Status × RunState σ) (k : RunState σ → Status × RunState σ)
    (h : r.1 ≠ Status.ok) : andThen r k = r := by
  unfold andThen
  cases hr : r.1 <;> first | exact absurd hr h | rfl

theorem waitProcessed_spec (fuel : Nat) (st : RunState σ) :
    Quiet st (waitProcessed D fuel st).2 ∧
    ((waitProcessed D fuel st).1 = Status.ok → 0 < (waitProcessed D fuel st).2.processed) ∧
    (waitProcessed D fuel st).1 ≠ Status.panicked := by
  obtain ⟨q1, p1, n1⟩ := pollProcessed_spec D fuel st
  unfold waitProcessed
  by_cases hok : (pollProcessed D fuel st).1 = Status.ok
  · rw [andThen_ok _ _ hok]
    have p2 : 0 < (GetSourcei D Param.SOURCE_STATE (pollProcessed D fuel st).2).processed := by
      rw [GetSourcei_other_processed D _ (by decide)]; exact p1 hok
    have q2 := q1.trans (Quiet_GetSourcei D Param.SOURCE_STATE (pollProcessed D fuel st).2)
    by_cases hs : (GetSourcei D Param.SOURCE_STATE (pollProcessed D fuel st).2).state ≠ PLAYING
    · dsimp only
      rw [if_pos hs]
      obtain ⟨q3, p3, n3⟩ := resync_spec D fuel
        (GetSourcei D Param.SOURCE_STATE (pollProcessed D fuel st).2)
      exact ⟨q2.trans q3, fun h => p3 h (Or.inl p2), n3⟩
    · dsimp only
      rw [if_neg hs]
      exact ⟨q2, fun _ => p2, by simp⟩
  · rw [andThen_stop _ _ hok]
    exact ⟨q1, fun h => absurd h hok, n1⟩

theorem unqueue_spec (st : RunState σ) (hp : 0 < st.processed) :
    ∃ st' pb, unqueue D st = (Status.ok, st', pb) ∧
      st'.trace = st.trace ++ [Event.SourceUnqueueBuffers pb] ∧
      st'.samples = st.samples ∧ st'.schan = st.schan ∧ 1 ≤ pb.length := by
  unfold unqueue
  rw [if_neg (by omega)]
  refine ⟨_, _, rfl, ?_, ?_, ?_, ?_⟩
  · rw [(raise_frame _ _).1]
  · rw [(raise_frame _ _).2.1]
  · rw [(raise_frame _ _).2.2.1]
  · have : 1 ≤ st.processed.toNat := by omega
    simp only [List.length_take, List.length_append, List.length_replicate]
    omega

theorem dequeueRefill_spec (st : RunState σ) (hp : 0 < st.processed) :
    DequeueSpec st (dequeueRefill D st) := by
  obtain ⟨st1, pb, hu, ht, hs, hc, hl⟩ := unqueue_spec D st hp
  unfold dequeueRefill
  rw [hu]
  simp only
  obtain ⟨⟨evs, t, u, rc, j, w⟩, cl, sf⟩ := refill_spec D pb st1
  have hne : pb ≠ [] := by
    intro h; rw [h] at hl; simp at hl
  by_cases hok : (refill D pb st1).1 = Status.ok
  · rw [andThen_ok _ _ hok]
    have q : Quiet (refill D pb st1).2
        (if (GetSourcei D Param.SOURCE_STATE
              (GetSourcei D Param.BUFFERS_QUEUED (refill D pb st1).2)).state ≠ PLAYING
          then (Status.ok, SourcePlay D (GetSourcei D Param.SOURCE_STATE
              (GetSourcei D Param.BUFFERS_QUEUED (refill D pb st1).2)))
          else (Status.ok, GetSourcei D Param.SOURCE_STATE
              (GetSourcei D Param.BUFFERS_QUEUED (refill D pb st1).2))).2 := by
      have q2 := (Quiet_GetSourcei D Param.BUFFERS_QUEUED (refill D pb st1).2).trans
        (Quiet_GetSourcei D Param.SOURCE_STATE _)
      split
      · exact q2.trans (Quiet_SourcePlay D _)
      · exact q2
    have hst : (if (GetSourcei D Param.SOURCE_STATE
              (GetSourcei D Param.BUFFERS_QUEUED (refill D pb st1).2)).state ≠ PLAYING
          then (Status.ok, SourcePlay D (GetSourcei D Param.SOURCE_STATE
              (GetSourcei D Param.BUFFERS_QUEUED (refill D pb st1).2)))
          else (Status.ok, GetSourcei D Param.SOURCE_STATE
              (GetSourcei D Param.BUFFERS_QUEUED (refill D pb st1).2))).1 = Status.ok := by
      split <;> rfl
    generalize (if (GetSourcei D Param.SOURCE_STATE
              (GetSourcei D Param.BUFFERS_QUEUED (refill D pb st1).2)).state ≠ PLAYING
          then (Status.ok, SourcePlay D (GetSourcei D Param.SOURCE_STATE
              (GetSourcei D Param.BUFFERS_QUEUED (refill D pb st1).2)))
          else (Status.ok, GetSourcei D Param.SOURCE_STATE
              (GetSourcei D Param.BUFFERS_QUEUED (refill D pb st1).2))) = r at q hst
    obtain ⟨⟨e2, t2, w2, r2, u2⟩, s2, c2⟩ := q
    refine ⟨⟨evs ++ e2, pb, ?_, hl, ?_, ?_, ?_, ?_⟩, ?_⟩
    · rw [t2, t, ht]; simp
    · rw [unqueued_append, u, u2]; rfl
    · rw [received_append, r2, c2, List.append_nil, rc, hc]
    · intro _
      have j1 := j (by rw [hok]; decide)
      rw [written_append, received_append, r2, s2, List.append_nil, ← hs]
      simp only [written] at j1 ⊢
      rw [w2]; simpa using j1
    · intro _
      refine ⟨?_, ?_⟩
      · rw [writes_append, w2, List.append_nil]; exact w hok
      · rw [s2]; exact cl hok hne
    · intro hn
      have hn1 : NonEmpty st1 := by
        unfold NonEmpty at *; rw [hs, hc]; exact hn
      refine ⟨by rw [hst]; decide, ?_⟩
      have := (sf hn1).2
      unfold NonEmpty at *; rw [s2, c2]; exact this
  · rw [andThen_stop _ _ hok]
    refine ⟨⟨evs, pb, ?_, hl, u, ?_, ?_, fun h => absurd h hok⟩, ?_⟩
    · rw [t, ht]; simp
    · rw [rc, hc]
    · intro hnp; rw [← hs]; exact j hnp
    · intro hn
      apply sf
      unfold NonEmpty at *; rw [hs, hc]; exact hn

theorem iteration_spec (fuel : Nat) (st : RunState σ) :
    IterSpec st (iteration D fuel st) := by
  rcases recv_cases st with ⟨_, hr⟩ | ⟨c, more, hc, hr⟩
  · have : iteration D fuel st = (Status.blocked, st) := by
      unfold iteration; rw [hr]; rfl
    rw [this]
    refine ⟨⟨[], by simp, by simp [received], by simp [unqueued], ?_, by simp⟩, by simp,
      fun hn => ⟨by simp, hn⟩⟩
    intro _ hs; simp [hs, written, writes, received]
  · obtain ⟨st1, hst1⟩ : ∃ st1 : RunState σ,
        st1 = { st with samples := some c, schan := more,
                        trace := st.trace ++ [Event.recv c] } := ⟨_, rfl⟩
    have h1s : st1.samples = some c := by rw [hst1]
    have h1c : st1.schan = more := by rw [hst1]
    have h1t : st1.trace = st.trace ++ [Event.recv c] := by rw [hst1]
    have heq : iteration D fuel st = andThen (waitProcessed D fuel st1) (dequeueRefill D) := by
      unfold iteration; rw [hr, hst1]; rfl
    rw [heq]
    obtain ⟨⟨⟨e1, t1, w1, r1, u1⟩, s1, c1⟩, p1, n1⟩ := waitProcessed_spec D fuel st1
    have hne1 : NonEmpty st → NonEmpty (waitProcessed D fuel st1).2 := by
      intro hn
      unfold NonEmpty at *
      rw [s1, c1, h1s, h1c]
      refine ⟨fun ch hch => hn.1 ch (by rw [hc]; exact List.mem_cons_of_mem _ hch), ?_⟩
      intro ch hch
      have : ch = c := by simpa using hch.symm
      rw [this]; exact hn.1 c (by rw [hc]; exact List.mem_cons_self _ _)
    by_cases hok : (waitProcessed D fuel st1).1 = Status.ok
    · rw [andThen_ok _ _ hok]
      obtain ⟨⟨e3, pb, t3, hl, u3, rc3, j3, w3⟩, sf3⟩ :=
        dequeueRefill_spec D (waitProcessed D fuel st1).2 (p1 hok)
      refine ⟨⟨[Event.recv c] ++ e1 ++ Event.SourceUnqueueBuffers pb :: e3,
        ?_, ?_, ?_, ?_, ?_⟩, fun h => (w3 h).2, fun hn => sf3 (hne1 hn)⟩
      · rw [t3, t1, h1t]; simp
      · rw [received_append, received_append, r1, hc, ← h1c, ← c1, ← rc3]
        simp [received]
      · intro q hq
        rw [unqueued_append, unqueued_append, u1] at hq
        simp only [unqueued, List.nil_append, u3, List.mem_singleton] at hq
        rw [hq]; exact hl
      · intro hnp _
        have j := j3 hnp
        rw [s1, h1s] at j
        rw [written_append, written_append, received_append, received_append, r1]
        simp only [written, writes, w1, received, List.map_nil, List.nil_append,
          List.append_nil, Option.toList, List.cons_append] at j ⊢
        exact j
      · intro h
        obtain ⟨hw, hsn⟩ := w3 h
        have j := j3 (by rw [h]; decide)
        rw [s1, h1s, hsn] at j
        have hwr : written ([Event.recv c] ++ e1 ++ Event.SourceUnqueueBuffers pb :: e3)
            = received ([Event.recv c] ++ e1 ++ Event.SourceUnqueueBuffers pb :: e3) := by
          rw [written_append, written_append, received_append, received_append, r1]
          simp only [written, writes, w1, received, List.map_nil, List.nil_append,
            List.append_nil, Option.toList, List.cons_append] at j ⊢
          exact j
        have hwl : (writes ([Event.recv c] ++ e1 ++ Event.SourceUnqueueBuffers pb :: e3)).length
            = pb.length := by
          rw [writes_append, writes_append, w1]
          simpa [writes] using hw
        refine ⟨pb, ?_, hl, ?_, hwl, hwr⟩
        · rw [unqueued_append, unqueued_append, u1]
          simp [unqueued, u3]
        · rw [← hwr, ← hwl, written, List.length_map]
    · rw [andThen_stop _ _ hok]
      refine ⟨⟨[Event.recv c] ++ e1, ?_, ?_, ?_, ?_, fun h => absurd h hok⟩,
        fun h => absurd h hok, fun hn => ⟨n1, hne1 hn⟩⟩
      · rw [t1, h1t, List.append_assoc]
      · rw [received_append, r1, c1, h1c, hc]; simp [received]
      · intro q hq
        rw [unqueued_append, u1] at hq
        simp [unqueued] at hq
      · intro _ _
        rw [written_append, received_append, r1, s1, h1s]
        simp [written, writes, w1, received]

theorem andThen_not_returned (r : Status × RunState σ)
    (k : RunState σ → Status × RunState σ) (hr : r.1 ≠ Status.returned)
    (hk : ∀ st, (k st).1 ≠ Status.returned) : (andThen r k).1 ≠ Status.returned := by
  by_cases hok : r.1 = Status.ok
  · rw [andThen_ok _ _ hok]; exact hk _
  · rw [andThen_stop _ _ hok]; exact hr

theorem pollProcessed_not_returned (fuel : Nat) (st : RunState σ) :
    (pollProcessed D fuel st).1 ≠ Status.returned := by
  induction fuel generalizing st with
  | zero => simp [pollProcessed]
  | succ fuel ih =>
    unfold pollProcessed
    dsimp only
    split
    · simp
    · exact ih _

theorem resync_not_returned (fuel : Nat) (st : RunState σ) :
    (resync D fuel st).1 ≠ Status.returned := by
  induction fuel generalizing st with
  | zero => unfold resync; split <;> simp
  | succ fuel ih =>
    unfold resync
    dsimp only
    split
    · split
      · simp
      · exact ih _
    · simp

theorem waitProcessed_not_returned (fuel : Nat) (st : RunState σ) :
    (waitProcessed D fuel st).1 ≠ Status.returned := by
  unfold waitProcessed
  apply andThen_not_returned _ _ (pollProcessed_not_returned D fuel st)
  intro st1
  dsimp only
  split
  · exact resync_not_returned D fuel _
  · simp

theorem refill_not_returned (bs : List BufId) (st : RunState σ) :
    (refill D bs st).1 ≠ Status.returned := by
  induction bs generalizing st with
  | nil => simp [refill]
  | cons b rest ih =>
    unfold refill
    apply andThen_not_returned
    · cases st.samples with
      | none => rcases recv_cases st with ⟨_, h⟩ | ⟨_, _, _, h⟩ <;> simp [h]
      | some c => simp
    · intro st1
      unfold bufferData
      cases st1.samples.getD [] with
      | nil => simp
      | cons x xs => exact ih _

theorem dequeueRefill_not_returned (st : RunState σ) :
    (dequeueRefill D st).1 ≠ Status.returned := by
  unfold dequeueRefill unqueue
  by_cases h : st.processed < 0
  · rw [if_pos h]; simp
  · rw [if_neg h]
    dsimp only
    apply andThen_not_returned _ _ (refill_not_returned D _ _)
    intro st1
    dsimp only
    split <;> simp

theorem iteration_not_returned (fuel : Nat) (st : RunState σ) :
    (iteration D fuel st).1 ≠ Status.returned := by
  unfold iteration
  apply andThen_not_returned
  · rcases recv_cases st with ⟨_, h⟩ | ⟨_, _, _, h⟩ <;> simp [h]
  · intro st1
    exact andThen_not_returned _ _ (waitProcessed_not_returned D fuel st1)
      (dequeueRefill_not_returned D)

theorem loop_spec (fuel iters : Nat) (st : RunState σ) (hs : st.samples = none) :
    LoopSpec st (loop D fuel iters st) := by
  induction iters generalizing st with
  | zero =>
    refine ⟨⟨[], by simp [loop], by simp [loop, received], by simp [unqueued], ?_⟩,
      fun _ => by simpa [loop] using hs, fun _ => by simp [loop]⟩
    intro _; simp [loop, hs, written, writes, received]
  | succ n ih =>
    unfold loop
    by_cases hrun : st.running = true
    · rw [if_pos hrun]
      obtain ⟨⟨e1, t1, rc1, u1, j1, o1⟩, cl1, sf1⟩ := iteration_spec D fuel st
      by_cases hok : (iteration D fuel st).1 = Status.ok
      · rw [andThen_ok _ _ hok]
        have hs1 := cl1 hok
        obtain ⟨⟨e2, t2, rc2, u2, j2⟩, cl2, sf2⟩ := ih (iteration D fuel st).2 hs1
        obtain ⟨pb, _, _, _, _, hwr⟩ := o1 hok
        refine ⟨⟨e1 ++ e2, ?_, ?_, ?_, ?_⟩, cl2, fun hn => sf2 (sf1 hn).2⟩
        · rw [t2, t1, List.append_assoc]
        · rw [received_append, List.append_assoc, rc2, rc1]
        · intro q hq
          rw [unqueued_append] at hq
          rcases List.mem_append.mp hq with h | h
          · exact u1 q h
          · exact u2 q h
        · intro hnp
          rw [written_append, received_append, List.append_assoc, j2 hnp, hwr]
      · rw [andThen_stop _ _ hok]
        refine ⟨⟨e1, t1, rc1, u1, fun hnp => j1 hnp hs⟩, ?_, fun hn => (sf1 hn).1⟩
        rintro (h | h)
        · exact absurd h hok
        · exact absurd h (iteration_not_returned D fuel st)
    · rw [if_neg hrun]
      refine ⟨⟨[], by simp, by simp [received], by simp [unqueued], ?_⟩,
        fun _ => hs, fun _ => by simp⟩
      intro _; simp [hs, written, writes, received]

end Chunks

/-! ## Turns that run to their end -/

section Progress

variable {σ : Type} (D : Device σ)

theorem refill_cons_blocked (b : BufId) (rest : List BufId) (st : RunState σ)
    (hs : st.samples = none) (hc : st.schan = []) :
    refill D (b :: rest) st = (Status.blocked, st) := by
  unfold refill
  simp [hs, hc, recv, andThen]

theorem refill_cons_recv (b : BufId) (rest : List BufId) (st : RunState σ) (c : Chunk)
    (more : List Chunk) (hs : st.samples = none) (hc : st.schan = c :: more) :
    refill D (b :: rest) st
      = refill D (b :: rest) { st with samples := some c, schan := more,
                                       trace := st.trace ++ [Event.recv c] } := by
  conv_lhs => unfold refill
  conv_rhs => unfold refill
  simp [hs, hc, recv, andThen]

theorem refill_cons_panic (b : BufId) (rest : List BufId) (st : RunState σ)
    (hs : st.samples = some []) : (refill D (b :: rest) st).1 = Status.panicked := by
  unfold refill
  simp [hs, andThen, bufferData]

theorem refill_cons_step (b : BufId) (rest : List BufId) (st : RunState σ) (x : Sample)
    (xs : List Sample) (hs : st.samples = some (x :: xs)) :
    refill D (b :: rest) st = refill D rest (refillBody D b (x :: xs) st) := by
  conv_lhs => unfold refill
  unfold refillBody
  simp only [hs, andThen, Option.getD_some, bufferData]

theorem refillBody_frame (b : BufId) (c : Chunk) (st : RunState σ) :
    (refillBody D b c st).samples = none ∧ (refillBody D b c st).schan = st.schan ∧
    (refillBody D b c st).trace
      = st.trace ++ [Event.bufferData b c, Event.SourceQueueBuffers [b]] := by
  unfold refillBody
  refine ⟨rfl, ?_, ?_⟩
  · show (SourceQueueBuffers D [b] _).schan = _
    rw [(SourceQueueBuffers_frame D _ _).2.2.1, (handler_frame _ _).2.2.1]
  · show (SourceQueueBuffers D [b] _).trace = _
    rw [(SourceQueueBuffers_frame D _ _).1, (handler_frame _ _).1]
    simp

/-- The refill loop blocks only on an empty channel with nothing held. -/
theorem refill_blocked (bs : List BufId) :
    ∀ st : RunState σ, (refill D bs st).1 = Status.blocked →
      (refill D bs st).2.schan = [] ∧ (refill D bs st).2.samples = none := by
  induction bs with
  | nil => intro st h; simp [refill] at h
  | cons b rest ih =>
    have hsome : ∀ (st : RunState σ) (c : Chunk), st.samples = some c →
        (refill D (b :: rest) st).1 = Status.blocked →
        (refill D (b :: rest) st).2.schan = [] ∧ (refill D (b :: rest) st).2.samples = none := by
      intro st c hs
      cases c with
      | nil => intro h; rw [refill_cons_panic D b rest st hs] at h; exact absurd h (by decide)
      | cons x xs => rw [refill_cons_step D b rest st x xs hs]; exact ih _
    intro st
    cases hs : st.samples with
    | some c => exact hsome st c hs
    | none =>
      cases hc : st.schan with
      | nil =>
        rw [refill_cons_blocked D b rest st hs hc]
        intro _; exact ⟨hc, hs⟩
      | cons c more =>
        rw [refill_cons_recv D b rest st c more hs hc]
        exact hsome _ c rfl

/-- The refill loop runs to its end when no chunk is empty and the channel
holds the chunks it needs. -/
theorem refill_total (bs : List BufId) :
    ∀ st : RunState σ, NonEmpty st →
      bs.length ≤ st.samples.toList.length + st.schan.length →
      (refill D bs st).1 = Status.ok := by
  induction bs with
  | nil => intro st _ _; rfl
  | cons b rest ih =>
    have hsome : ∀ (st : RunState σ) (c : Chunk), st.samples = some c → NonEmpty st →
        rest.length ≤ st.schan.length → (refill D (b :: rest) st).1 = Status.ok := by
      intro st c hs hn hl
      cases c with
      | nil => exact absurd rfl (hn.2 [] (by simp [hs]))
      | cons x xs =>
        rw [refill_cons_step D b rest st x xs hs]
        obtain ⟨h1, h2, _⟩ := refillBody_frame D b (x :: xs) st
        apply ih
        · unfold NonEmpty
          rw [h1, h2]
          exact ⟨hn.1, by simp⟩
        · rw [h1, h2]; simpa using hl
    intro st hn hl
    cases hs : st.samples with
    | some c =>
      apply hsome st c hs hn
      rw [hs] at hl
      simp only [Option.toList, List.length_cons, List.length_nil] at hl
      omega
    | none =>
      rw [hs] at hl
      cases hc : st.schan with
      | nil => rw [hc] at hl; simp at hl
      | cons c more =>
        rw [refill_cons_recv D b rest st c more hs hc]
        apply hsome _ c rfl
        · refine ⟨fun ch hch => hn.1 ch (by rw [hc]; exact List.mem_cons_of_mem _ hch), ?_⟩
          intro ch hch
          have : ch = c := by simpa using hch.symm
          rw [this]; exact hn.1 c (by rw [hc]; exact List.mem_cons_self _ _)
        · rw [hc] at hl
          simp only [Option.toList, List.length_cons, List.length_nil] at hl
          show rest.length ≤ more.length
          omega

theorem refill_status (bs : List BufId) :
    ∀ st : RunState σ, (refill D bs st).1 = Status.ok ∨ (refill D bs st).1 = Status.blocked ∨
      (refill D bs st).1 = Status.panicked := by
  induction bs with
  | nil => intro st; exact Or.inl rfl
  | cons b rest ih =>
    have hsome : ∀ (st : RunState σ) (c : Chunk), st.samples = some c →
        (refill D (b :: rest) st).1 = Status.ok ∨ (refill D (b :: rest) st).1 = Status.blocked ∨
          (refill D (b :: rest) st).1 = Status.panicked := by
      intro st c hs
      cases c with
      | nil => exact Or.inr (Or.inr (refill_cons_panic D b rest st hs))
      | cons x xs => rw [refill_cons_step D b rest st x xs hs]; exact ih _
    intro st
    cases hs : st.samples with
    | some c => exact hsome st c hs
    | none =>
      cases hc : st.schan with
      | nil => rw [refill_cons_blocked D b rest st hs hc]; exact Or.inr (Or.inl rfl)
      | cons c more =>
        rw [refill_cons_recv D b rest st c more hs hc]
        exact hsome _ c rfl

theorem dequeueRefill_status (st : RunState σ) (hp : 0 < st.processed) :
    (dequeueRefill D st).1 = Status.ok ∨ (dequeueRefill D st).1 = Status.blocked ∨
      (dequeueRefill D st).1 = Status.panicked := by
  obtain ⟨st1, pb, hu, _, _, _, _⟩ := unqueue_spec D st hp
  unfold dequeueRefill
  rw [hu]
  dsimp only
  by_cases hok : (refill D pb st1).1 = Status.ok
  · rw [andThen_ok _ _ hok]
    left
    split <;> rfl
  · rw [andThen_stop _ _ hok]
    exact refill_status D pb st1

theorem unqueue_length (st : RunState σ) (hp : 0 ≤ st.processed) :
    (unqueue D st).2.2.length = st.processed.toNat := by
  unfold unqueue
  rw [if_neg (by omega)]
  simp

theorem dequeueRefill_blocked (st : RunState σ) (hp : 0 < st.processed)
    (h : (dequeueRefill D st).1 = Status.blocked) :
    (dequeueRefill D st).2.schan = [] ∧ (dequeueRefill D st).2.samples = none := by
  obtain ⟨st1, pb, hu, _, _, _, _⟩ := unqueue_spec D st hp
  unfold dequeueRefill at h ⊢
  rw [hu] at h ⊢
  dsimp only at h ⊢
  by_cases hok : (refill D pb st1).1 = Status.ok
  · rw [andThen_ok _ _ hok] at h
    exfalso
    revert h
    split <;> simp
  · rw [andThen_stop _ _ hok] at h ⊢
    exact refill_blocked D pb st1 h

theorem dequeueRefill_total (st : RunState σ) (hp : 0 < st.processed) (hn : NonEmpty st)
    (hl : st.processed.toNat ≤ st.samples.toList.length + st.schan.length) :
    (dequeueRefill D st).1 = Status.ok := by
  obtain ⟨st1, pb, hu, _, hs, hc, _⟩ := unqueue_spec D st hp
  have hlen : pb.length = st.processed.toNat := by
    have := unqueue_length D st (by omega)
    rw [hu] at this; exact this
  have hr : (refill D pb st1).1 = Status.ok := by
    apply refill_total D pb st1
    · unfold NonEmpty at *; rw [hs, hc]; exact hn
    · rw [hs, hc, hlen]; exact hl
  unfold dequeueRefill
  rw [hu]
  dsimp only
  rw [andThen_ok _ _ hr]
  split <;> rfl

theorem iteration_recv (fuel : Nat) (st : RunState σ) (c : Chunk) (rest : List Chunk)
    (hc : st.schan = c :: rest) :
    iteration D fuel st = andThen (waitProcessed D fuel (recv st).2) (dequeueRefill D) ∧
    (recv st).2.samples = some c ∧ (recv st).2.schan = rest := by
  have hr : recv st = (Status.ok, { st with samples := some c, schan := rest,
                                            trace := st.trace ++ [Event.recv c] }) := by
    unfold recv; rw [hc]
  refine ⟨?_, by rw [hr], by rw [hr]⟩
  unfold iteration
  rw [hr]
  rfl

/-- A turn runs to its end when its waiting phase does, no chunk is empty
and the channel holds the chunks for all the buffers reported processed. -/
theorem iteration_total (fuel : Nat) (st : RunState σ) (c : Chunk) (rest : List Chunk)
    (hc : st.schan = c :: rest) (hn : NonEmpty st)
    (hw : (waitProcessed D fuel (recv st).2).1 = Status.ok)
    (hl : (waitProcessed D fuel (recv st).2).2.processed.toNat ≤ st.schan.length) :
    (iteration D fuel st).1 = Status.ok := by
  obtain ⟨heq, hs, hch⟩ := iteration_recv D fuel st c rest hc
  obtain ⟨q, hp, _⟩ := waitProcessed_spec D fuel (recv st).2
  rw [heq, andThen_ok _ _ hw]
  apply dequeueRefill_total D _ (hp hw)
  · apply q.nonEmpty
    unfold NonEmpty
    rw [hs, hch]
    refine ⟨fun ch h => hn.1 ch (by rw [hc]; exact List.mem_cons_of_mem _ h), ?_⟩
    intro ch h
    have : ch = c := by simpa using h.symm
    rw [this]; exact hn.1 c (by rw [hc]; exact List.mem_cons_self _ _)
  · rw [q.samples, q.schan, hs, hch]
    rw [hc] at hl
    simp only [Option.toList, List.length_cons, List.length_nil] at hl ⊢
    omega

end Progress

/-! ## Chunks of `stream` are never empty -/

theorem streamStep_emitted_ne_nil (c : Int) (st : StreamState) (x : Sample)
    (h : ∀ ch ∈ st.emitted, ch ≠ []) : ∀ ch ∈ (streamStep c st x).emitted, ch ≠ [] := by
  unfold streamStep
  dsimp only
  split
  · intro ch hch
    rcases List.mem_append.mp hch with h1 | h1
    · exact h ch h1
    · have : ch = st.samples ++ [x] := by simpa using h1
      rw [this]; simp
  · exact h

theorem foldl_emitted_ne_nil (c : Int) (xs : List Sample) :
    ∀ st : StreamState, (∀ ch ∈ st.emitted, ch ≠ []) →
      ∀ ch ∈ (xs.foldl (streamStep c) st).emitted, ch ≠ [] := by
  induction xs with
  | nil => intro st h; simpa using h
  | cons x xs ih =>
    intro st h
    exact ih _ (streamStep_emitted_ne_nil c st x h)

theorem stream_emitted_ne_nil (c : Int) (xs : List Sample) :
    ∀ ch ∈ (stream c xs).emitted, ch ≠ [] :=
  foldl_emitted_ne_nil c xs _ (by simp)

/-! ## Properties of `Run` over every device -/

section RunAny

variable {σ : Type} (D : Device σ)

theorem start_frame (audio : Azul3DAudio) (dev : σ) (schan : List Chunk) :
    (start D audio dev schan).trace
      = [Event.SourceQueueBuffers audio.buffers, Event.SourcePlay] ∧
    (start D audio dev schan).samples = none ∧
    (start D audio dev schan).schan = schan := by
  unfold start
  simp only [(SourcePlay_frame D _).1, (SourcePlay_frame D _).2.1, (SourcePlay_frame D _).2.2.1,
    (SourceQueueBuffers_frame D _ _).1, (SourceQueueBuffers_frame D _ _).2.1,
    (SourceQueueBuffers_frame D _ _).2.2.1]
  simp

end RunAny

/-- For every device and every observed run of `Run`: no panic occurs; the
chunks passed to `bufferData` followed by the chunk held in `samples` are
exactly the chunks received from `schan`, in order, and at the head of the
loop nothing is held, so the two sequences are equal; the chunks received are
the front of what `stream` emits; every dequeue is sized by a processed count
of at least 1; and a completed turn that dequeues `p` buffers receives exactly
`p` chunks and writes exactly those, the one fetched at the top included. -/
theorem Run_safety {σ : Type} (D : Device σ) (audio : Azul3DAudio)
    (dev : σ) (input : List Sample) (fuel iters : Nat) :
    (Run D audio dev input fuel iters).1 ≠ Status.panicked ∧
    written (Run D audio dev input fuel iters).2.trace
        ++ (Run D audio dev input fuel iters).2.samples.toList
      = received (Run D audio dev input fuel iters).2.trace ∧
    ((Run D audio dev input fuel iters).1 = Status.ok ∨
        (Run D audio dev input fuel iters).1 = Status.returned →
      written (Run D audio dev input fuel iters).2.trace
        = received (Run D audio dev input fuel iters).2.trace) ∧
    received (Run D audio dev input fuel iters).2.trace
        ++ (Run D audio dev input fuel iters).2.schan
      = (stream audio.sampleSize input).emitted ∧
    (∀ pb ∈ unqueued (Run D audio dev input fuel iters).2.trace, 1 ≤ pb.length) ∧
    (∀ st st1 : RunState σ, iteration D fuel st = (Status.ok, st1) →
      ∃ evs pb, st1.trace = st.trace ++ evs ∧ unqueued evs = [pb] ∧ 1 ≤ pb.length ∧
        (received evs).length = pb.length ∧ (writes evs).length = pb.length ∧
        written evs = received evs) := by
  obtain ⟨ht, hs, hc⟩ := start_frame D audio dev (stream audio.sampleSize input).emitted
  obtain ⟨⟨evs, t, rc, u, j⟩, cl, sf⟩ :=
    loop_spec D fuel iters (start D audio dev (stream audio.sampleSize input).emitted) hs
  have hne : NonEmpty (start D audio dev (stream audio.sampleSize input).emitted) := by
    unfold NonEmpty
    rw [hs, hc]
    exact ⟨stream_emitted_ne_nil _ _, by simp⟩
  have hnp := sf hne
  have hw : written (Run D audio dev input fuel iters).2.trace = written evs := by
    unfold Run RunOn
    rw [t, ht, written_append]; rfl
  have hr : received (Run D audio dev input fuel iters).2.trace = received evs := by
    unfold Run RunOn
    rw [t, ht, received_append]; rfl
  have hu : unqueued (Run D audio dev input fuel iters).2.trace = unqueued evs := by
    unfold Run RunOn
    rw [t, ht, unqueued_append]; rfl
  refine ⟨hnp, ?_, ?_, ?_, ?_, ?_⟩
  · rw [hw, hr]; exact j hnp
  · intro h
    have h0 := cl h
    have j0 := j hnp
    rw [h0] at j0
    rw [hw, hr]; simpa using j0
  · rw [hr, ← hc]; exact rc
  · rw [hu]; exact u
  · intro st st1 h
    obtain ⟨⟨e, t1, _, _, _, o1⟩, _, _⟩ := iteration_spec D fuel st
    rw [h] at t1 o1
    obtain ⟨pb, h1, h2, h3, h4, h5⟩ := o1 rfl
    exact ⟨e, pb, t1, h1, h2, h3, h4, h5⟩

/-! ## Buffers are filled only after being dequeued -/

section Fill

variable {σ : Type} (D : Device σ)

theorem pendingFill_append (tr evs : List Event) :
    pendingFill (tr ++ evs) = evs.foldl fillStep (pendingFill tr) := by
  unfold pendingFill
  rw [List.foldl_append]

theorem foldl_fillStep_quiet (evs : List Event) :
    ∀ p : List BufId, writes evs = [] → unqueued evs = [] →
      evs.foldl fillStep (some p) = some p := by
  induction evs with
  | nil => intro p _ _; rfl
  | cons e evs ih =>
    intro p hw hu
    cases e <;> simp [writes, unqueued] at hw hu <;> simpa [fillStep] using ih p hw hu

theorem Quiet.filled {a b : RunState σ} (h : Quiet a b) (p : List BufId)
    (hp : pendingFill a.trace = some p) : pendingFill b.trace = some p := by
  obtain ⟨⟨evs, t, w, _, u⟩, _, _⟩ := h
  rw [t, pendingFill_append, hp]
  exact foldl_fillStep_quiet evs p w u

theorem Quiet.keepsFilled {a b : RunState σ} (h : Quiet a b) (hf : Filled a) : Filled b := by
  obtain ⟨p, hp⟩ := hf
  exact ⟨p, h.filled p hp⟩

theorem refill_filled_cons_some (b : BufId) (rest : List BufId) (st : RunState σ) (c : Chunk)
    (hs : st.samples = some c) (hp : pendingFill st.trace = some (b :: rest))
    (ih : ∀ st1 : RunState σ, pendingFill st1.trace = some rest →
      Filled (refill D rest st1).2) :
    Filled (refill D (b :: rest) st).2 := by
  unfold refill
  simp only [hs, andThen, Option.getD_some]
  cases c with
  | nil =>
    simp only [bufferData]
    refine ⟨rest, ?_⟩
    rw [pendingFill_append, hp]
    simp [fillStep]
  | cons x xs =>
    simp only [bufferData]
    apply ih
    simp only [(SourceQueueBuffers_frame D _ _).1, (handler_frame _ _).1]
    rw [pendingFill_append, pendingFill_append, hp]
    simp [fillStep]

theorem refill_filled (bs : List BufId) :
    ∀ st : RunState σ, pendingFill st.trace = some bs → Filled (refill D bs st).2 := by
  induction bs with
  | nil => intro st hp; exact ⟨[], by simpa [refill] using hp⟩
  | cons b rest ih =>
    intro st hp
    cases hs : st.samples with
    | some c => exact refill_filled_cons_some D b rest st c hs hp ih
    | none =>
      rcases recv_cases st with ⟨_, hr⟩ | ⟨c, more, hc, hr⟩
      · have : refill D (b :: rest) st = (Status.blocked, st) := by
          unfold refill; simp [hs, hr, andThen]
        rw [this]
        exact ⟨_, hp⟩
      · obtain ⟨st1, hst1⟩ : ∃ st1 : RunState σ,
            st1 = { st with samples := some c, schan := more,
                            trace := st.trace ++ [Event.recv c] } := ⟨_, rfl⟩
        have heq : refill D (b :: rest) st = refill D (b :: rest) st1 := by
          rw [hst1]
          conv_lhs => unfold refill
          conv_rhs => unfold refill
          simp [hs, hr, andThen]
        rw [heq]
        apply refill_filled_cons_some D b rest st1 c (by rw [hst1]) _ ih
        rw [hst1]
        show pendingFill (st.trace ++ [Event.recv c]) = _
        rw [pendingFill_append, hp]
        rfl

theorem dequeueRefill_filled (st : RunState σ) (hf : Filled st) :
    Filled (dequeueRefill D st).2 := by
  unfold dequeueRefill unqueue
  by_cases hneg : st.processed < 0
  · rw [if_pos hneg]; exact hf
  · rw [if_neg hneg]
    dsimp only
    obtain ⟨p, hp⟩ := hf
    have hr := refill_filled D
      (List.take st.processed.toNat
        ((D.SourceUnqueueBuffers st.dev st.processed.toNat).2.1
          ++ List.replicate st.processed.toNat 0))
      (raise (D.SourceUnqueueBuffers st.dev st.processed.toNat).2.2
        { st with dev := (D.SourceUnqueueBuffers st.dev st.processed.toNat).1,
                  trace := st.trace ++ [Event.SourceUnqueueBuffers
                    (List.take st.processed.toNat
                      ((D.SourceUnqueueBuffers st.dev st.processed.toNat).2.1
                        ++ List.replicate st.processed.toNat 0))] })
      (by
        rw [(raise_frame _ _).1]
        show pendingFill (st.trace ++ [_]) = _
        rw [pendingFill_append, hp]
        rfl)
    by_cases hok : (refill D
      (List.take st.processed.toNat
        ((D.SourceUnqueueBuffers st.dev st.processed.toNat).2.1
          ++ List.replicate st.processed.toNat 0))
      (raise (D.SourceUnqueueBuffers st.dev st.processed.toNat).2.2
        { st with dev := (D.SourceUnqueueBuffers st.dev st.processed.toNat).1,
                  trace := st.trace ++ [Event.SourceUnqueueBuffers
                    (List.take st.processed.toNat
                      ((D.SourceUnqueueBuffers st.dev st.processed.toNat).2.1
                        ++ List.replicate st.processed.toNat 0))] })).1 = Status.ok
    · rw [andThen_ok _ _ hok]
      have q2 := (Quiet_GetSourcei D Param.BUFFERS_QUEUED _).keepsFilled hr
      have q3 := (Quiet_GetSourcei D Param.SOURCE_STATE _).keepsFilled q2
      split
      · exact (Quiet_SourcePlay D _).keepsFilled q3
      · exact q3
    · rw [andThen_stop _ _ hok]; exact hr

theorem iteration_filled (fuel : Nat) (st : RunState σ) (hf : Filled st) :
    Filled (iteration D fuel st).2 := by
  unfold iteration
  rcases recv_cases st with ⟨_, hr⟩ | ⟨c, more, _, hr⟩
  · rw [hr, andThen_stop _ _ (by simp)]; exact hf
  · rw [hr, andThen_ok _ _ rfl]
    dsimp only
    obtain ⟨st1, hst1⟩ : ∃ st1 : RunState σ,
        st1 = { st with samples := some c, schan := more,
                        trace := st.trace ++ [Event.recv c] } := ⟨_, rfl⟩
    rw [← hst1]
    have h1 : Filled st1 := by
      obtain ⟨p, hp⟩ := hf
      refine ⟨p, ?_⟩
      rw [hst1]
      show pendingFill (st.trace ++ [Event.recv c]) = _
      rw [pendingFill_append, hp]
      rfl
    have h2 := (waitProcessed_spec D fuel st1).1.keepsFilled h1
    by_cases hok : (waitProcessed D fuel st1).1 = Status.ok
    · rw [andThen_ok _ _ hok]
      exact dequeueRefill_filled D _ h2
    · rw [andThen_stop _ _ hok]; exact h2

theorem loop_filled (fuel iters : Nat) (st : RunState σ) (hf : Filled st) :
    Filled (loop D fuel iters st).2 := by
  induction iters generalizing st with
  | zero => exact hf
  | succ n ih =>
    unfold loop
    split
    · have h1 := iteration_filled D fuel st hf
      by_cases hok : (iteration D fuel st).1 = Status.ok
      · rw [andThen_ok _ _ hok]; exact ih _ h1
      · rw [andThen_stop _ _ hok]; exact h1
    · exact hf

end Fill

/-- C6, as the code has it: for every device, the first two things `Run`
does are `SourceQueueBuffers` on the whole pool and `SourcePlay`, with no call
to `bufferData` before them; and every call to `bufferData` comes after a
`SourceUnqueueBuffers` and hits the first buffer of the latest dequeued slice
that has not been filled yet, so a buffer is filled only inside the loop,
after it has been dequeued. -/
theorem Run_submits_before_filling {σ : Type} (D : Device σ) (audio : Azul3DAudio)
    (dev : σ) (input : List Sample) (fuel iters : Nat) :
    (∃ tail, (Run D audio dev input fuel iters).2.trace
      = Event.SourceQueueBuffers audio.buffers :: Event.SourcePlay :: tail) ∧
    writes (beforeSubmit (Run D audio dev input fuel iters).2.trace) = [] ∧
    (∃ pend, pendingFill (Run D audio dev input fuel iters).2.trace = some pend) := by
  obtain ⟨ht, hs, _⟩ := start_frame D audio dev (stream audio.sampleSize input).emitted
  obtain ⟨⟨evs, t, _⟩, _, _⟩ :=
    loop_spec D fuel iters (start D audio dev (stream audio.sampleSize input).emitted) hs
  have htr : (Run D audio dev input fuel iters).2.trace
      = Event.SourceQueueBuffers audio.buffers :: Event.SourcePlay :: evs := by
    unfold Run RunOn
    rw [t, ht]; rfl
  refine ⟨⟨evs, htr⟩, by rw [htr]; rfl, ?_⟩
  have h0 : Filled (start D audio dev (stream audio.sampleSize input).emitted) :=
    ⟨[], by rw [ht]; rfl⟩
  exact loop_filled D fuel iters _ h0

/-- C6, as the specification has it, fails: on the model device with pool
`[1, 2]` the trace of `Run` has `SourceQueueBuffers [1, 2]` and `SourcePlay`
as its first two events, with neither buffer filled before. -/
theorem Run_not_primed :
    ¬ filledBeforeSubmit (demoAudio 2).buffers
        (Run (sourceModel fun _ => 1) (demoAudio 2) freshSource [1, 2, 3, 4] 2 1).2.trace ∧
    (Run (sourceModel fun _ => 1) (demoAudio 2) freshSource [1, 2, 3, 4] 2 1).2.trace.take 2
      = [Event.SourceQueueBuffers [1, 2], Event.SourcePlay] := by
  decide

/-- C3, at a failing input: on a device whose `SourceQueueBuffers` is
rejected after the first call, the error raised in each of three turns goes to
the closure `bufferData` left installed; the `handler` of `Run` is never
called, `running` stays true and the loop goes on receiving chunks. -/
theorem Run_loses_device_error :
    (Run queueFailDevice (demoAudio 2) 0 [1, 2, 3, 4, 5, 6] 1 3).1 = Status.ok ∧
    (Run queueFailDevice (demoAudio 2) 0 [1, 2, 3, 4, 5, 6] 1 3).2.running = true ∧
    (Run queueFailDevice (demoAudio 2) 0 [1, 2, 3, 4, 5, 6] 1 3).2.handled = [] ∧
    (Run queueFailDevice (demoAudio 2) 0 [1, 2, 3, 4, 5, 6] 1 3).2.lost
      = [INVALID_OPERATION, INVALID_OPERATION, INVALID_OPERATION] ∧
    (Run queueFailDevice (demoAudio 2) 0 [1, 2, 3, 4, 5, 6] 1 3).2.handler
      = Handler.bufferData ∧
    received (Run queueFailDevice (demoAudio 2) 0 [1, 2, 3, 4, 5, 6] 1 3).2.trace
      = [[1, 2], [3, 4], [5, 6]] := by
  decide

/-! ## `NewAudio` -/

theorem firstNotBuffer_none {σ : Type} (D : Device σ) (dev : σ) (bufs : List BufId) :
    ∀ i, firstNotBuffer D dev i bufs = none ↔ bufs.all (D.IsBuffer dev) = true := by
  induction bufs with
  | nil => intro i; simp [firstNotBuffer]
  | cons b rest ih =>
    intro i
    unfold firstNotBuffer
    by_cases hb : D.IsBuffer dev b = true
    · simp [hb, ih (i + 1)]
    · simp [hb]

theorem NewAudio_in_range {σ : Type} (D : Device σ) (maxChan : Nat) (dev : σ)
    (installed : Handler) (frequency sampleSize : Int) (hs : 0 ≤ sampleSize)
    (hm : sampleSize ≤ (maxChan : Int)) :
    ∃ r a, NewAudio D maxChan (Except.ok dev) installed frequency sampleSize = some r ∧
      r.audio = some a ∧ a.sampleSize = sampleSize ∧
      (r.err = none ↔ created D dev = true) := by
  unfold NewAudio created
  dsimp only
  rw [if_neg (by omega)]
  by_cases h1 : D.IsSource (D.GenSources dev).1 (D.GenSources dev).2.1 = true
  · simp only [h1, not_true_eq_false, if_false]
    cases h2 : firstNotBuffer D (D.GenBuffers (D.Sourcei (D.GenSources dev).1
        (D.GenSources dev).2.1).1 2).1 0
        (List.take 2 ((D.GenBuffers (D.Sourcei (D.GenSources dev).1
          (D.GenSources dev).2.1).1 2).2.1 ++ List.replicate 2 0)) with
    | none =>
      have hall := (firstNotBuffer_none D _ _ 0).mp h2
      simp only [List.length_cons, List.length_nil, Nat.zero_add, Nat.reduceAdd, h2]
      refine ⟨_, _, rfl, rfl, rfl, ?_⟩
      · simp only [hall, Bool.and_true, Bool.true_and]
        cases (D.GenSources dev).2.2 <;>
          cases (D.Sourcei (D.GenSources dev).1 (D.GenSources dev).2.1).2 <;>
          cases (D.GenBuffers (D.Sourcei (D.GenSources dev).1
            (D.GenSources dev).2.1).1 2).2.2 <;> simp [setErr]
    | some i =>
      have hall : ¬ (List.take 2 ((D.GenBuffers (D.Sourcei (D.GenSources dev).1
          (D.GenSources dev).2.1).1 2).2.1 ++ List.replicate 2 0)).all
          (D.IsBuffer (D.GenBuffers (D.Sourcei (D.GenSources dev).1
            (D.GenSources dev).2.1).1 2).1) = true := by
        intro h
        have := (firstNotBuffer_none D _ _ 0).mpr h
        rw [h2] at this; exact absurd this (by simp)
      simp only [List.length_cons, List.length_nil, Nat.zero_add, Nat.reduceAdd, h2]
      refine ⟨_, _, rfl, rfl, rfl, ?_⟩
      · simp only [Bool.not_eq_true] at hall
        rw [hall]; simp
  · simp only [h1, not_false_eq_true, if_true]
    refine ⟨_, _, rfl, rfl, rfl, ?_⟩
    simp only [Bool.not_eq_true] at h1
    simp [h1]

/-- C7, as the code has it: `NewAudio` does not reject a chunk size of zero.
Called with `sampleSize` 0 on an opened device, whatever the platform limit on
channel capacities, it returns an `Azul3DAudio` whose `sampleSize` is 0, and
its error is nil exactly when the device calls succeed. -/
theorem NewAudio_zero_sampleSize_unchecked {σ : Type} (D : Device σ) (maxChan : Nat) (dev : σ)
    (installed : Handler) (frequency : Int) :
    ∃ r a, NewAudio D maxChan (Except.ok dev) installed frequency 0 = some r ∧
      r.audio = some a ∧ a.sampleSize = 0 ∧
      (r.err = none ↔ created D dev = true) :=
  NewAudio_in_range D maxChan dev installed frequency 0 (le_refl 0) (by omega)

/-- C7, as the specification has it, fails: with chunk size zero and a
device on which every call succeeds, `NewAudio` returns an `Azul3DAudio` and
a nil error. -/
theorem NewAudio_accepts_zero_sampleSize :
    created fifoDevice freshFifo = true ∧
    (NewAudio fifoDevice (2 ^ 47) (Except.ok freshFifo) Handler.newAudio
        44100 0).map (fun r => (r.audio, r.err))
      = some (some { paused := false, frequency := 44100, source := 1, buffers := [1, 2],
                     sampleSize := 0 }, none) := by
  decide

/-! ## Relations kept by every step of `Run` -/

section Steps

variable {σ : Type} {D : Device σ} {R : RunState σ → RunState σ → Prop}

theorem PollRel.andThen (h : PollRel D R) (a : RunState σ) (r : Status × RunState σ)
    (k : RunState σ → Status × RunState σ) (hr : R a r.2) (hk : ∀ s, R s (k s).2) :
    R a (andThen r k).2 := by
  by_cases hok : r.1 = Status.ok
  · rw [andThen_ok _ _ hok]; exact h.trans _ _ _ hr (hk _)
  · rw [andThen_stop _ _ hok]; exact hr

theorem PollRel.pollProcessed (h : PollRel D R) (fuel : Nat) (st : RunState σ) :
    R st (pollProcessed D fuel st).2 := by
  induction fuel generalizing st with
  | zero => exact h.refl st
  | succ fuel ih =>
    unfold AudioExperiments.pollProcessed
    dsimp only
    split
    · exact h.get _ st
    · exact h.trans _ _ _ (h.get _ st) (ih _)

theorem PollRel.resync (h : PollRel D R) (fuel : Nat) (st : RunState σ) :
    R st (resync D fuel st).2 := by
  induction fuel generalizing st with
  | zero => unfold AudioExperiments.resync; split <;> exact h.refl st
  | succ fuel ih =>
    unfold AudioExperiments.resync
    dsimp only
    split
    · split
      · exact h.get _ st
      · exact h.trans _ _ _ (h.get _ st) (ih _)
    · exact h.refl st

theorem PollRel.waitTail (h : PollRel D R) (fuel : Nat) (st : RunState σ) :
    R st (if (GetSourcei D Param.SOURCE_STATE st).state ≠ PLAYING
      then AudioExperiments.resync D fuel (GetSourcei D Param.SOURCE_STATE st)
      else (Status.ok, GetSourcei D Param.SOURCE_STATE st)).2 := by
  split
  · exact h.trans _ _ _ (h.get _ st) (h.resync fuel _)
  · exact h.get _ st

theorem PollRel.waitProcessed (h : PollRel D R) (fuel : Nat) (st : RunState σ) :
    R st (waitProcessed D fuel st).2 := by
  unfold AudioExperiments.waitProcessed
  exact h.andThen st _ _ (h.pollProcessed fuel st) (fun s => h.waitTail fuel s)

/-- A property kept by every `GetSourcei` call is kept by the waiting phase. -/
theorem waitProcessed_pres (P : RunState σ → Prop)
    (hget : ∀ p st, P st → P (GetSourcei D p st)) (fuel : Nat) (st : RunState σ) (h : P st) :
    P (waitProcessed D fuel st).2 := by
  have hrel : PollRel D (fun a b => P a → P b) :=
    { refl := fun _ h => h
      trans := fun _ _ _ h1 h2 h => h2 (h1 h)
      get := hget }
  exact hrel.waitProcessed fuel st h

theorem StepRel.refill (h : StepRel D R) (bs : List BufId) :
    ∀ st : RunState σ, R st (refill D bs st).2 := by
  induction bs with
  | nil => intro st; exact h.refl st
  | cons b rest ih =>
    intro st
    unfold AudioExperiments.refill
    apply h.andThen
    · cases st.samples with
      | none => exact h.recv st
      | some c => exact h.refl st
    · intro s
      have hf := h.fill b (s.samples.getD []) s
      rcases hb : bufferData D b (s.samples.getD []) s with ⟨status, s2, err⟩
      rw [hb] at hf
      cases status with
      | ok =>
        dsimp only
        refine h.trans _ _ _ hf (h.trans _ _ _ (h.handler err s2)
          (h.trans _ _ _ (h.queue [b] _) (h.trans _ _ _ (h.clear _) (ih _))))
      | returned => exact hf
      | blocked => exact hf
      | spinning => exact hf
      | panicked => exact hf

theorem StepRel.dequeueRefill (h : StepRel D R) (st : RunState σ) :
    R st (dequeueRefill D st).2 := by
  have hu := h.unqueue st
  unfold AudioExperiments.dequeueRefill
  rcases hq : AudioExperiments.unqueue D st with ⟨status, s1, pb⟩
  rw [hq] at hu
  cases status with
  | ok =>
    dsimp only
    refine h.trans _ _ _ hu (h.andThen s1 _ _ (h.refill pb s1) ?_)
    intro s
    dsimp only
    split
    · exact h.trans _ _ _ (h.get _ s) (h.trans _ _ _ (h.get _ _) (h.play _))
    · exact h.trans _ _ _ (h.get _ s) (h.get _ _)
  | returned => exact hu
  | blocked => exact hu
  | spinning => exact hu
  | panicked => exact hu

theorem StepRel.iteration (h : StepRel D R) (fuel : Nat) (st : RunState σ) :
    R st (iteration D fuel st).2 := by
  unfold AudioExperiments.iteration
  refine h.andThen st _ _ (h.recv st) (fun s => ?_)
  exact h.andThen s _ _ (h.waitProcessed fuel s) (fun s1 => h.dequeueRefill s1)

theorem StepRel.loop (h : StepRel D R) (fuel iters : Nat) :
    ∀ st : RunState σ, R st (loop D fuel iters st).2 := by
  induction iters with
  | zero => intro st; exact h.refl st
  | succ n ih =>
    intro st
    unfold AudioExperiments.loop
    split
    · exact h.andThen st _ _ (h.iteration fuel st) ih
    · exact h.refl st

theorem StepRel.resume (h : StepRel D R) (fuel iters : Nat) (st : RunState σ) :
    R st (resume D fuel iters st).2 := by
  unfold AudioExperiments.resume
  exact h.andThen st _ _ (h.iteration fuel st) (h.loop fuel iters)

end Steps

section Flags

variable {σ : Type} (D : Device σ)

theorem Flag.of_eq {a b : RunState σ} (hr : b.running = a.running)
    (hh : b.handled = a.handled) : Flag a b :=
  Or.inl ⟨hr, hh⟩

theorem Flag_trans {a b c : RunState σ} (h1 : Flag a b) (h2 : Flag b c) : Flag a c := by
  rcases h1 with ⟨r1, e1⟩ | ⟨r1, e, es, e1⟩
  · rcases h2 with ⟨r2, e2⟩ | ⟨r2, e', es', e2⟩
    · exact Or.inl ⟨r2.trans r1, e2.trans e1⟩
    · exact Or.inr ⟨r2, e', es', by rw [e2, e1]⟩
  · rcases h2 with ⟨r2, e2⟩ | ⟨r2, e', es', e2⟩
    · exact Or.inr ⟨r2.trans r1, e, es, by rw [e2, e1]⟩
    · exact Or.inr ⟨r2, e, es ++ e' :: es', by rw [e2, e1]; simp⟩

theorem Flag.handler (e : Option AlError) (st : RunState σ) : Flag st (handler e st) := by
  cases e with
  | none => exact Or.inl ⟨rfl, rfl⟩
  | some err => exact Or.inr ⟨rfl, err, [], rfl⟩

theorem Flag.raise (e : Option AlError) (st : RunState σ) : Flag st (raise e st) := by
  cases e with
  | none => exact Or.inl ⟨rfl, rfl⟩
  | some err =>
    cases h : st.handler with
    | run => simp only [AudioExperiments.raise, h]; exact Flag.handler (some err) st
    | newAudio => simp only [AudioExperiments.raise, h]; exact Or.inl ⟨rfl, rfl⟩
    | bufferData => simp only [AudioExperiments.raise, h]; exact Or.inl ⟨rfl, rfl⟩

theorem Flag_stepRel : StepRel D (Flag (σ := σ)) where
  refl a := Or.inl ⟨rfl, rfl⟩
  trans a b c := Flag_trans
  recv st := by
    rcases recv_cases st with ⟨_, h⟩ | ⟨c, more, _, h⟩ <;> rw [h] <;> exact Or.inl ⟨rfl, rfl⟩
  get p st := by
    unfold GetSourcei
    refine Flag_trans ?_ (Flag.raise _ _)
    cases (D.GetSourcei st.dev p).2.1 <;> cases p <;> exact Or.inl ⟨rfl, rfl⟩
  queue bufs st := by
    unfold SourceQueueBuffers
    exact Flag_trans (Or.inl ⟨rfl, rfl⟩) (Flag.raise _ _)
  play st := by
    unfold SourcePlay
    exact Flag_trans (Or.inl ⟨rfl, rfl⟩) (Flag.raise _ _)
  unqueue st := by
    unfold unqueue
    split
    · exact Or.inl ⟨rfl, rfl⟩
    · exact Flag_trans (Or.inl ⟨rfl, rfl⟩) (Flag.raise _ _)
  fill b c st := by
    unfold bufferData
    cases c <;> exact Or.inl ⟨rfl, rfl⟩
  handler e st := Flag.handler e st
  clear st := Or.inl ⟨rfl, rfl⟩

theorem Ext_stepRel : StepRel D (Ext (σ := σ)) where
  refl a := ⟨[], by simp⟩
  trans a b c := by
    rintro ⟨e1, h1⟩ ⟨e2, h2⟩
    exact ⟨e1 ++ e2, by rw [h2, h1, List.append_assoc]⟩
  recv st := by
    rcases recv_cases st with ⟨_, h⟩ | ⟨c, more, _, h⟩ <;> rw [h]
    · exact ⟨[], by simp⟩
    · exact ⟨[Event.recv c], rfl⟩
  get p st := ⟨_, GetSourcei_trace D p st⟩
  queue bufs st := ⟨_, (SourceQueueBuffers_frame D bufs st).1⟩
  play st := ⟨_, (SourcePlay_frame D st).1⟩
  unqueue st := by
    unfold unqueue
    split
    · exact ⟨[], by simp⟩
    · exact ⟨_, by rw [(raise_frame _ _).1]⟩
  fill b c st := by
    unfold bufferData
    cases c <;> exact ⟨_, rfl⟩
  handler e st := ⟨[], by rw [(handler_frame e st).1]; simp⟩
  clear st := ⟨[], by simp⟩

theorem loop_returned (fuel iters : Nat) :
    ∀ st : RunState σ, (loop D fuel iters st).1 = Status.returned →
      (loop D fuel iters st).2.running = false := by
  induction iters with
  | zero => intro st h; simp [loop] at h
  | succ n ih =>
    intro st
    unfold loop
    by_cases hr : st.running = true
    · rw [if_pos hr]
      by_cases hok : (iteration D fuel st).1 = Status.ok
      · rw [andThen_ok _ _ hok]; exact ih _
      · rw [andThen_stop _ _ hok]
        intro h; exact absurd h (iteration_not_returned D fuel st)
    · rw [if_neg hr]
      intro _
      simpa using hr

theorem resume_returned (fuel iters : Nat) (st : RunState σ)
    (h : (resume D fuel iters st).1 = Status.returned) :
    (resume D fuel iters st).2.running = false := by
  unfold resume at *
  by_cases hok : (iteration D fuel st).1 = Status.ok
  · rw [andThen_ok _ _ hok] at h ⊢; exact loop_returned D fuel iters _ h
  · rw [andThen_stop _ _ hok] at h
    exact absurd h (iteration_not_returned D fuel st)

theorem Flag.grown {a b : RunState σ} (h : Flag a b) (ha : a.running = true)
    (hb : b.running = false) : ∃ e es, b.handled = a.handled ++ e :: es := by
  rcases h with ⟨r, _⟩ | ⟨_, e, es, he⟩
  · rw [ha, hb] at r; exact absurd r (by simp)
  · exact ⟨e, es, he⟩

/-- A turn entered at the receive with a chunk waiting and polling budget
left begins with the receive and a `BUFFERS_PROCESSED` query, whatever the
value of `running`. -/
theorem resume_head (fuel iters : Nat) (st : RunState σ) (c : Chunk) (rest : List Chunk)
    (hc : st.schan = c :: rest) :
    ∃ tail, (resume D (fuel + 1) iters st).2.trace
      = st.trace ++ [Event.recv c,
          Event.GetSourcei Param.BUFFERS_PROCESSED
            (D.GetSourcei st.dev Param.BUFFERS_PROCESSED).2.1] ++ tail := by
  have hE := Ext_stepRel D
  obtain ⟨st1, hst1⟩ : ∃ st1 : RunState σ,
      st1 = { st with samples := some c, schan := rest,
                      trace := st.trace ++ [Event.recv c] } := ⟨_, rfl⟩
  have hrecv : recv st = (Status.ok, st1) := by
    unfold recv; rw [hc, hst1]
  have h2t : (GetSourcei D Param.BUFFERS_PROCESSED st1).trace
      = st.trace ++ [Event.recv c,
          Event.GetSourcei Param.BUFFERS_PROCESSED
            (D.GetSourcei st.dev Param.BUFFERS_PROCESSED).2.1] := by
    rw [GetSourcei_trace, hst1]; simp
  have hext : Ext (GetSourcei D Param.BUFFERS_PROCESSED st1)
      (resume D (fuel + 1) iters st).2 := by
    unfold resume iteration
    rw [hrecv, andThen_ok (Status.ok, st1) _ rfl]
    dsimp only
    apply hE.andThen _ _ _ _ (hE.loop (fuel + 1) iters)
    apply hE.andThen _ _ _ _ (fun s => hE.dequeueRefill s)
    unfold waitProcessed
    apply hE.andThen _ _ _ _ (fun s => hE.waitTail (fuel + 1) s)
    unfold pollProcessed
    dsimp only
    split
    · exact hE.refl _
    · exact hE.pollProcessed fuel _
  obtain ⟨tail, ht⟩ := hext
  exact ⟨tail, by rw [ht, h2t]⟩

end Flags

/-! ## `Close` -/

theorem raise_running {σ : Type} (e : Option AlError) (st : RunState σ) :
    (raise e st).running
      = (st.running && (decide (st.handler ≠ Handler.run) || e.isNone)) := by
  cases e with
  | none => simp [raise]
  | some err => cases h : st.handler <;> simp [raise, handler, h]

theorem Close_frame {σ : Type} (D : Device σ) (audio : Azul3DAudio) (st : RunState σ) :
    (Close D audio st).trace
      = st.trace ++ [Event.DeleteSources, Event.DeleteBuffers audio.buffers, Event.Close] ∧
    (Close D audio st).schan = st.schan := by
  unfold Close
  simp only [(raise_frame _ _).1, (raise_frame _ _).2.2.1]
  simp

/-- C8, as the code has it: `Close` never sets `running` itself.  After
`Close` the flag is what it was, unless one of the three device calls of
`Close` raised an error while the `handler` of `Run` was the installed one;
the installed handler is unchanged.  A `Run` waiting at the receive at the top
of the loop body carries on with that turn once a chunk is there, whatever
`Close` did to the flag, and a `Run` at the head of the loop with the flag
still true enters a further turn: after the three calls of `Close` the trace
goes on with the receive and a `BUFFERS_PROCESSED` query on the closed device.
And `Run` returns after `Close` only with the flag false, which, if `Close`
left it true, takes an error passed to the `handler` of `Run` after `Close`. -/
theorem Close_running_flag {σ : Type} (D : Device σ) (audio : Azul3DAudio)
    (st : RunState σ) :
    (Close D audio st).running
      = (st.running &&
          (decide (st.handler ≠ Handler.run) || (closeErrors D audio st.dev).isEmpty)) ∧
    (Close D audio st).handler = st.handler ∧
    (∀ fuel iters c rest, st.schan = c :: rest →
      ∃ tail, (resume D (fuel + 1) iters (Close D audio st)).2.trace
        = st.trace ++ [Event.DeleteSources, Event.DeleteBuffers audio.buffers, Event.Close,
            Event.recv c,
            Event.GetSourcei Param.BUFFERS_PROCESSED
              (D.GetSourcei (Close D audio st).dev Param.BUFFERS_PROCESSED).2.1] ++ tail) ∧
    (∀ fuel iters c rest, (Close D audio st).running = true → st.schan = c :: rest →
      ∃ tail, (loop D (fuel + 1) (iters + 1) (Close D audio st)).2.trace
        = st.trace ++ [Event.DeleteSources, Event.DeleteBuffers audio.buffers, Event.Close,
            Event.recv c,
            Event.GetSourcei Param.BUFFERS_PROCESSED
              (D.GetSourcei (Close D audio st).dev Param.BUFFERS_PROCESSED).2.1] ++ tail) ∧
    (∀ fuel iters, (resume D fuel iters (Close D audio st)).1 = Status.returned →
      (resume D fuel iters (Close D audio st)).2.running = false ∧
      ((Close D audio st).running = true →
        ∃ e es, (resume D fuel iters (Close D audio st)).2.handled
          = (Close D audio st).handled ++ e :: es)) ∧
    (∀ fuel iters, (loop D fuel iters (Close D audio st)).1 = Status.returned →
      (loop D fuel iters (Close D audio st)).2.running = false ∧
      ((Close D audio st).running = true →
        ∃ e es, (loop D fuel iters (Close D audio st)).2.handled
          = (Close D audio st).handled ++ e :: es)) := by
  have hhead : ∀ fuel iters c rest, st.schan = c :: rest →
      ∃ tail, (resume D (fuel + 1) iters (Close D audio st)).2.trace
        = st.trace ++ [Event.DeleteSources, Event.DeleteBuffers audio.buffers, Event.Close,
            Event.recv c,
            Event.GetSourcei Param.BUFFERS_PROCESSED
              (D.GetSourcei (Close D audio st).dev Param.BUFFERS_PROCESSED).2.1] ++ tail := by
    intro fuel iters c rest hc
    obtain ⟨tail, ht⟩ := resume_head D fuel iters (Close D audio st) c rest
      (by rw [(Close_frame D audio st).2]; exact hc)
    exact ⟨tail, by rw [ht, (Close_frame D audio st).1]; simp⟩
  refine ⟨?_, ?_, hhead, ?_, ?_, ?_⟩
  · unfold Close closeErrors
    simp only [raise_running, (raise_frame _ _).2.2.2.1, (raise_frame _ _).2.2.2.2.2.2.2]
    cases (D.DeleteSources st.dev).2 <;>
      cases (D.DeleteBuffers (D.DeleteSources st.dev).1 audio.buffers).2 <;>
      cases (D.Close (D.DeleteBuffers (D.DeleteSources st.dev).1 audio.buffers).1).2 <;>
      cases st.running <;> cases st.handler <;> simp
  · unfold Close
    simp only [(raise_frame _ _).2.2.2.2.2.2.2]
  · intro fuel iters c rest hrun hc
    have heq : loop D (fuel + 1) (iters + 1) (Close D audio st)
        = resume D (fuel + 1) iters (Close D audio st) := by
      conv_lhs => unfold loop
      rw [if_pos hrun]; rfl
    rw [heq]
    exact hhead fuel iters c rest hc
  · intro fuel iters hret
    have hf := resume_returned D fuel iters _ hret
    exact ⟨hf, fun hrun => ((Flag_stepRel D).resume fuel iters _).grown hrun hf⟩
  · intro fuel iters hret
    have hf := loop_returned D fuel iters _ hret
    exact ⟨hf, fun hrun => ((Flag_stepRel D).loop fuel iters _).grown hrun hf⟩

/-- An instance of C8 as the code has it: the steady device closed after the
first turn of the loop, with the closure of `bufferData` installed and the
chunk `[3, 4]` waiting.  The flag is still true after `Close`, the loop enters
another turn, and it returns only after the rejected `BufferData` call of that
turn has been passed to the `handler` of `Run`. -/
theorem Close_running_flag_witness :
    (Close fifoDevice (demoAudio 2)
      (Run fifoDevice (demoAudio 2) freshFifo [1, 2, 3, 4] 1 1).2).running = true ∧
    (Run fifoDevice (demoAudio 2) freshFifo [1, 2, 3, 4] 1 1).2.schan = [3, 4] :: [] ∧
    (loop fifoDevice 1 2 (Close fifoDevice (demoAudio 2)
      (Run fifoDevice (demoAudio 2) freshFifo [1, 2, 3, 4] 1 1).2)).1 = Status.returned ∧
    (∃ tail, (loop fifoDevice (0 + 1) (1 + 1) (Close fifoDevice (demoAudio 2)
        (Run fifoDevice (demoAudio 2) freshFifo [1, 2, 3, 4] 1 1).2)).2.trace
      = (Run fifoDevice (demoAudio 2) freshFifo [1, 2, 3, 4] 1 1).2.trace ++
          [Event.DeleteSources, Event.DeleteBuffers (demoAudio 2).buffers, Event.Close,
            Event.recv [3, 4],
            Event.GetSourcei Param.BUFFERS_PROCESSED
              (fifoDevice.GetSourcei (Close fifoDevice (demoAudio 2)
                (Run fifoDevice (demoAudio 2) freshFifo [1, 2, 3, 4] 1 1).2).dev
                Param.BUFFERS_PROCESSED).2.1] ++ tail) ∧
    ((loop fifoDevice 1 2 (Close fifoDevice (demoAudio 2)
        (Run fifoDevice (demoAudio 2) freshFifo [1, 2, 3, 4] 1 1).2)).2.running = false ∧
      ((Close fifoDevice (demoAudio 2)
          (Run fifoDevice (demoAudio 2) freshFifo [1, 2, 3, 4] 1 1).2).running = true →
        ∃ e es, (loop fifoDevice 1 2 (Close fifoDevice (demoAudio 2)
            (Run fifoDevice (demoAudio 2) freshFifo [1, 2, 3, 4] 1 1).2)).2.handled
          = (Close fifoDevice (demoAudio 2)
              (Run fifoDevice (demoAudio 2) freshFifo [1, 2, 3, 4] 1 1).2).handled
            ++ e :: es)) :=
  ⟨by decide, by decide, by decide,
    (Close_running_flag fifoDevice (demoAudio 2)
      (Run fifoDevice (demoAudio 2) freshFifo [1, 2, 3, 4] 1 1).2).2.2.2.1 0 1 [3, 4] []
      (by decide) (by decide),
    (Close_running_flag fifoDevice (demoAudio 2)
      (Run fifoDevice (demoAudio 2) freshFifo [1, 2, 3, 4] 1 1).2).2.2.2.2.2 1 2 (by decide)⟩

/-- C8, as the specification has it, fails: `Close` called after the first
turn of the loop leaves `running` true although the device is closed, and
`Run`, whether it is at the head of the loop or already waiting at the receive,
goes through another turn, which receives a chunk and makes six device calls
and a `bufferData` call on the deleted source and buffers. -/
theorem Close_does_not_stop_Run :
    (Close fifoDevice (demoAudio 2)
      (Run fifoDevice (demoAudio 2) freshFifo [1, 2, 3, 4] 1 1).2).dev.closed
        = true ∧
    (Close fifoDevice (demoAudio 2)
      (Run fifoDevice (demoAudio 2) freshFifo [1, 2, 3, 4] 1 1).2).running
        = true ∧
    (Close fifoDevice (demoAudio 2)
      (Run fifoDevice (demoAudio 2) freshFifo [1, 2, 3, 4] 1 1).2).trace.length
        = 13 ∧
    (loop fifoDevice 1 1 (Close fifoDevice (demoAudio 2)
      (Run fifoDevice (demoAudio 2) freshFifo [1, 2, 3, 4] 1 1).2)).2.trace.drop 13
      = [Event.recv [3, 4],
         Event.GetSourcei Param.BUFFERS_PROCESSED none,
         Event.GetSourcei Param.SOURCE_STATE none,
         Event.SourceUnqueueBuffers [0],
         Event.bufferData 0 [3, 4],
         Event.SourceQueueBuffers [0],
         Event.GetSourcei Param.BUFFERS_QUEUED none,
         Event.GetSourcei Param.SOURCE_STATE none] ∧
    (resume fifoDevice 1 0 (Close fifoDevice (demoAudio 2)
      (Run fifoDevice (demoAudio 2) freshFifo [1, 2, 3, 4] 1 1).2)).2.trace.drop 13
      = [Event.recv [3, 4],
         Event.GetSourcei Param.BUFFERS_PROCESSED none,
         Event.GetSourcei Param.SOURCE_STATE none,
         Event.SourceUnqueueBuffers [0],
         Event.bufferData 0 [3, 4],
         Event.SourceQueueBuffers [0],
         Event.GetSourcei Param.BUFFERS_QUEUED none,
         Event.GetSourcei Param.SOURCE_STATE none] := by
  decide

/-! ## `Run` on the steady device -/

theorem iteration_fifo (fuel : Nat) (x y : BufId) (c : Chunk) (cs : List Chunk)
    (sd : List (BufId × Chunk)) (st : RunState FifoState)
    (hd : st.dev = { queue := [x, y], closed := false, stored := sd })
    (hc : st.schan = c :: cs) (hne : c ≠ []) :
    iteration fifoDevice (fuel + 1) st
      = (Status.ok,
         { dev := { queue := [y, x], closed := false, stored := sd ++ [(x, c)] },
           handler := Handler.bufferData,
           running := st.running, state := PLAYING, queued := 2, processed := 1,
           samples := none, schan := cs, trace := st.trace ++ steadyTurn x c,
           handled := st.handled, lost := st.lost }) := by
  obtain ⟨dev, h, running, state, queued, processed, samples, schan, trace, handled, lost⟩ := st
  simp only at hd hc
  subst hd hc
  cases c with
  | nil => exact absurd rfl hne
  | cons a as =>
    simp [iteration, andThen, recv, waitProcessed, pollProcessed, dequeueRefill, unqueue, refill,
      bufferData, GetSourcei, SourceQueueBuffers, handler, raise, fifoDevice, FifoState.call,
      steadyTurn, PLAYING]

theorem loop_fifo (fuel : Nat) (n : Nat) :
    ∀ (x y : BufId) (cs : List Chunk) (sd : List (BufId × Chunk)) (st : RunState FifoState),
      st.dev = { queue := [x, y], closed := false, stored := sd } → st.running = true →
      st.schan = cs → (∀ c ∈ cs, c ≠ []) → n ≤ cs.length →
      (loop fifoDevice (fuel + 1) n st).1 = Status.ok ∧
      (loop fifoDevice (fuel + 1) n st).2.trace = st.trace ++ steadyTrace x y cs n ∧
      (loop fifoDevice (fuel + 1) n st).2.running = true ∧
      (loop fifoDevice (fuel + 1) n st).2.handled = st.handled ∧
      (loop fifoDevice (fuel + 1) n st).2.lost = st.lost ∧
      (loop fifoDevice (fuel + 1) n st).2.dev.stored = sd ++ writes (steadyTrace x y cs n) := by
  induction n with
  | zero =>
    intro x y cs sd st hd hr _ _ _
    cases cs <;> simp [loop, steadyTrace, hr, hd, writes]
  | succ n ih =>
    intro x y cs sd st hd hr hc hne hn
    cases cs with
    | nil => simp at hn
    | cons c cs =>
      have hit := iteration_fifo fuel x y c cs sd st hd hc (hne c (List.mem_cons_self _ _))
      obtain ⟨st2, hst2⟩ : ∃ st2 : RunState FifoState,
          st2 = { dev := { queue := [y, x], closed := false, stored := sd ++ [(x, c)] },
                  handler := Handler.bufferData,
                  running := st.running, state := PLAYING, queued := 2, processed := 1,
                  samples := none, schan := cs, trace := st.trace ++ steadyTurn x c,
                  handled := st.handled, lost := st.lost } := ⟨_, rfl⟩
      rw [← hst2] at hit
      unfold loop
      rw [if_pos hr, hit, andThen_ok _ _ rfl]
      obtain ⟨h1, h2, h3, h4, h5, h6⟩ := ih y x cs (sd ++ [(x, c)]) st2 (by rw [hst2])
        (by rw [hst2]; exact hr) (by rw [hst2])
        (fun ch hch => hne ch (List.mem_cons_of_mem _ hch)) (by simpa using hn)
      refine ⟨h1, ?_, h3, ?_, ?_, ?_⟩
      · rw [h2, hst2]
        simp [steadyTrace]
      · rw [h4, hst2]
      · rw [h5, hst2]
      · rw [h6, steadyTrace, writes_append]
        simp [steadyTurn, writes]

theorem writes_steadyTrace (n : Nat) :
    ∀ (x y : BufId) (cs : List Chunk), n ≤ cs.length →
      writes (steadyTrace x y cs n)
        = (List.range n).map fun k => (if k % 2 = 0 then x else y, cs.getD k []) := by
  induction n with
  | zero => intro x y cs _; cases cs <;> rfl
  | succ n ih =>
    intro x y cs hn
    cases cs with
    | nil => simp at hn
    | cons c cs =>
      rw [steadyTrace, writes_append, ih y x cs (by simpa using hn), List.range_succ_eq_map]
      simp only [steadyTurn, writes, List.map_cons, List.map_map, List.cons_append,
        List.nil_append, List.getD_cons_zero]
      refine congrArg _ (List.map_congr_left ?_)
      intro k _
      have hk : (k + 1) % 2 = 0 ↔ ¬ k % 2 = 0 := by omega
      by_cases h : k % 2 = 0
      · simp [h, hk, Nat.succ_eq_add_one]
      · simp [h, hk, Nat.succ_eq_add_one]

theorem submitted_steadyTrace (n : Nat) :
    ∀ (x y : BufId) (cs : List Chunk),
      submitted (steadyTrace x y cs n) = (unqueued (steadyTrace x y cs n)).flatten := by
  induction n with
  | zero => intro x y cs; cases cs <;> rfl
  | succ n ih =>
    intro x y cs
    cases cs with
    | nil => rfl
    | cons c cs =>
      rw [steadyTrace, submitted_append, unqueued_append, ih y x cs]
      simp [steadyTurn, submitted, unqueued]

/-- C10: with the pool `[b0, b1]` on the steady device (source always
`PLAYING`, one processed buffer reported at every poll, FIFO dequeue), `n`
turns of the loop over at least `n` chunks run without error; every turn
dequeues the buffer at the front, writes the chunk just received into it and
submits it again at once; the `k`-th write goes to `b0` for even `k` and to
`b1` for odd `k` and carries the `k`-th chunk, both as `Run` passes it to
`bufferData` and as the device stores it on `BufferData`; and the buffers are
submitted again in the order in which they were dequeued. -/
theorem Run_round_robin (audio : Azul3DAudio) (b0 b1 : BufId) (input : List Sample)
    (fuel n : Nat) (hb : audio.buffers = [b0, b1])
    (hn : n ≤ (stream audio.sampleSize input).emitted.length) :
    (Run fifoDevice audio freshFifo input (fuel + 1) n).1 = Status.ok ∧
    (Run fifoDevice audio freshFifo input (fuel + 1) n).2.trace
      = Event.SourceQueueBuffers [b0, b1] :: Event.SourcePlay ::
          steadyTrace b0 b1 (stream audio.sampleSize input).emitted n ∧
    writes (Run fifoDevice audio freshFifo input (fuel + 1) n).2.trace
      = (List.range n).map (fun k =>
          (if k % 2 = 0 then b0 else b1, (stream audio.sampleSize input).emitted.getD k [])) ∧
    submitted (Run fifoDevice audio freshFifo input (fuel + 1) n).2.trace
      = [b0, b1] ++
        (unqueued (Run fifoDevice audio freshFifo input (fuel + 1) n).2.trace).flatten ∧
    (Run fifoDevice audio freshFifo input (fuel + 1) n).2.handled = [] ∧
    (Run fifoDevice audio freshFifo input (fuel + 1) n).2.lost = [] ∧
    (Run fifoDevice audio freshFifo input (fuel + 1) n).2.dev.stored
      = (List.range n).map (fun k =>
          (if k % 2 = 0 then b0 else b1, (stream audio.sampleSize input).emitted.getD k [])) := by
  have hst : start fifoDevice audio freshFifo (stream audio.sampleSize input).emitted
      = { dev := { queue := [b0, b1], closed := false, stored := [] }, handler := Handler.run,
          running := true,
          state := PLAYING, queued := 2, processed := 0, samples := none,
          schan := (stream audio.sampleSize input).emitted,
          trace := [Event.SourceQueueBuffers [b0, b1], Event.SourcePlay],
          handled := [], lost := [] } := by
    simp [start, SourceQueueBuffers, SourcePlay, raise, fifoDevice, FifoState.call, hb,
      freshFifo]
  obtain ⟨h1, h2, _, h4, h5, h6⟩ := loop_fifo fuel n b0 b1
    (stream audio.sampleSize input).emitted []
    (start fifoDevice audio freshFifo (stream audio.sampleSize input).emitted)
    (by rw [hst]) (by rw [hst]) (by rw [hst]) (stream_emitted_ne_nil _ _) hn
  have htr : (Run fifoDevice audio freshFifo input (fuel + 1) n).2.trace
      = [Event.SourceQueueBuffers [b0, b1], Event.SourcePlay] ++
          steadyTrace b0 b1 (stream audio.sampleSize input).emitted n := by
    unfold Run RunOn
    rw [h2, hst]
  refine ⟨h1, htr, ?_, ?_, ?_, ?_, ?_⟩
  · rw [htr, writes_append, writes_steadyTrace n b0 b1 _ hn]; rfl
  · rw [htr, submitted_append, unqueued_append, submitted_steadyTrace]
    simp [submitted, unqueued]
  · unfold Run RunOn; rw [h4, hst]
  · unfold Run RunOn; rw [h5, hst]
  · unfold Run RunOn
    rw [h6, writes_steadyTrace n b0 b1 _ hn, List.nil_append]

/-- An instance of C10: pool `[1, 2]`, chunk size 2, three chunks, three
turns of the loop; the device ends up having stored `[1, 2]` in buffer 1,
`[3, 4]` in buffer 2 and `[5, 6]` in buffer 1. -/
theorem Run_round_robin_witness :
    (demoAudio 2).buffers = [1, 2] ∧
    3 ≤ (stream (demoAudio 2).sampleSize [1, 2, 3, 4, 5, 6]).emitted.length ∧
    (Run fifoDevice (demoAudio 2) freshFifo [1, 2, 3, 4, 5, 6] (0 + 1) 3).2.dev.stored
      = [(1, [1, 2]), (2, [3, 4]), (1, [5, 6])] ∧
    writes (Run fifoDevice (demoAudio 2) freshFifo [1, 2, 3, 4, 5, 6]
        (0 + 1) 3).2.trace
      = (List.range 3).map (fun k =>
          (if k % 2 = 0 then 1 else 2,
           (stream (demoAudio 2).sampleSize [1, 2, 3, 4, 5, 6]).emitted.getD k [])) ∧
    (Run fifoDevice (demoAudio 2) freshFifo [1, 2, 3, 4, 5, 6] (0 + 1) 3).2.dev.stored
      = (List.range 3).map (fun k =>
          (if k % 2 = 0 then 1 else 2,
           (stream (demoAudio 2).sampleSize [1, 2, 3, 4, 5, 6]).emitted.getD k [])) :=
  ⟨rfl, by decide, by decide,
    (Run_round_robin (demoAudio 2) 1 2 [1, 2, 3, 4, 5, 6] 0 3 rfl (by decide)).2.2.1,
    (Run_round_robin (demoAudio 2) 1 2 [1, 2, 3, 4, 5, 6] 0 3 rfl (by decide)).2.2.2.2.2.2⟩

/-! ## `Run` on the model device -/

theorem tick_queue (adv : Nat → Nat) (m : ModelState) : (tick adv m).queue = m.queue := by
  unfold tick
  dsimp only
  split
  · split <;> rfl
  · rfl

theorem tick_writes (adv : Nat → Nat) (m : ModelState) : (tick adv m).writes = m.writes := by
  unfold tick
  dsimp only
  split
  · split <;> rfl
  · rfl

theorem processed_le_length (m : ModelState) : m.processed ≤ m.queue.length := by
  unfold ModelState.processed
  split
  · exact Nat.min_le_right _ _
  · split
    · exact Nat.le_refl _
    · exact Nat.zero_le _

theorem tick_processed (adv : Nat → Nat) (m : ModelState) :
    m.processed ≤ (tick adv m).processed := by
  unfold tick
  dsimp only
  by_cases h : m.src = PLAYING ∧ 0 < adv m.clock
  · rw [if_pos h]
    by_cases h2 : m.queue.length ≤ m.played + adv m.clock
    · rw [if_pos h2]
      have : STOPPED ≠ PLAYING := by decide
      simp only [ModelState.processed, h.1, if_true, this, if_false]
      exact Nat.min_le_right _ _
    · rw [if_neg h2]
      simp only [ModelState.processed, h.1, if_true]
      omega
  · rw [if_neg h]
    simp only [ModelState.processed]
    exact Nat.le_refl _

section Model

variable (adv : Nat → Nat)

theorem model_GetSourcei_dev (p : Param) (st : RunState ModelState) :
    (GetSourcei (sourceModel adv) p st).dev = tick adv st.dev := by
  rw [GetSourcei_dev]
  cases p <;> rfl

theorem model_GetSourcei_sound (p : Param) (st : RunState ModelState) (h : Sound st) :
    Sound (GetSourcei (sourceModel adv) p st) := by
  refine ⟨?_, ?_⟩
  · rw [model_GetSourcei_dev, tick_queue]; exact h.nodup
  · unfold WritesOk
    rw [model_GetSourcei_dev, tick_writes]; exact h.writes

theorem model_GetSourcei_processed (st : RunState ModelState) :
    (GetSourcei (sourceModel adv) Param.BUFFERS_PROCESSED st).processed
      = ((tick adv st.dev).processed : Int) := by
  simp [GetSourcei, sourceModel, raise]

theorem model_poll_bounded (st : RunState ModelState) :
    Bounded (GetSourcei (sourceModel adv) Param.BUFFERS_PROCESSED st) := by
  unfold Bounded
  rw [model_GetSourcei_processed, model_GetSourcei_dev]

theorem model_GetSourcei_bounded (p : Param) (st : RunState ModelState) (h : Bounded st) :
    Bounded (GetSourcei (sourceModel adv) p st) := by
  by_cases hp : p = Param.BUFFERS_PROCESSED
  · rw [hp]; exact model_poll_bounded adv st
  · unfold Bounded at *
    rw [GetSourcei_other_processed _ p hp, model_GetSourcei_dev]
    have := tick_processed adv st.dev
    omega

theorem model_pollProcessed (fuel : Nat) (st : RunState ModelState) (h : Sound st) :
    Sound (pollProcessed (sourceModel adv) fuel st).2 ∧
    ((pollProcessed (sourceModel adv) fuel st).1 = Status.ok →
      Bounded (pollProcessed (sourceModel adv) fuel st).2) := by
  induction fuel generalizing st with
  | zero => exact ⟨h, by simp [pollProcessed]⟩
  | succ fuel ih =>
    unfold pollProcessed
    dsimp only
    split
    · exact ⟨model_GetSourcei_sound adv Param.BUFFERS_PROCESSED st h,
        fun _ => model_poll_bounded adv st⟩
    · exact ih _ (model_GetSourcei_sound adv _ st h)

theorem model_resync (fuel : Nat) (st : RunState ModelState) (h : Sound st) (hb : Bounded st) :
    Sound (resync (sourceModel adv) fuel st).2 ∧ Bounded (resync (sourceModel adv) fuel st).2 := by
  induction fuel generalizing st with
  | zero => unfold resync; split <;> exact ⟨h, hb⟩
  | succ fuel ih =>
    unfold resync
    dsimp only
    split
    · split
      · exact ⟨model_GetSourcei_sound adv Param.BUFFERS_PROCESSED st h,
          model_poll_bounded adv st⟩
      · exact ih _ (model_GetSourcei_sound adv _ st h) (model_poll_bounded adv st)
    · exact ⟨h, hb⟩

theorem model_waitProcessed (fuel : Nat) (st : RunState ModelState) (h : Sound st) :
    Sound (waitProcessed (sourceModel adv) fuel st).2 ∧
    ((waitProcessed (sourceModel adv) fuel st).1 = Status.ok →
      Bounded (waitProcessed (sourceModel adv) fuel st).2) := by
  obtain ⟨h1, b1⟩ := model_pollProcessed adv fuel st h
  unfold waitProcessed
  by_cases hok : (pollProcessed (sourceModel adv) fuel st).1 = Status.ok
  · rw [andThen_ok _ _ hok]
    dsimp only
    have h2 := model_GetSourcei_sound adv Param.SOURCE_STATE _ h1
    have b2 := model_GetSourcei_bounded adv Param.SOURCE_STATE _ (b1 hok)
    split
    · obtain ⟨h3, b3⟩ := model_resync adv fuel _ h2 b2
      exact ⟨h3, fun _ => b3⟩
    · exact ⟨h2, fun _ => b2⟩
  · rw [andThen_stop _ _ hok]
    exact ⟨h1, fun hc => absurd hc hok⟩

theorem model_BufferData (m : ModelState) (b : BufId) (c : Chunk) :
    ((sourceModel adv).BufferData m b c).1.queue = m.queue ∧
    (b ∉ m.queue → WritesOk m → WritesOk ((sourceModel adv).BufferData m b c).1) := by
  have hq := tick_queue adv m
  have hw := tick_writes adv m
  refine ⟨?_, ?_⟩
  · show (if b ∈ (tick adv m).queue then _ else _ : ModelState × Option AlError).1.queue = _
    split <;> exact hq
  · intro hb hok
    show WritesOk (if b ∈ (tick adv m).queue then _ else _ : ModelState × Option AlError).1
    rw [if_neg (by rw [hq]; exact hb)]
    intro w hwm
    simp only [hw, List.mem_append, List.mem_singleton] at hwm
    rcases hwm with h1 | h1
    · exact hok w h1
    · rw [h1]

theorem model_Queue (m : ModelState) (bufs : List BufId) :
    ((sourceModel adv).SourceQueueBuffers m bufs).1.queue = m.queue ++ bufs ∧
    ((sourceModel adv).SourceQueueBuffers m bufs).1.writes = m.writes := by
  refine ⟨?_, ?_⟩
  · show (tick adv m).queue ++ bufs = _
    rw [tick_queue]
  · show (tick adv m).writes = _
    rw [tick_writes]

theorem model_Play (m : ModelState) :
    ((sourceModel adv).SourcePlay m).1.queue = m.queue ∧
    ((sourceModel adv).SourcePlay m).1.writes = m.writes := by
  refine ⟨?_, ?_⟩
  · show (if (tick adv m).queue = [] then _ else _ : ModelState × Option AlError).1.queue = _
    split <;> exact tick_queue adv m
  · show (if (tick adv m).queue = [] then _ else _ : ModelState × Option AlError).1.writes = _
    split <;> exact tick_writes adv m

theorem model_SourcePlay_sound (st : RunState ModelState) (h : Sound st) :
    Sound (SourcePlay (sourceModel adv) st) := by
  refine ⟨?_, ?_⟩
  · rw [(SourcePlay_frame _ st).2.2.2, (model_Play adv _).1]; exact h.nodup
  · unfold WritesOk
    rw [(SourcePlay_frame _ st).2.2.2, (model_Play adv _).2]; exact h.writes

theorem model_unqueue (st : RunState ModelState) (h : Sound st) (hb : Bounded st) :
    ((unqueue (sourceModel adv) st).2.2 ++ (unqueue (sourceModel adv) st).2.1.dev.queue).Nodup ∧
    WritesOk (unqueue (sourceModel adv) st).2.1.dev := by
  unfold unqueue
  by_cases hneg : st.processed < 0
  · rw [if_pos hneg]; exact ⟨by simpa using h.nodup, h.writes⟩
  · rw [if_neg hneg]
    have hle : st.processed.toNat ≤ (tick adv st.dev).processed := by
      have := tick_processed adv st.dev
      unfold Bounded at hb
      omega
    have hlen : st.processed.toNat ≤ (tick adv st.dev).queue.length :=
      le_trans hle (processed_le_length _)
    have hcall : (sourceModel adv).SourceUnqueueBuffers st.dev st.processed.toNat
        = ({ tick adv st.dev with
              queue := (tick adv st.dev).queue.drop st.processed.toNat,
              played := (tick adv st.dev).played - st.processed.toNat },
           (tick adv st.dev).queue.take st.processed.toNat, none) := by
      show (if st.processed.toNat ≤ (tick adv st.dev).processed then _ else _) = _
      rw [if_pos hle]
    dsimp only
    rw [hcall]
    simp only [(raise_frame _ _).2.2.2.1]
    have htake : List.take st.processed.toNat
        (List.take st.processed.toNat (tick adv st.dev).queue
          ++ List.replicate st.processed.toNat 0)
        = List.take st.processed.toNat (tick adv st.dev).queue := by
      rw [List.take_append_of_le_length (by simp [hlen]), List.take_take, Nat.min_self]
    rw [htake, List.take_append_drop, tick_queue]
    refine ⟨h.nodup, ?_⟩
    unfold WritesOk
    show ∀ w ∈ (tick adv st.dev).writes, w.2 = false
    rw [tick_writes]; exact h.writes

theorem model_refill_cons_some (b : BufId) (rest : List BufId) (st : RunState ModelState)
    (c : Chunk) (hs : st.samples = some c) (hn : (b :: rest ++ st.dev.queue).Nodup)
    (hw : WritesOk st.dev)
    (ih : ∀ st1 : RunState ModelState, (rest ++ st1.dev.queue).Nodup → WritesOk st1.dev →
      Sound (refill (sourceModel adv) rest st1).2) :
    Sound (refill (sourceModel adv) (b :: rest) st).2 := by
  have hnq : st.dev.queue.Nodup := by
    have := hn.sublist (List.sublist_append_right (b :: rest) st.dev.queue)
    exact this
  have hbq : b ∉ st.dev.queue := by
    intro hmem
    have := (List.nodup_cons.mp hn).1
    exact this (List.mem_append_right _ hmem)
  unfold refill
  simp only [hs, andThen, Option.getD_some]
  cases c with
  | nil =>
    simp only [bufferData]
    exact ⟨hnq, hw⟩
  | cons x xs =>
    simp only [bufferData]
    apply ih
    · simp only [(SourceQueueBuffers_frame _ _ _).2.2.2.1, (handler_frame _ _).2.2.2.1,
        (model_Queue adv _ _).1, (model_BufferData adv _ _ _).1]
      have hperm : (rest ++ (st.dev.queue ++ [b])).Perm (b :: rest ++ st.dev.queue) := by
        rw [← List.append_assoc]
        exact List.perm_append_singleton b (rest ++ st.dev.queue)
      exact hperm.nodup_iff.mpr hn
    · unfold WritesOk
      simp only [(SourceQueueBuffers_frame _ _ _).2.2.2.1, (handler_frame _ _).2.2.2.1,
        (model_Queue adv _ _).2]
      exact (model_BufferData adv st.dev b (x :: xs)).2 hbq hw

theorem model_refill (bs : List BufId) :
    ∀ st : RunState ModelState, (bs ++ st.dev.queue).Nodup → WritesOk st.dev →
      Sound (refill (sourceModel adv) bs st).2 := by
  induction bs with
  | nil => intro st hn hw; exact ⟨by simpa using hn, hw⟩
  | cons b rest ih =>
    intro st hn hw
    cases hs : st.samples with
    | some c => exact model_refill_cons_some adv b rest st c hs hn hw ih
    | none =>
      rcases recv_cases st with ⟨_, hr⟩ | ⟨c, more, hc, hr⟩
      · have : refill (sourceModel adv) (b :: rest) st = (Status.blocked, st) := by
          unfold refill; simp [hs, hr, andThen]
        rw [this]
        exact ⟨hn.sublist (List.sublist_append_right (b :: rest) st.dev.queue), hw⟩
      · obtain ⟨st1, hst1⟩ : ∃ st1 : RunState ModelState,
            st1 = { st with samples := some c, schan := more,
                            trace := st.trace ++ [Event.recv c] } := ⟨_, rfl⟩
        have heq : refill (sourceModel adv) (b :: rest) st
            = refill (sourceModel adv) (b :: rest) st1 := by
          rw [hst1]
          conv_lhs => unfold refill
          conv_rhs => unfold refill
          simp [hs, hr, andThen]
        rw [heq]
        exact model_refill_cons_some adv b rest st1 c (by rw [hst1]) (by rw [hst1]; exact hn)
          (by rw [hst1]; exact hw) ih

theorem model_dequeueRefill (st : RunState ModelState) (h : Sound st) (hb : Bounded st) :
    Sound (dequeueRefill (sourceModel adv) st).2 := by
  have hu := model_unqueue adv st h hb
  unfold dequeueRefill
  rcases hq : unqueue (sourceModel adv) st with ⟨s, st1, pb⟩
  rw [hq] at hu
  have hs1 : Sound st1 :=
    ⟨hu.1.sublist (List.sublist_append_right pb st1.dev.queue), hu.2⟩
  cases s with
  | ok =>
    dsimp only
    have hr := model_refill adv pb st1 hu.1 hu.2
    by_cases hok : (refill (sourceModel adv) pb st1).1 = Status.ok
    · rw [andThen_ok _ _ hok]
      have h2 := model_GetSourcei_sound adv Param.SOURCE_STATE _
        (model_GetSourcei_sound adv Param.BUFFERS_QUEUED _ hr)
      split
      · exact model_SourcePlay_sound adv _ h2
      · exact h2
    · rw [andThen_stop _ _ hok]; exact hr
  | returned => exact hs1
  | blocked => exact hs1
  | spinning => exact hs1
  | panicked => exact hs1

theorem model_iteration (fuel : Nat) (st : RunState ModelState) (h : Sound st) :
    Sound (iteration (sourceModel adv) fuel st).2 := by
  unfold iteration
  rcases recv_cases st with ⟨_, hr⟩ | ⟨c, more, _, hr⟩
  · rw [hr, andThen_stop _ _ (by simp)]; exact h
  · rw [hr, andThen_ok _ _ rfl]
    dsimp only
    obtain ⟨st1, hst1⟩ : ∃ st1 : RunState ModelState,
        st1 = { st with samples := some c, schan := more,
                        trace := st.trace ++ [Event.recv c] } := ⟨_, rfl⟩
    rw [← hst1]
    have h1 : Sound st1 := by rw [hst1]; exact ⟨h.nodup, h.writes⟩
    obtain ⟨h2, b2⟩ := model_waitProcessed adv fuel st1 h1
    by_cases hok : (waitProcessed (sourceModel adv) fuel st1).1 = Status.ok
    · rw [andThen_ok _ _ hok]
      exact model_dequeueRefill adv _ h2 (b2 hok)
    · rw [andThen_stop _ _ hok]; exact h2

theorem model_loop (fuel iters : Nat) (st : RunState ModelState) (h : Sound st) :
    Sound (loop (sourceModel adv) fuel iters st).2 := by
  induction iters generalizing st with
  | zero => exact h
  | succ n ih =>
    unfold loop
    split
    · have h1 := model_iteration adv fuel st h
      by_cases hok : (iteration (sourceModel adv) fuel st).1 = Status.ok
      · rw [andThen_ok _ _ hok]; exact ih _ h1
      · rw [andThen_stop _ _ hok]; exact h1
    · exact h

theorem model_start (audio : Azul3DAudio) (schan : List Chunk) (hnd : audio.buffers.Nodup) :
    Sound (start (sourceModel adv) audio freshSource schan) := by
  unfold start
  dsimp only
  apply model_SourcePlay_sound
  refine ⟨?_, ?_⟩
  · rw [(SourceQueueBuffers_frame _ _ _).2.2.2.1, (model_Queue adv _ _).1]
    simpa [freshSource] using hnd
  · unfold WritesOk
    rw [(SourceQueueBuffers_frame _ _ _).2.2.2.1, (model_Queue adv _ _).2]
    simp [freshSource]

/-! ### The model source that keeps playing -/

theorem tick_stored (m : ModelState) : (tick adv m).stored = m.stored := by
  unfold tick
  dsimp only
  split
  · split <;> rfl
  · rfl

theorem tick_src (m : ModelState) (h : m.src = PLAYING ∨ m.src = STOPPED) :
    (tick adv m).src = PLAYING ∨ (tick adv m).src = STOPPED := by
  unfold tick
  dsimp only
  split
  · split
    · exact Or.inr rfl
    · exact h
  · exact h

theorem tick_stopped (m : ModelState) (h : m.src = STOPPED) :
    (tick adv m).src = STOPPED ∧ (tick adv m).processed = m.queue.length := by
  have hne : ¬ (m.src = PLAYING ∧ 0 < adv m.clock) := by
    rw [h]; intro hc; exact absurd hc.1 (by decide)
  unfold tick
  dsimp only
  rw [if_neg hne]
  refine ⟨h, ?_⟩
  have hsp : STOPPED ≠ PLAYING := by decide
  simp only [ModelState.processed, h, hsp, if_false, if_true]

theorem tick_processed_pos (hadv : ∀ k, 1 ≤ adv k) (m : ModelState)
    (h : m.src = PLAYING ∨ m.src = STOPPED) (hq : m.queue ≠ []) :
    1 ≤ (tick adv m).processed := by
  have hlen : 1 ≤ m.queue.length := by
    cases hm : m.queue with
    | nil => exact absurd hm hq
    | cons a l => simp
  rcases h with h | h
  · have hk := hadv m.clock
    unfold tick
    dsimp only
    rw [if_pos ⟨h, hk⟩]
    have hsp : STOPPED ≠ PLAYING := by decide
    split
    · simp only [ModelState.processed, hsp, if_false, if_true]; exact hlen
    · simp only [ModelState.processed, h, if_true]
      omega
  · rw [(tick_stopped adv m h).2]; exact hlen

theorem model_get_frame (p : Param) (st : RunState ModelState) :
    (GetSourcei (sourceModel adv) p st).running = st.running ∧
    (GetSourcei (sourceModel adv) p st).handled = st.handled ∧
    (p ≠ Param.BUFFERS_QUEUED → (GetSourcei (sourceModel adv) p st).queued = st.queued) := by
  cases p
  · exact ⟨rfl, rfl, fun _ => rfl⟩
  · exact ⟨rfl, rfl, fun _ => rfl⟩
  · exact ⟨rfl, rfl, fun h => absurd rfl h⟩

theorem model_get_state (st : RunState ModelState) :
    (GetSourcei (sourceModel adv) Param.SOURCE_STATE st).state
      = (GetSourcei (sourceModel adv) Param.SOURCE_STATE st).dev.src := rfl

theorem model_get_queued (st : RunState ModelState) :
    (GetSourcei (sourceModel adv) Param.BUFFERS_QUEUED st).queued
      = ((tick adv st.dev).queue.length : Int) := rfl

theorem extras_get (p : Param) (st : RunState ModelState) (h : Extras st) :
    Extras (GetSourcei (sourceModel adv) p st) := by
  refine ⟨?_, ?_, ?_⟩
  · rw [model_GetSourcei_dev]; exact tick_src adv _ h.src
  · rw [(model_get_frame adv p st).1]; exact h.running
  · rw [model_GetSourcei_dev, tick_stored, GetSourcei_trace, writes_append, h.stored]
    simp [writes]

theorem waiting_get (q : List BufId) (p : Param) (st : RunState ModelState)
    (h : Waiting q st) : Waiting q (GetSourcei (sourceModel adv) p st) := by
  refine ⟨extras_get adv p st h.extras, ?_, ?_⟩
  · rw [model_GetSourcei_dev, tick_queue]; exact h.queue
  · by_cases hp : p = Param.BUFFERS_QUEUED
    · rw [hp, model_get_queued, tick_queue, h.queue]
    · rw [(model_get_frame adv p st).2.2 hp]; exact h.queued

/-- On the model source that keeps playing, with a buffer queued and
`queued` the length of the queue, the waiting phase ends at once. -/
theorem model_wait_ok (hadv : ∀ k, 1 ≤ adv k) (fuel : Nat) (q : List BufId)
    (st : RunState ModelState) (h : Waiting q st) (hq : q ≠ []) :
    (waitProcessed (sourceModel adv) (fuel + 1) st).1 = Status.ok := by
  have h1 := waiting_get adv q Param.BUFFERS_PROCESSED st h
  have hp1 : (GetSourcei (sourceModel adv) Param.BUFFERS_PROCESSED st).processed > 0 := by
    rw [model_GetSourcei_processed]
    have := tick_processed_pos adv hadv st.dev h.extras.src (by rw [h.queue]; exact hq)
    omega
  have hpoll : pollProcessed (sourceModel adv) (fuel + 1) st
      = (Status.ok, GetSourcei (sourceModel adv) Param.BUFFERS_PROCESSED st) := by
    unfold pollProcessed
    dsimp only
    rw [if_pos hp1]
  unfold waitProcessed
  rw [hpoll, andThen_ok _ _ rfl]
  dsimp only
  have h2 := waiting_get adv q Param.SOURCE_STATE _ h1
  split
  · rename_i hst
    rw [model_get_state] at hst
    have hstop : (GetSourcei (sourceModel adv) Param.SOURCE_STATE
        (GetSourcei (sourceModel adv) Param.BUFFERS_PROCESSED st)).dev.src = STOPPED :=
      h2.extras.src.resolve_left hst
    have hlen : 0 < q.length := by
      cases q with
      | nil => exact absurd rfl hq
      | cons a l => simp
    have hqd : (GetSourcei (sourceModel adv) Param.SOURCE_STATE
        (GetSourcei (sourceModel adv) Param.BUFFERS_PROCESSED st)).queued > 0 := by
      rw [h2.queued]; exact_mod_cast hlen
    unfold resync
    rw [if_pos hqd]
    dsimp only
    have h3 := waiting_get adv q Param.BUFFERS_PROCESSED _ h2
    have heq : (GetSourcei (sourceModel adv) Param.BUFFERS_PROCESSED
        (GetSourcei (sourceModel adv) Param.SOURCE_STATE
          (GetSourcei (sourceModel adv) Param.BUFFERS_PROCESSED st))).processed
        = (GetSourcei (sourceModel adv) Param.BUFFERS_PROCESSED
        (GetSourcei (sourceModel adv) Param.SOURCE_STATE
          (GetSourcei (sourceModel adv) Param.BUFFERS_PROCESSED st))).queued := by
      rw [model_GetSourcei_processed, (tick_stopped adv _ hstop).2, h2.queue, h3.queued]
    rw [if_pos heq]
  · rfl

theorem model_unqueue_eq (st : RunState ModelState) (hb : Bounded st)
    (hneg : ¬ st.processed < 0) :
    unqueue (sourceModel adv) st
      = (Status.ok,
         { st with
            dev := { tick adv st.dev with
                      queue := (tick adv st.dev).queue.drop st.processed.toNat,
                      played := (tick adv st.dev).played - st.processed.toNat },
            trace := st.trace ++ [Event.SourceUnqueueBuffers
              ((tick adv st.dev).queue.take st.processed.toNat)] },
         (tick adv st.dev).queue.take st.processed.toNat) := by
  have hle : st.processed.toNat ≤ (tick adv st.dev).processed := by
    have := tick_processed adv st.dev
    unfold Bounded at hb
    omega
  have hlen : st.processed.toNat ≤ (tick adv st.dev).queue.length :=
    le_trans hle (processed_le_length _)
  have hcall : (sourceModel adv).SourceUnqueueBuffers st.dev st.processed.toNat
      = ({ tick adv st.dev with
            queue := (tick adv st.dev).queue.drop st.processed.toNat,
            played := (tick adv st.dev).played - st.processed.toNat },
         (tick adv st.dev).queue.take st.processed.toNat, none) := by
    show (if st.processed.toNat ≤ (tick adv st.dev).processed then _ else _) = _
    rw [if_pos hle]
  have htake : List.take st.processed.toNat
      (List.take st.processed.toNat (tick adv st.dev).queue
        ++ List.replicate st.processed.toNat 0)
      = List.take st.processed.toNat (tick adv st.dev).queue := by
    rw [List.take_append_of_le_length (by simp [hlen]), List.take_take, Nat.min_self]
  unfold unqueue
  rw [if_neg hneg]
  dsimp only
  rw [hcall]
  dsimp only
  rw [htake]
  rfl

theorem model_BufferData_eq (m : ModelState) (b : BufId) (c : Chunk) (hb : b ∉ m.queue) :
    (sourceModel adv).BufferData m b c
      = ({ tick adv m with writes := (tick adv m).writes ++ [(b, false)],
                           stored := (tick adv m).stored ++ [(b, c)] }, none) := by
  show (if b ∈ (tick adv m).queue then _ else _) = _
  rw [if_neg (by rw [tick_queue]; exact hb)]

theorem model_refillBody (b : BufId) (c : Chunk) (st : RunState ModelState)
    (hb : b ∉ st.dev.queue) (h : Extras st) :
    (refillBody (sourceModel adv) b c st).dev.queue = st.dev.queue ++ [b] ∧
    Extras (refillBody (sourceModel adv) b c st) := by
  have hq : (refillBody (sourceModel adv) b c st).dev.queue = st.dev.queue ++ [b] := by
    unfold refillBody
    rw [model_BufferData_eq adv st.dev b c hb]
    show (tick adv _).queue ++ [b] = _
    rw [tick_queue]
    show (tick adv st.dev).queue ++ [b] = _
    rw [tick_queue]
  refine ⟨hq, ?_, ?_, ?_⟩
  · unfold refillBody
    rw [model_BufferData_eq adv st.dev b c hb]
    show (tick adv _).src = PLAYING ∨ (tick adv _).src = STOPPED
    apply tick_src
    show (tick adv st.dev).src = PLAYING ∨ (tick adv st.dev).src = STOPPED
    exact tick_src adv _ h.src
  · unfold refillBody
    rw [model_BufferData_eq adv st.dev b c hb]
    exact h.running
  · rw [(refillBody_frame _ b c st).2.2, writes_append]
    unfold refillBody
    rw [model_BufferData_eq adv st.dev b c hb]
    show (tick adv _).stored = _
    rw [tick_stored]
    show (tick adv st.dev).stored ++ [(b, c)] = _
    rw [tick_stored, h.stored]
    rfl

theorem model_refill_live (bs : List BufId) :
    ∀ st : RunState ModelState, (bs ++ st.dev.queue).Nodup → Extras st → NonEmpty st →
      Extras (refill (sourceModel adv) bs st).2 ∧
      ((refill (sourceModel adv) bs st).1 = Status.ok → bs ≠ [] ∨ st.dev.queue ≠ [] →
        (refill (sourceModel adv) bs st).2.dev.queue ≠ []) := by
  induction bs with
  | nil =>
    intro st _ he _
    exact ⟨he, fun _ h => h.resolve_left (fun h => h rfl)⟩
  | cons b rest ih =>
    have hsome : ∀ (st : RunState ModelState) (c : Chunk), st.samples = some c →
        (b :: rest ++ st.dev.queue).Nodup → Extras st → NonEmpty st →
        Extras (refill (sourceModel adv) (b :: rest) st).2 ∧
        ((refill (sourceModel adv) (b :: rest) st).1 = Status.ok →
          b :: rest ≠ [] ∨ st.dev.queue ≠ [] →
          (refill (sourceModel adv) (b :: rest) st).2.dev.queue ≠ []) := by
      intro st c hs hn he hne
      cases c with
      | nil => exact absurd rfl (hne.2 [] (by simp [hs]))
      | cons x xs =>
        have hbq : b ∉ st.dev.queue := by
          intro hmem
          exact (List.nodup_cons.mp hn).1 (List.mem_append_right _ hmem)
        obtain ⟨hq, he2⟩ := model_refillBody adv b (x :: xs) st hbq he
        obtain ⟨f1, f2, _⟩ := refillBody_frame (sourceModel adv) b (x :: xs) st
        rw [refill_cons_step _ b rest st x xs hs]
        have hn2 : (rest ++ (refillBody (sourceModel adv) b (x :: xs) st).dev.queue).Nodup := by
          rw [hq]
          have hperm : (rest ++ (st.dev.queue ++ [b])).Perm (b :: rest ++ st.dev.queue) := by
            rw [← List.append_assoc]
            exact List.perm_append_singleton b (rest ++ st.dev.queue)
          exact hperm.nodup_iff.mpr hn
        have hne2 : NonEmpty (refillBody (sourceModel adv) b (x :: xs) st) := by
          unfold NonEmpty
          rw [f1, f2]
          exact ⟨hne.1, by simp⟩
        obtain ⟨i1, i2⟩ := ih _ hn2 he2 hne2
        exact ⟨i1, fun hok _ => i2 hok (Or.inr (by rw [hq]; simp))⟩
    intro st hn he hne
    cases hs : st.samples with
    | some c => exact hsome st c hs hn he hne
    | none =>
      cases hc : st.schan with
      | nil =>
        rw [refill_cons_blocked _ b rest st hs hc]
        exact ⟨he, fun h _ => by simp at h⟩
      | cons c more =>
        obtain ⟨st1, hst1⟩ : ∃ st1 : RunState ModelState,
            st1 = { st with samples := some c, schan := more,
                            trace := st.trace ++ [Event.recv c] } := ⟨_, rfl⟩
        have heq := refill_cons_recv (sourceModel adv) b rest st c more hs hc
        rw [← hst1] at heq
        rw [heq]
        have he1 : Extras st1 := by
          rw [hst1]
          refine ⟨he.src, he.running, ?_⟩
          show st.dev.stored = writes (st.trace ++ [Event.recv c])
          rw [writes_append, he.stored]
          simp [writes]
        have hne1 : NonEmpty st1 := by
          rw [hst1]
          refine ⟨fun ch hch => hne.1 ch (by rw [hc]; exact List.mem_cons_of_mem _ hch), ?_⟩
          intro ch hch
          have : ch = c := by simpa using hch.symm
          rw [this]; exact hne.1 c (by rw [hc]; exact List.mem_cons_self _ _)
        have key := hsome st1 c (by rw [hst1]) (by rw [hst1]; exact hn) he1 hne1
        exact ⟨key.1, fun hok _ => key.2 hok (Or.inl (by simp))⟩

theorem model_play_extras (st : RunState ModelState) (hrun : st.running = true)
    (hsto : st.dev.stored = writes st.trace) :
    Extras (SourcePlay (sourceModel adv) st) ∧
    (SourcePlay (sourceModel adv) st).dev.queue = st.dev.queue ∧
    (SourcePlay (sourceModel adv) st).queued = st.queued := by
  have hd := (SourcePlay_frame (sourceModel adv) st).2.2.2
  refine ⟨⟨?_, ?_, ?_⟩, ?_, ?_⟩
  · rw [hd]
    show (if (tick adv st.dev).queue = [] then _ else _ : ModelState × Option AlError).1.src
        = PLAYING ∨
      (if (tick adv st.dev).queue = [] then _ else _ : ModelState × Option AlError).1.src
        = STOPPED
    split
    · exact Or.inr rfl
    · exact Or.inl rfl
  · show (raise _ _).running = true
    rw [raise_running]
    have : ((sourceModel adv).SourcePlay st.dev).2 = none := by
      show (if (tick adv st.dev).queue = [] then _ else _ : ModelState × Option AlError).2 = none
      split <;> rfl
    rw [this]
    simpa using hrun
  · rw [hd, (SourcePlay_frame (sourceModel adv) st).1, writes_append]
    have : ((sourceModel adv).SourcePlay st.dev).1.stored = st.dev.stored := by
      show (if (tick adv st.dev).queue = [] then _ else _ : ModelState × Option AlError).1.stored
        = _
      split <;> exact tick_stored adv st.dev
    rw [this, hsto]
    simp [writes]
  · rw [hd, (model_Play adv _).1]
  · show (raise _ _).queued = _
    rw [(raise_frame _ _).2.2.2.2.2.1]

theorem extras_play (st : RunState ModelState) (h : Extras st) :
    Extras (SourcePlay (sourceModel adv) st) ∧
    (SourcePlay (sourceModel adv) st).dev.queue = st.dev.queue ∧
    (SourcePlay (sourceModel adv) st).queued = st.queued :=
  model_play_extras adv st h.running h.stored

theorem model_tail_live (st : RunState ModelState) (he : Extras st) :
    Waiting st.dev.queue
      (if (GetSourcei (sourceModel adv) Param.SOURCE_STATE
            (GetSourcei (sourceModel adv) Param.BUFFERS_QUEUED st)).state ≠ PLAYING
        then (Status.ok, SourcePlay (sourceModel adv) (GetSourcei (sourceModel adv)
            Param.SOURCE_STATE (GetSourcei (sourceModel adv) Param.BUFFERS_QUEUED st)))
        else (Status.ok, GetSourcei (sourceModel adv) Param.SOURCE_STATE
            (GetSourcei (sourceModel adv) Param.BUFFERS_QUEUED st))).2 := by
  have h4 : Waiting st.dev.queue (GetSourcei (sourceModel adv) Param.BUFFERS_QUEUED st) := by
    refine ⟨extras_get adv _ st he, ?_, ?_⟩
    · rw [model_GetSourcei_dev, tick_queue]
    · rw [model_get_queued, tick_queue]
  have h5 := waiting_get adv _ Param.SOURCE_STATE _ h4
  split
  · obtain ⟨e, q, qd⟩ := extras_play adv _ h5.extras
    exact ⟨e, q.trans h5.queue, qd.trans h5.queued⟩
  · exact h5

theorem model_dequeueRefill_live (st : RunState ModelState) (hs : Sound st) (hb : Bounded st)
    (hp : 0 < st.processed) (he : Extras st) (hne : NonEmpty st) :
    Extras (dequeueRefill (sourceModel adv) st).2 ∧
    ((dequeueRefill (sourceModel adv) st).1 = Status.ok →
      (dequeueRefill (sourceModel adv) st).2.dev.queue ≠ [] ∧
      (dequeueRefill (sourceModel adv) st).2.queued
        = ((dequeueRefill (sourceModel adv) st).2.dev.queue.length : Int)) := by
  have hu := model_unqueue_eq adv st hb (by omega)
  have hlen := unqueue_length (sourceModel adv) st (by omega)
  rw [hu] at hlen
  obtain ⟨st1, hst1⟩ : ∃ st1 : RunState ModelState,
      st1 = { st with
          dev := { tick adv st.dev with
                    queue := (tick adv st.dev).queue.drop st.processed.toNat,
                    played := (tick adv st.dev).played - st.processed.toNat },
          trace := st.trace ++ [Event.SourceUnqueueBuffers
            ((tick adv st.dev).queue.take st.processed.toNat)] } := ⟨_, rfl⟩
  rw [← hst1] at hu
  have hpb : (tick adv st.dev).queue.take st.processed.toNat ≠ [] := by
    intro h
    rw [h] at hlen
    simp only [List.length_nil] at hlen
    omega
  have he1 : Extras st1 := by
    rw [hst1]
    refine ⟨?_, he.running, ?_⟩
    · exact tick_src adv _ he.src
    · show (tick adv st.dev).stored = writes (st.trace ++ [_])
      rw [tick_stored, writes_append, he.stored]
      simp [writes]
  have hn1 : ((tick adv st.dev).queue.take st.processed.toNat ++ st1.dev.queue).Nodup := by
    rw [hst1]
    show (List.take _ (tick adv st.dev).queue ++ List.drop _ (tick adv st.dev).queue).Nodup
    rw [List.take_append_drop, tick_queue]
    exact hs.nodup
  have hne1 : NonEmpty st1 := by rw [hst1]; exact hne
  obtain ⟨r1, r2⟩ := model_refill_live adv _ st1 hn1 he1 hne1
  unfold dequeueRefill
  rw [hu]
  dsimp only
  by_cases hok : (refill (sourceModel adv)
      ((tick adv st.dev).queue.take st.processed.toNat) st1).1 = Status.ok
  · rw [andThen_ok _ _ hok]
    have ht := model_tail_live adv _ r1
    have hq := r2 hok (Or.inl hpb)
    refine ⟨ht.extras, fun _ => ⟨?_, ?_⟩⟩
    · rw [ht.queue]; exact hq
    · rw [ht.queued, ht.queue]
  · rw [andThen_stop _ _ hok]
    exact ⟨r1, fun h => absurd h hok⟩

/-- One turn of the loop on the model source that keeps playing: it either
runs to its end, back at the head of the loop with fewer chunks waiting, or
blocks on the empty channel with nothing held. -/
theorem model_iteration_live (hadv : ∀ k, 1 ≤ adv k) (fuel : Nat) (st : RunState ModelState)
    (h : Head st) :
    ((iteration (sourceModel adv) (fuel + 1) st).1 = Status.ok ∧
      Head (iteration (sourceModel adv) (fuel + 1) st).2 ∧
      (iteration (sourceModel adv) (fuel + 1) st).2.schan.length < st.schan.length) ∨
    ((iteration (sourceModel adv) (fuel + 1) st).1 = Status.blocked ∧
      Extras (iteration (sourceModel adv) (fuel + 1) st).2 ∧
      (iteration (sourceModel adv) (fuel + 1) st).2.schan = [] ∧
      (iteration (sourceModel adv) (fuel + 1) st).2.samples = none) := by
  rcases recv_cases st with ⟨hnil, hr⟩ | ⟨c, rest, hc, hr⟩
  · right
    have : iteration (sourceModel adv) (fuel + 1) st = (Status.blocked, st) := by
      unfold iteration; rw [hr]; rfl
    rw [this]
    exact ⟨rfl, h.extras, hnil, h.samples⟩
  · obtain ⟨heq, _, _⟩ := iteration_recv (sourceModel adv) (fuel + 1) st c rest hc
    obtain ⟨st1, hst1⟩ : ∃ st1 : RunState ModelState,
        st1 = { st with samples := some c, schan := rest,
                        trace := st.trace ++ [Event.recv c] } := ⟨_, rfl⟩
    rw [← hst1] at hr
    rw [hr] at heq
    dsimp only at heq
    have hw1 : Waiting st.dev.queue st1 := by
      rw [hst1]
      refine ⟨⟨h.extras.src, h.extras.running, ?_⟩, rfl, h.queued⟩
      show st.dev.stored = writes (st.trace ++ [Event.recv c])
      rw [writes_append, h.extras.stored]
      simp [writes]
    have hs1 : Sound st1 := by rw [hst1]; exact ⟨h.sound.nodup, h.sound.writes⟩
    have hne1 : NonEmpty st1 := by
      rw [hst1]
      refine ⟨fun ch hch => h.nonEmpty.1 ch (by rw [hc]; exact List.mem_cons_of_mem _ hch), ?_⟩
      intro ch hch
      have : ch = c := by simpa using hch.symm
      rw [this]; exact h.nonEmpty.1 c (by rw [hc]; exact List.mem_cons_self _ _)
    have hok := model_wait_ok adv hadv fuel st.dev.queue st1 hw1 h.queue
    have hw := waitProcessed_pres (Waiting st.dev.queue) (fun p s => waiting_get adv _ p s)
      (fuel + 1) st1 hw1
    obtain ⟨hsw, hbw⟩ := model_waitProcessed adv (fuel + 1) st1 hs1
    obtain ⟨q, hpw, _⟩ := waitProcessed_spec (sourceModel adv) (fuel + 1) st1
    have hnew := q.nonEmpty hne1
    rw [heq, andThen_ok _ _ hok]
    obtain ⟨l1, l2⟩ := model_dequeueRefill_live adv _ hsw (hbw hok) (hpw hok) hw.extras hnew
    have hsd := model_dequeueRefill adv _ hsw (hbw hok)
    obtain ⟨⟨e3, pb, _, _, _, rc3, _, w3⟩, sf3⟩ :=
      dequeueRefill_spec (sourceModel adv) _ (hpw hok)
    rcases dequeueRefill_status (sourceModel adv) _ (hpw hok) with hst | hst | hst
    · left
      refine ⟨hst, ⟨hsd, l1, (sf3 hnew).2, (l2 hst).1, (l2 hst).2, (w3 hst).2⟩, ?_⟩
      have hlen := congrArg List.length rc3
      rw [q.schan, hst1] at hlen
      simp only [List.length_append] at hlen
      rw [hc]
      simp only [List.length_cons]
      show _ < rest.length + 1
      have : (waitProcessed (sourceModel adv) (fuel + 1) st1).2.schan.length = rest.length := by
        rw [q.schan, hst1]
      subst hst1
      omega
    · right
      obtain ⟨b1, b2⟩ := dequeueRefill_blocked (sourceModel adv) _ (hpw hok) hst
      exact ⟨hst, l1, b1, b2⟩
    · exact absurd hst (sf3 hnew).1

/-- The loop on the model source that keeps playing never spins, panics or
returns; it blocks only on the empty channel with nothing held, and it does
block once it has been given more turns than there are chunks. -/
theorem model_loop_live (hadv : ∀ k, 1 ≤ adv k) (fuel iters : Nat) :
    ∀ st : RunState ModelState, Head st →
      ((loop (sourceModel adv) (fuel + 1) iters st).1 = Status.ok ∨
        (loop (sourceModel adv) (fuel + 1) iters st).1 = Status.blocked) ∧
      Extras (loop (sourceModel adv) (fuel + 1) iters st).2 ∧
      ((loop (sourceModel adv) (fuel + 1) iters st).1 = Status.blocked →
        (loop (sourceModel adv) (fuel + 1) iters st).2.schan = [] ∧
        (loop (sourceModel adv) (fuel + 1) iters st).2.samples = none) ∧
      (st.schan.length < iters →
        (loop (sourceModel adv) (fuel + 1) iters st).1 = Status.blocked) := by
  induction iters with
  | zero =>
    intro st h
    exact ⟨Or.inl rfl, h.extras, fun hb => by simp [loop] at hb, fun hl => by omega⟩
  | succ n ih =>
    intro st h
    unfold loop
    rw [if_pos h.extras.running]
    rcases model_iteration_live adv hadv fuel st h with ⟨hok, hh, hl⟩ | ⟨hb, he, hc, hs⟩
    · rw [andThen_ok _ _ hok]
      obtain ⟨i1, i2, i3, i4⟩ := ih _ hh
      exact ⟨i1, i2, i3, fun hlt => i4 (by omega)⟩
    · rw [andThen_stop _ _ (by rw [hb]; decide)]
      exact ⟨Or.inr hb, he, fun _ => ⟨hc, hs⟩, fun _ => hb⟩

theorem model_start_head (audio : Azul3DAudio) (schan : List Chunk)
    (hnd : audio.buffers.Nodup) (hne : audio.buffers ≠ []) (hch : ∀ c ∈ schan, c ≠ []) :
    Head (start (sourceModel adv) audio freshSource schan) := by
  obtain ⟨_, hs, hc⟩ := start_frame (sourceModel adv) audio freshSource schan
  obtain ⟨s0, hs0⟩ : ∃ s0 : RunState ModelState,
      s0 = SourceQueueBuffers (sourceModel adv) audio.buffers
        { dev := freshSource, handler := Handler.run, running := true, state := PLAYING,
          queued := (audio.buffers.length : Int), processed := 0, samples := none,
          schan := schan, trace := [], handled := [], lost := [] } := ⟨_, rfl⟩
  have hst : start (sourceModel adv) audio freshSource schan
      = SourcePlay (sourceModel adv) s0 := by
    rw [hs0]; rfl
  have hq0 : s0.dev.queue = audio.buffers := by
    rw [hs0, (SourceQueueBuffers_frame _ _ _).2.2.2.1, (model_Queue adv _ _).1]
    simp [freshSource]
  have hr0 : s0.running = true := by rw [hs0]; rfl
  have hd0 : s0.queued = (audio.buffers.length : Int) := by rw [hs0]; rfl
  have hsto0 : s0.dev.stored = writes s0.trace := by
    rw [hs0, (SourceQueueBuffers_frame _ _ _).1, (SourceQueueBuffers_frame _ _ _).2.2.2.1]
    show (tick adv freshSource).stored = _
    rw [tick_stored]
    rfl
  obtain ⟨he, hq, hqd⟩ := model_play_extras adv s0 hr0 hsto0
  rw [← hst] at he hq hqd
  refine ⟨model_start adv audio schan hnd, he, ?_, ?_, ?_, hs⟩
  · unfold NonEmpty
    rw [hs, hc]
    exact ⟨hch, by simp⟩
  · rw [hq, hq0]; exact hne
  · rw [hqd, hq, hq0, hd0]

end Model

/-- C5: on the model device, whatever the pace `adv` at which the source
plays, with a pool of distinct buffers, every `BufferData` call `Run` makes
through `bufferData` hits a buffer that is not queued on the source at that
moment; and the queue never holds a buffer twice. -/
theorem Run_no_double_write (adv : Nat → Nat) (audio : Azul3DAudio) (input : List Sample)
    (fuel iters : Nat) (hnd : audio.buffers.Nodup) :
    (∀ w ∈ (Run (sourceModel adv) audio freshSource input fuel iters).2.dev.writes,
      w.2 = false) ∧
    (Run (sourceModel adv) audio freshSource input fuel iters).2.dev.queue.Nodup := by
  have h := model_loop adv fuel iters _
    (model_start adv audio (stream audio.sampleSize input).emitted hnd)
  exact ⟨h.writes, h.nodup⟩

/-- An instance of C5: the pool `[1, 2]`, which is the pool `NewAudio`
builds on the model device, a source that plays five buffers between any two
calls, three turns of the loop: five writes, none on a queued buffer. -/
theorem Run_no_double_write_witness :
    (demoAudio 2).buffers.Nodup ∧
    (NewAudio (sourceModel fun _ => 5) (2 ^ 47) (Except.ok freshSource) Handler.newAudio 44100
        2).map
      (fun r => r.audio) = some (some (demoAudio 2)) ∧
    (Run (sourceModel fun _ => 5) (demoAudio 2) freshSource [1, 2, 3, 4, 5, 6, 7, 8, 9, 10]
      1 3).2.dev.writes = [(1, false), (2, false), (1, false), (2, false), (1, false)] ∧
    ((∀ w ∈ (Run (sourceModel fun _ => 5) (demoAudio 2) freshSource
          [1, 2, 3, 4, 5, 6, 7, 8, 9, 10] 1 3).2.dev.writes, w.2 = false) ∧
      (Run (sourceModel fun _ => 5) (demoAudio 2) freshSource
          [1, 2, 3, 4, 5, 6, 7, 8, 9, 10] 1 3).2.dev.queue.Nodup) :=
  ⟨by decide, by decide, by decide,
    Run_no_double_write (fun _ => 5) (demoAudio 2) [1, 2, 3, 4, 5, 6, 7, 8, 9, 10] 1 3
      (by decide)⟩

/-- C4: in a turn of the loop that finds the model source stopped with the
two distinct buffers `b0`, `b1` queued (so both are reported processed) and
`queued = 2`, `Run` receives a chunk, dequeues both buffers, writes that chunk
into `b0` and submits `b0`, receives the next chunk, writes it into `b1` and
submits `b1`, and then, the source still being reported stopped, calls
`SourcePlay`; no error is raised and the source is playing again with both
buffers queued.  On the device side the two `BufferData` calls arrive with
neither target queued, and the device stores the first chunk in `b0` and the
second in `b1`. -/
theorem iteration_starved (adv : Nat → Nat) (fuel : Nat) (b0 b1 : BufId) (c0 c1 : Chunk)
    (rest : List Chunk) (st : RunState ModelState)
    (hq : st.queued = 2) (hdq : st.dev.queue = [b0, b1]) (hds : st.dev.src = STOPPED)
    (hc : st.schan = c0 :: c1 :: rest) (h0 : c0 ≠ []) (h1 : c1 ≠ []) (hb : b0 ≠ b1) :
    (iteration (sourceModel adv) (fuel + 1) st).1 = Status.ok ∧
    (iteration (sourceModel adv) (fuel + 1) st).2.trace = st.trace ++ starvedTurn b0 b1 c0 c1 ∧
    (iteration (sourceModel adv) (fuel + 1) st).2.dev.queue = [b0, b1] ∧
    (iteration (sourceModel adv) (fuel + 1) st).2.dev.src = PLAYING ∧
    (iteration (sourceModel adv) (fuel + 1) st).2.schan = rest ∧
    (iteration (sourceModel adv) (fuel + 1) st).2.running = st.running ∧
    (iteration (sourceModel adv) (fuel + 1) st).2.handled = st.handled ∧
    (iteration (sourceModel adv) (fuel + 1) st).2.lost = st.lost ∧
    (iteration (sourceModel adv) (fuel + 1) st).2.dev.writes
      = st.dev.writes ++ [(b0, false), (b1, false)] ∧
    (iteration (sourceModel adv) (fuel + 1) st).2.dev.stored
      = st.dev.stored ++ [(b0, c0), (b1, c1)] := by
  obtain ⟨dev, h, running, state, queued, processed, samples, schan, trace, handled, lost⟩ := st
  obtain ⟨queue, played, src, clock, wr, sd⟩ := dev
  simp only at hq hdq hds hc
  subst hq hdq hds hc
  have hb1 : ¬ b1 = b0 := fun h => hb h.symm
  cases c0 with
  | nil => exact absurd rfl h0
  | cons x0 xs0 =>
    cases c1 with
    | nil => exact absurd rfl h1
    | cons x1 xs1 =>
      simp [iteration, andThen, recv, waitProcessed, pollProcessed, resync, dequeueRefill,
        unqueue, refill, bufferData, GetSourcei, SourceQueueBuffers, SourcePlay, handler, raise,
        sourceModel, tick, ModelState.processed, starvedTurn, PLAYING, STOPPED, hb1]

/-- An instance of C4: the pool `[1, 2]` on the stopped model source, the
chunks `[1, 2]` and `[3, 4]` waiting in the channel. -/
theorem iteration_starved_witness :
    starvedState.queued = 2 ∧ starvedState.dev.queue = [1, 2] ∧
    starvedState.dev.src = STOPPED ∧ starvedState.schan = [1, 2] :: [3, 4] :: [] ∧
    (iteration (sourceModel fun _ => 0) (0 + 1) starvedState).2.dev.stored
      = [(1, [1, 2]), (2, [3, 4])] ∧
    ((iteration (sourceModel fun _ => 0) (0 + 1) starvedState).1 = Status.ok ∧
    (iteration (sourceModel fun _ => 0) (0 + 1) starvedState).2.trace
      = starvedState.trace ++ starvedTurn 1 2 [1, 2] [3, 4] ∧
    (iteration (sourceModel fun _ => 0) (0 + 1) starvedState).2.dev.queue = [1, 2] ∧
    (iteration (sourceModel fun _ => 0) (0 + 1) starvedState).2.dev.src = PLAYING ∧
    (iteration (sourceModel fun _ => 0) (0 + 1) starvedState).2.schan = [] ∧
    (iteration (sourceModel fun _ => 0) (0 + 1) starvedState).2.running = starvedState.running ∧
    (iteration (sourceModel fun _ => 0) (0 + 1) starvedState).2.handled = starvedState.handled ∧
    (iteration (sourceModel fun _ => 0) (0 + 1) starvedState).2.lost = starvedState.lost ∧
    (iteration (sourceModel fun _ => 0) (0 + 1) starvedState).2.dev.writes
      = starvedState.dev.writes ++ [(1, false), (2, false)] ∧
    (iteration (sourceModel fun _ => 0) (0 + 1) starvedState).2.dev.stored
      = starvedState.dev.stored ++ [(1, [1, 2]), (2, [3, 4])]) :=
  ⟨rfl, rfl, rfl, rfl, by decide,
    iteration_starved (fun _ => 0) 0 1 2 [1, 2] [3, 4] [] starvedState rfl rfl rfl rfl
      (by decide) (by decide) (by decide)⟩

/-! ## Stuck devices -/

theorem iteration_stalled {σ : Type} (D : Device σ) (fuel : Nat) (st : RunState σ) (c : Chunk)
    (rest : List Chunk) (hc : st.schan = c :: rest)
    (hw : (waitProcessed D fuel (recv st).2).1 ≠ Status.ok) :
    (iteration D fuel st).1 ≠ Status.ok ∧
    written (iteration D fuel st).2.trace = written st.trace := by
  obtain ⟨heq, _, _⟩ := iteration_recv D fuel st c rest hc
  obtain ⟨⟨⟨evs, t, w, _, _⟩, _, _⟩, _, _⟩ := waitProcessed_spec D fuel (recv st).2
  have hr : (recv st).2.trace = st.trace ++ [Event.recv c] := by
    unfold recv; rw [hc]
  rw [heq, andThen_stop _ _ hw]
  refine ⟨hw, ?_⟩
  rw [t, hr, written_append, written_append]
  simp [written, writes, w]

theorem loop_stalled {σ : Type} (D : Device σ) (fuel : Nat) (st : RunState σ) (c : Chunk)
    (rest : List Chunk) (hc : st.schan = c :: rest)
    (hw : (waitProcessed D fuel (recv st).2).1 ≠ Status.ok) (iters : Nat) :
    written (loop D fuel iters st).2.trace = written st.trace := by
  cases iters with
  | zero => rfl
  | succ n =>
    obtain ⟨h1, h2⟩ := iteration_stalled D fuel st c rest hc hw
    unfold loop
    split
    · rw [andThen_stop _ _ h1]; exact h2
    · rfl

theorem pollProcessed_stuck (state : Int) (fuel : Nat) :
    ∀ st : RunState Unit, (pollProcessed (stuckDevice state 0) fuel st).1 = Status.spinning := by
  induction fuel with
  | zero => intro st; rfl
  | succ n ih =>
    intro st
    unfold pollProcessed
    dsimp only
    have : ¬ (GetSourcei (stuckDevice state 0) Param.BUFFERS_PROCESSED st).processed > 0 := by
      show ¬ (0 : Int) > 0
      decide
    rw [if_neg this]
    exact ih _

theorem waitProcessed_stuck (state : Int) (fuel : Nat) (st : RunState Unit) :
    (waitProcessed (stuckDevice state 0) fuel st).1 ≠ Status.ok := by
  unfold waitProcessed
  rw [andThen_stop _ _ (by rw [pollProcessed_stuck]; decide), pollProcessed_stuck]
  decide

theorem resync_stuck (fuel : Nat) :
    ∀ st : RunState Unit, st.queued = 2 →
      (resync (stuckDevice STOPPED 1) fuel st).1 = Status.spinning := by
  induction fuel with
  | zero =>
    intro st hq
    unfold resync
    rw [if_pos (by rw [hq]; decide)]
  | succ n ih =>
    intro st hq
    unfold resync
    rw [if_pos (by rw [hq]; decide)]
    dsimp only
    have hq1 : (GetSourcei (stuckDevice STOPPED 1) Param.BUFFERS_PROCESSED st).queued = 2 := by
      rw [GetSourcei_processed_queued]; exact hq
    have : ¬ (GetSourcei (stuckDevice STOPPED 1) Param.BUFFERS_PROCESSED st).processed
        = (GetSourcei (stuckDevice STOPPED 1) Param.BUFFERS_PROCESSED st).queued := by
      rw [hq1]
      show ¬ (1 : Int) = 2
      decide
    rw [if_neg this]
    exact ih _ hq1

theorem waitProcessed_stuck_resync (fuel : Nat) (st : RunState Unit) (hq : st.queued = 2) :
    (waitProcessed (stuckDevice STOPPED 1) fuel st).1 ≠ Status.ok := by
  unfold waitProcessed
  by_cases hok : (pollProcessed (stuckDevice STOPPED 1) fuel st).1 = Status.ok
  · rw [andThen_ok _ _ hok]
    dsimp only
    have hst : (GetSourcei (stuckDevice STOPPED 1) Param.SOURCE_STATE
        (pollProcessed (stuckDevice STOPPED 1) fuel st).2).state ≠ PLAYING := by
      show STOPPED ≠ PLAYING
      decide
    rw [if_pos hst]
    have hq2 : (GetSourcei (stuckDevice STOPPED 1) Param.SOURCE_STATE
        (pollProcessed (stuckDevice STOPPED 1) fuel st).2).queued = 2 := by
      have hrel : PollRel (stuckDevice STOPPED 1)
          (fun a b : RunState Unit => a.queued = 2 → b.queued = 2) :=
        { refl := fun _ h => h
          trans := fun _ _ _ h1 h2 h => h2 (h1 h)
          get := fun p s h => by
            cases p
            · exact h
            · exact h
            · rfl }
      exact hrel.get _ _ (hrel.pollProcessed fuel st hq)
    rw [resync_stuck fuel _ hq2]
    decide
  · rw [andThen_stop _ _ hok]; exact hok

/-- C9, as the specification has it, fails on a device that is stuck.  With
the source reported playing and no buffer ever processed, `Run` receives the
chunk `[1, 2]`, spins in its first polling loop and passes nothing to
`bufferData`; with the source reported stopped and one of its two queued
buffers processed, it spins in the loop `for queued > 0`.  Whatever the polling
budget and the number of turns observed, the chunk fetched at the top of the
turn is never written. -/
theorem Run_stalled_never_writes :
    ((Run (stuckDevice PLAYING 0) (demoAudio 2) () [1, 2, 3, 4] 6 3).1 = Status.spinning ∧
      received (Run (stuckDevice PLAYING 0) (demoAudio 2) () [1, 2, 3, 4] 6 3).2.trace
        = [[1, 2]] ∧
      written (Run (stuckDevice PLAYING 0) (demoAudio 2) () [1, 2, 3, 4] 6 3).2.trace = [] ∧
      (Run (stuckDevice PLAYING 0) (demoAudio 2) () [1, 2, 3, 4] 6 3).2.samples
        = some [1, 2]) ∧
    ((Run (stuckDevice STOPPED 1) (demoAudio 2) () [1, 2, 3, 4] 6 3).1 = Status.spinning ∧
      received (Run (stuckDevice STOPPED 1) (demoAudio 2) () [1, 2, 3, 4] 6 3).2.trace
        = [[1, 2]] ∧
      written (Run (stuckDevice STOPPED 1) (demoAudio 2) () [1, 2, 3, 4] 6 3).2.trace = [] ∧
      (Run (stuckDevice STOPPED 1) (demoAudio 2) () [1, 2, 3, 4] 6 3).2.samples
        = some [1, 2]) ∧
    (¬ ∃ fuel iters,
      written (Run (stuckDevice PLAYING 0) (demoAudio 2) () [1, 2, 3, 4] fuel iters).2.trace
        ≠ []) ∧
    (¬ ∃ fuel iters,
      written (Run (stuckDevice STOPPED 1) (demoAudio 2) () [1, 2, 3, 4] fuel iters).2.trace
        ≠ []) := by
  refine ⟨by decide, by decide, ?_, ?_⟩
  · rintro ⟨fuel, iters, h⟩
    apply h
    unfold Run RunOn
    rw [loop_stalled (stuckDevice PLAYING 0) fuel _ [1, 2] [[3, 4]] (by decide)
      (waitProcessed_stuck PLAYING fuel _) iters]
    decide
  · rintro ⟨fuel, iters, h⟩
    apply h
    unfold Run RunOn
    rw [loop_stalled (stuckDevice STOPPED 1) fuel _ [1, 2] [[3, 4]] (by decide)
      (waitProcessed_stuck_resync fuel _ (by decide)) iters]
    decide

/-- C9, as the code has it.  For every device and every observed run of
`Run`: no panic occurs; the chunks passed to `bufferData`, followed by the
chunk still held in `samples`, are exactly the chunks received from `schan`,
in order, so nothing is written twice or out of order, and at the head of the
loop nothing is held; the chunks received are the front of what `stream`
emits; every dequeue is sized by a processed count of at least 1; a completed
turn that dequeues `p` buffers receives exactly `p` chunks and writes exactly
those, the one fetched at the top included.  A turn does complete when the
device lets its waiting phase end and the channel holds the chunks for the
buffers reported processed.  On the model source that keeps playing the
waiting phase always ends: given more turns than there are chunks, `Run` ends
blocked on the empty channel, having passed to `bufferData` every chunk
`stream` emitted, once and in order, and the device has stored exactly
those. -/
theorem Run_no_chunk_lost_or_duplicated {σ : Type} (D : Device σ) (audio : Azul3DAudio)
    (dev : σ) (input : List Sample) (fuel iters : Nat) :
    (Run D audio dev input fuel iters).1 ≠ Status.panicked ∧
    written (Run D audio dev input fuel iters).2.trace
        ++ (Run D audio dev input fuel iters).2.samples.toList
      = received (Run D audio dev input fuel iters).2.trace ∧
    ((Run D audio dev input fuel iters).1 = Status.ok ∨
        (Run D audio dev input fuel iters).1 = Status.returned →
      written (Run D audio dev input fuel iters).2.trace
        = received (Run D audio dev input fuel iters).2.trace) ∧
    received (Run D audio dev input fuel iters).2.trace
        ++ (Run D audio dev input fuel iters).2.schan
      = (stream audio.sampleSize input).emitted ∧
    (∀ pb ∈ unqueued (Run D audio dev input fuel iters).2.trace, 1 ≤ pb.length) ∧
    (∀ st st1 : RunState σ, iteration D fuel st = (Status.ok, st1) →
      ∃ evs pb, st1.trace = st.trace ++ evs ∧ unqueued evs = [pb] ∧ 1 ≤ pb.length ∧
        (received evs).length = pb.length ∧ (writes evs).length = pb.length ∧
        written evs = received evs) ∧
    (∀ (st : RunState σ) (c : Chunk) (rest : List Chunk), st.schan = c :: rest →
      NonEmpty st → (waitProcessed D fuel (recv st).2).1 = Status.ok →
      (waitProcessed D fuel (recv st).2).2.processed.toNat ≤ st.schan.length →
      (iteration D fuel st).1 = Status.ok) ∧
    (∀ adv : Nat → Nat, (∀ k, 1 ≤ adv k) → audio.buffers.Nodup → audio.buffers ≠ [] →
      (stream audio.sampleSize input).emitted.length < iters →
      (Run (sourceModel adv) audio freshSource input (fuel + 1) iters).1 = Status.blocked ∧
      written (Run (sourceModel adv) audio freshSource input (fuel + 1) iters).2.trace
        = (stream audio.sampleSize input).emitted ∧
      (Run (sourceModel adv) audio freshSource input (fuel + 1) iters).2.dev.stored.map Prod.snd
        = (stream audio.sampleSize input).emitted ∧
      (Run (sourceModel adv) audio freshSource input (fuel + 1) iters).2.samples = none) := by
  obtain ⟨s1, s2, s3, s4, s5, s6⟩ := Run_safety D audio dev input fuel iters
  refine ⟨s1, s2, s3, s4, s5, s6, ?_, ?_⟩
  · intro st c rest hc hn hw hl
    exact iteration_total D fuel st c rest hc hn hw hl
  · intro adv hadv hnd hne hlt
    have hh := model_start_head adv audio (stream audio.sampleSize input).emitted hnd hne
      (stream_emitted_ne_nil _ _)
    obtain ⟨_, he, hb, hlast⟩ := model_loop_live adv hadv fuel iters _ hh
    have hsch : (start (sourceModel adv) audio freshSource
        (stream audio.sampleSize input).emitted).schan
        = (stream audio.sampleSize input).emitted :=
      (start_frame _ audio freshSource _).2.2
    have hblk : (Run (sourceModel adv) audio freshSource input (fuel + 1) iters).1
        = Status.blocked := hlast (by rw [hsch]; exact hlt)
    obtain ⟨hc0, hs0⟩ := hb hblk
    obtain ⟨_, m2, _, m4, _, _⟩ :=
      Run_safety (sourceModel adv) audio freshSource input (fuel + 1) iters
    have hs0' : (Run (sourceModel adv) audio freshSource input (fuel + 1) iters).2.samples
        = none := hs0
    have hc0' : (Run (sourceModel adv) audio freshSource input (fuel + 1) iters).2.schan
        = [] := hc0
    rw [hs0'] at m2
    rw [hc0'] at m4
    simp only [Option.toList, List.append_nil] at m2 m4
    have hw : written (Run (sourceModel adv) audio freshSource input (fuel + 1) iters).2.trace
        = (stream audio.sampleSize input).emitted := by rw [m2, m4]
    refine ⟨hblk, hw, ?_, hs0'⟩
    have hst : (Run (sourceModel adv) audio freshSource input (fuel + 1) iters).2.dev.stored
        = writes (Run (sourceModel adv) audio freshSource input (fuel + 1) iters).2.trace :=
      he.stored
    rw [hst]
    exact hw

/-- An instance of C9 as the code has it: the pool `[1, 2]` on the model
source that plays five buffers between any two calls, so that every turn
finds the source run dry, goes through the loop `for queued > 0` and dequeues
both buffers; four chunks, five turns allowed. -/
theorem Run_no_chunk_lost_or_duplicated_witness :
    (∀ k : Nat, 1 ≤ (fun _ : Nat => 5) k) ∧ (demoAudio 2).buffers.Nodup ∧
    (demoAudio 2).buffers ≠ [] ∧
    (stream (demoAudio 2).sampleSize [1, 2, 3, 4, 5, 6, 7, 8]).emitted.length < 5 ∧
    unqueued (Run (sourceModel fun _ => 5) (demoAudio 2) freshSource [1, 2, 3, 4, 5, 6, 7, 8]
        (0 + 1) 5).2.trace = [[1, 2], [1, 2]] ∧
    (Run (sourceModel fun _ => 5) (demoAudio 2) freshSource [1, 2, 3, 4, 5, 6, 7, 8]
        (0 + 1) 5).2.dev.stored = [(1, [1, 2]), (2, [3, 4]), (1, [5, 6]), (2, [7, 8])] ∧
    ((Run (sourceModel fun _ => 5) (demoAudio 2) freshSource [1, 2, 3, 4, 5, 6, 7, 8]
        (0 + 1) 5).1 = Status.blocked ∧
      written (Run (sourceModel fun _ => 5) (demoAudio 2) freshSource [1, 2, 3, 4, 5, 6, 7, 8]
          (0 + 1) 5).2.trace
        = (stream (demoAudio 2).sampleSize [1, 2, 3, 4, 5, 6, 7, 8]).emitted ∧
      (Run (sourceModel fun _ => 5) (demoAudio 2) freshSource [1, 2, 3, 4, 5, 6, 7, 8]
          (0 + 1) 5).2.dev.stored.map Prod.snd
        = (stream (demoAudio 2).sampleSize [1, 2, 3, 4, 5, 6, 7, 8]).emitted ∧
      (Run (sourceModel fun _ => 5) (demoAudio 2) freshSource [1, 2, 3, 4, 5, 6, 7, 8]
          (0 + 1) 5).2.samples = none) :=
  ⟨fun _ => (by decide : (1 : Nat) ≤ 5), by decide, by decide, by decide, by decide, by decide,
    (Run_no_chunk_lost_or_duplicated (sourceModel fun _ => 5) (demoAudio 2) freshSource
      [1, 2, 3, 4, 5, 6, 7, 8] 0 5).2.2.2.2.2.2.2 (fun _ => 5)
      (fun _ => (by decide : (1 : Nat) ≤ 5)) (by decide) (by decide) (by decide)⟩

end AudioExperiments
